import Mathlib

/-!
# Verification of `vector.h` (RawMemory / Vector)

Shallow embedding of the two class templates of `src/vector.h`.

* A block of raw storage is a list of slots; a slot is `none` while it is
  uninitialized storage and `some x` while it holds a live object of value `x`.
* Pointers and iterators into a buffer are slot indices (`pos - begin()`).
* The element type `T` is a parameter: its value-initialized value `T()`, the
  state a move leaves in its source, and the compile-time trait
  `is_nothrow_move_constructible_v<T> || !is_copy_constructible_v<T>` that
  selects move or copy on the transfer paths.
* `assert` is compiled in: a failed assertion is the result `Fault.assertion`.
  Using an object that was never constructed, or storage outside the block, is
  `Fault.undefined`.
* Constructor calls do not throw and allocation succeeds, except in the
  `...Throwing` variants of the growth paths, where a `Throws` value says which
  copy and move constructor calls throw; these variants also report the contents
  of the new block at the moment the exception leaves the function.
* An iterator range whose first iterator lies past its last one is not a valid
  range in C++; the model follows the counted loop of the usual library
  implementations, which performs no assignment on such a range.
* Where two objects matter, the blocks live in a store and an object holds the
  address of its block (`Heap`, `VectorRef`), so that two objects can designate
  one block; the member functions in the store are proved to compute, on the
  vector an object designates, what the member functions on values compute.
* `size_t` values are natural numbers; a block of `2^63` or more elements cannot
  be allocated, so `size_ * 2` is taken without wrap-around. The one unsigned
  subtraction that can wrap on a call (`size_ - 1` at `size_ == 0`) wraps modulo
  `2^64`.
-/

namespace VectorLib

/-- Outcome of a call that does not complete. -/
inductive Fault where
  | assertion
  | undefined
  deriving DecidableEq, Repr

/-- Capabilities of the element type `T`. -/
structure ElemOps (α : Type) where
  /-- Value of `T()`. -/
  value_init : α
  /-- State left in the source object by a move construction or move assignment. -/
  moved_from : α → α
  /-- Value of `is_nothrow_move_constructible_v<T> || !is_copy_constructible_v<T>`. -/
  nothrow_move : Bool

/-- Slots of one storage block. -/
abbrev Slots (α : Type) := List (Option α)

/-- Unsigned subtraction on `size_t`: wraps modulo `2^64` when `b > a`. -/
def usub (a b : Nat) : Nat := if b ≤ a then a - b else a + 2 ^ 64 - b

/-! ## Object-lifetime primitives of `<memory>` and `<algorithm>` -/

/-- Placement new, `new (p) T(x)`, at slot `i`. -/
def construct_at {α : Type} (buf : Slots α) (i : Nat) (x : α) : Except Fault (Slots α) :=
  if i < buf.length then .ok (buf.set i (some x)) else .error .undefined

/-- Model of `std::destroy_n(first, n)`: runs the destructor of `n` consecutive objects. -/
def destroy_n {α : Type} (buf : Slots α) (first : Nat) : Nat → Except Fault (Slots α)
  | 0 => .ok buf
  | n + 1 =>
    match buf[first]? with
    | some (some _) => destroy_n (buf.set first none) (first + 1) n
    | _ => .error .undefined

/-- Model of `std::uninitialized_value_construct_n(first, n)`. -/
def uninitialized_value_construct_n {α : Type} (E : ElemOps α) (buf : Slots α) (first : Nat) :
    Nat → Except Fault (Slots α)
  | 0 => .ok buf
  | n + 1 =>
    match construct_at buf first E.value_init with
    | .ok buf1 => uninitialized_value_construct_n E buf1 (first + 1) n
    | .error e => .error e

/-- Model of `std::uninitialized_copy_n(first, n, d_first)` from block `src` into block `dst`. -/
def uninitialized_copy_n {α : Type} (src : Slots α) (first : Nat) (dst : Slots α) (d_first : Nat) :
    Nat → Except Fault (Slots α × Slots α)
  | 0 => .ok (src, dst)
  | n + 1 =>
    match src[first]? with
    | some (some x) =>
      match construct_at dst d_first x with
      | .ok dst1 => uninitialized_copy_n src (first + 1) dst1 (d_first + 1) n
      | .error e => .error e
    | _ => .error .undefined

/-- Model of `std::uninitialized_move_n(first, n, d_first)` from block `src` into block `dst`;
every source object is left in its moved-from state. -/
def uninitialized_move_n {α : Type} (E : ElemOps α) (src : Slots α) (first : Nat) (dst : Slots α)
    (d_first : Nat) : Nat → Except Fault (Slots α × Slots α)
  | 0 => .ok (src, dst)
  | n + 1 =>
    match src[first]? with
    | some (some x) =>
      match construct_at dst d_first x with
      | .ok dst1 =>
        uninitialized_move_n E (src.set first (some (E.moved_from x))) (first + 1) dst1
          (d_first + 1) n
      | .error e => .error e
    | _ => .error .undefined

/-- Move assignment `buf[d] = std::move(buf[s])` between two live objects of one block. -/
def move_assign {α : Type} (E : ElemOps α) (buf : Slots α) (d s : Nat) : Except Fault (Slots α) :=
  match buf[s]?, buf[d]? with
  | some (some x), some (some _) => .ok ((buf.set d (some x)).set s (some (E.moved_from x)))
  | _, _ => .error .undefined

/-- Loop of `std::move(first, last, d_first)`: `n` steps of `*d_first++ = std::move(*first++)`. -/
def move_loop {α : Type} (E : ElemOps α) (buf : Slots α) (first d_first : Nat) :
    Nat → Except Fault (Slots α)
  | 0 => .ok buf
  | n + 1 =>
    match move_assign E buf d_first first with
    | .ok buf1 => move_loop E buf1 (first + 1) (d_first + 1) n
    | .error e => .error e

/-- Model of `std::move(first, last, d_first)` inside one block. The loop runs `last - first`
times when that is positive and not at all otherwise. -/
def move_range {α : Type} (E : ElemOps α) (buf : Slots α) (first last d_first : Nat) :
    Except Fault (Slots α) :=
  move_loop E buf first d_first (last - first)

/-- Loop of `std::move_backward`: `n` steps of `*--d_last = std::move(*--last)`. -/
def move_backward_loop {α : Type} (E : ElemOps α) (buf : Slots α) (last d_last : Nat) :
    Nat → Except Fault (Slots α)
  | 0 => .ok buf
  | n + 1 =>
    match move_assign E buf (d_last - 1) (last - 1) with
    | .ok buf1 => move_backward_loop E buf1 (last - 1) (d_last - 1) n
    | .error e => .error e

/-- Model of `std::move_backward(first, last, d_last)` inside one block. The loop runs
`last - first` times when that is positive and not at all otherwise. -/
def move_backward {α : Type} (E : ElemOps α) (buf : Slots α) (first last d_last : Nat) :
    Except Fault (Slots α) :=
  move_backward_loop E buf last d_last (last - first)

/-- Copy assignment `buf[i] = x` to a live object. -/
def copy_assign {α : Type} (buf : Slots α) (i : Nat) (x : α) : Except Fault (Slots α) :=
  match buf[i]? with
  | some (some _) => .ok (buf.set i (some x))
  | _ => .error .undefined

/-- Reading a live object. -/
def read_at {α : Type} (buf : Slots α) (i : Nat) : Except Fault α :=
  match buf[i]? with
  | some (some x) => .ok x
  | _ => .error .undefined

/-! ## `RawMemory<T>` -/

/-- Fields of `RawMemory<T>`: the block `buffer_` points to, and `capacity_`. The null pointer is
the block with no slot. -/
structure RawMemory (α : Type) where
  buffer_ : Slots α
  capacity_ : Nat
  deriving DecidableEq, Repr

namespace RawMemory

/-- Model of `RawMemory::Allocate(n)`: `n` uninitialized slots (none for `n == 0`). -/
def Allocate {α : Type} (n : Nat) : Slots α :=
  if n ≠ 0 then List.replicate n none else []

/-- Model of `RawMemory() = default`. -/
def empty {α : Type} : RawMemory α := ⟨[], 0⟩

/-- Model of `explicit RawMemory(size_t capacity)`. -/
def ofCapacity {α : Type} (capacity : Nat) : RawMemory α := ⟨Allocate capacity, capacity⟩

/-- Model of `RawMemory::operator+(offset)`: the one-past-the-end address is allowed. -/
def plus {α : Type} (m : RawMemory α) (offset : Nat) : Except Fault Nat :=
  if offset ≤ m.capacity_ then .ok offset else .error .assertion

/-- Model of `RawMemory::operator[](index)`: the slot designated by the returned reference. -/
def index {α : Type} (m : RawMemory α) (index : Nat) : Except Fault Nat :=
  if index < m.capacity_ then .ok index else .error .assertion

/-- Model of `RawMemory::Swap`. -/
def Swap {α : Type} (a b : RawMemory α) : RawMemory α × RawMemory α := (b, a)

/-- Model of `RawMemory::Capacity`. -/
def Capacity {α : Type} (m : RawMemory α) : Nat := m.capacity_

/-- Model of `RawMemory(RawMemory&& other)`: the new object and what is left in `other`. The
body assigns `std::move(other.buffer_)` and `std::move(other.capacity_)` to the members of the
new object; for a pointer and a `size_t` that is a copy, and nothing is assigned to `other`. -/
def moveCtor {α : Type} (other : RawMemory α) : RawMemory α × RawMemory α :=
  (⟨other.buffer_, other.capacity_⟩, other)

/-- Model of `RawMemory::operator=(RawMemory&& rhs)`: the new `*this` and what is left in `rhs`.
Both members of `*this` are overwritten with copies of the members of `rhs`. -/
def moveAssign {α : Type} (_this rhs : RawMemory α) : RawMemory α × RawMemory α :=
  (⟨rhs.buffer_, rhs.capacity_⟩, rhs)

end RawMemory

/-! ## `Vector<T>` -/

/-- Fields of `Vector<T>`. -/
structure Vector (α : Type) where
  data_ : RawMemory α
  size_ : Nat
  deriving DecidableEq, Repr

/-- Which constructor calls of the element type throw, by the value of the object that is
copied or moved. -/
structure Throws (α : Type) where
  copy_throws : α → Bool
  move_throws : α → Bool

/-- Outcome of a transfer between two blocks whose constructor calls may throw: the source and
destination block when the transfer returned, or when the exception left it. -/
inductive Moved (α : Type) where
  | completed (src dst : Slots α)
  | threw (src dst : Slots α)
  deriving DecidableEq, Repr

/-- Outcome of a member function whose transfer may throw: the vector after a normal return,
or the vector and the contents of the block of `new_data` when the exception leaves the
function (before `new_data` releases the block). -/
inductive Outcome (α : Type) where
  | returned (v : Vector α)
  | threw (v : Vector α) (new_data : Slots α)
  deriving DecidableEq, Repr

namespace Vector

variable {α : Type}

/-- Model of `Vector() = default`. -/
def empty : Vector α := ⟨RawMemory.empty, 0⟩

/-- Model of `Vector::Size`. -/
def Size (v : Vector α) : Nat := v.size_

/-- Model of `Vector::Capacity`. -/
def Capacity (v : Vector α) : Nat := v.data_.Capacity

/-- Model of `Vector::Swap`. -/
def Swap (a b : Vector α) : Vector α × Vector α :=
  let d := RawMemory.Swap a.data_ b.data_
  (⟨d.1, b.size_⟩, ⟨d.2, a.size_⟩)

/-- Model of `explicit Vector(size_t size)`. -/
def ofSize (E : ElemOps α) (size : Nat) : Except Fault (Vector α) :=
  let data : RawMemory α := RawMemory.ofCapacity size
  match uninitialized_value_construct_n E data.buffer_ 0 size with
  | .ok buf => .ok ⟨⟨buf, data.capacity_⟩, size⟩
  | .error e => .error e

/-- Model of `Vector(const Vector& other)`. -/
def copy (other : Vector α) : Except Fault (Vector α) :=
  let data : RawMemory α := RawMemory.ofCapacity other.size_
  match uninitialized_copy_n other.data_.buffer_ 0 data.buffer_ 0 other.size_ with
  | .ok (_, buf) => .ok ⟨⟨buf, data.capacity_⟩, other.size_⟩
  | .error e => .error e

/-- Model of `Vector(Vector&& other)`: the new object and what is left in `other`. -/
def moveCtor (other : Vector α) : Vector α × Vector α :=
  Swap empty other

/-- Model of `Vector::operator[](index)`: the slot designated by the returned reference. -/
def at_ (v : Vector α) (index : Nat) : Except Fault Nat :=
  if index < v.size_ then v.data_.index index else .error .assertion

/-- Value read through `operator[]`. -/
def get (v : Vector α) (index : Nat) : Except Fault α :=
  match v.at_ index with
  | .ok i => read_at v.data_.buffer_ i
  | .error e => .error e

/-- Transfer of the live objects on the growth paths: move when the trait holds, copy
otherwise. -/
def transfer (E : ElemOps α) (src : Slots α) (first : Nat) (dst : Slots α) (d_first n : Nat) :
    Except Fault (Slots α × Slots α) :=
  if E.nothrow_move then uninitialized_move_n E src first dst d_first n
  else uninitialized_copy_n src first dst d_first n

/-- Model of `Vector::Reserve`. The old block, swapped into `new_data`, is released when
`new_data` goes out of scope. -/
def Reserve (E : ElemOps α) (v : Vector α) (new_capacity : Nat) : Except Fault (Vector α) :=
  if new_capacity ≤ v.data_.Capacity then .ok v
  else
    let new_data : RawMemory α := RawMemory.ofCapacity new_capacity
    match transfer E v.data_.buffer_ 0 new_data.buffer_ 0 v.size_ with
    | .error e => .error e
    | .ok (old, nw) =>
      match destroy_n old 0 v.size_ with
      | .error e => .error e
      | .ok old1 =>
        let sw := RawMemory.Swap ⟨old1, v.data_.capacity_⟩ ⟨nw, new_data.capacity_⟩
        .ok ⟨sw.1, v.size_⟩

/-- Model of `Vector::Resize`. -/
def Resize (E : ElemOps α) (v : Vector α) (new_size : Nat) : Except Fault (Vector α) :=
  if new_size ≤ v.size_ then
    match v.data_.index new_size with
    | .error e => .error e
    | .ok p =>
      match destroy_n v.data_.buffer_ p (v.size_ - new_size) with
      | .error e => .error e
      | .ok buf => .ok ⟨⟨buf, v.data_.capacity_⟩, new_size⟩
  else
    match Reserve E v new_size with
    | .error e => .error e
    | .ok v1 =>
      match v1.data_.index v1.size_ with
      | .error e => .error e
      | .ok p =>
        match uninitialized_value_construct_n E v1.data_.buffer_ p (new_size - v1.size_) with
        | .error e => .error e
        | .ok buf => .ok ⟨⟨buf, v1.data_.capacity_⟩, new_size⟩

/-- Move construction `new (buf + d) T(std::move(buf[s]))` inside one block. -/
def move_construct (E : ElemOps α) (buf : Slots α) (d s : Nat) : Except Fault (Slots α) :=
  match buf[s]? with
  | some (some x) => construct_at (buf.set s (some (E.moved_from x))) d x
  | _ => .error .undefined

/-- Model of `Vector::Emplace(pos, args...)` with `x` the value of `T(args...)`; returns the new
state and the slot of the returned iterator. The handlers of the reallocating branch only run
when a constructor throws, which no constructor of this model does. -/
def Emplace (E : ElemOps α) (v : Vector α) (pos : Nat) (x : α) : Except Fault (Vector α × Nat) :=
  let idx := pos
  let body : Except Fault (RawMemory α) :=
    if v.size_ = v.Capacity then
      let new_data : RawMemory α := RawMemory.ofCapacity (if v.size_ = 0 then 1 else v.size_ * 2)
      match new_data.index idx with
      | .error e => .error e
      | .ok p =>
        match construct_at new_data.buffer_ p x with
        | .error e => .error e
        | .ok nb0 =>
          match transfer E v.data_.buffer_ 0 nb0 0 idx with
          | .error e => .error e
          | .ok (old1, nb1) =>
            match transfer E old1 idx nb1 (idx + 1) (usub v.size_ idx) with
            | .error e => .error e
            | .ok (old2, nb2) =>
              match destroy_n old2 0 v.size_ with
              | .error e => .error e
              | .ok old3 =>
                .ok (RawMemory.Swap ⟨old3, v.data_.capacity_⟩ ⟨nb2, new_data.capacity_⟩).1
    else
      let shifted : Except Fault (Slots α) :=
        if v.size_ ≠ 0 then
          match v.data_.index (v.size_ - 1) with
          | .error e => .error e
          | .ok p =>
            match move_construct E v.data_.buffer_ v.size_ p with
            | .error e => .error e
            | .ok buf1 => move_backward E buf1 idx (v.size_ - 1) v.size_
        else .ok v.data_.buffer_
      match shifted with
      | .error e => .error e
      | .ok buf2 =>
        match v.data_.index idx with
        | .error e => .error e
        | .ok p =>
          match (if idx < v.size_ then copy_assign buf2 p x else construct_at buf2 p x) with
          | .error e => .error e
          | .ok buf3 => .ok ⟨buf3, v.data_.capacity_⟩
  match body with
  | .error e => .error e
  | .ok data =>
    match data.index idx with
    | .error e => .error e
    | .ok p => .ok (⟨data, v.size_ + 1⟩, p)

/-- Model of `Vector::Erase(pos)`; returns the new state and the slot of the returned iterator. -/
def Erase (E : ElemOps α) (v : Vector α) (pos : Nat) : Except Fault (Vector α × Nat) :=
  let idx := pos
  match move_range E v.data_.buffer_ (idx + 1) v.size_ idx with
  | .error e => .error e
  | .ok buf1 =>
    match destroy_n buf1 (usub v.size_ 1) 1 with
    | .error e => .error e
    | .ok buf2 => .ok (⟨⟨buf2, v.data_.capacity_⟩, usub v.size_ 1⟩, idx)

/-- Model of `Vector::Insert(pos, value)`, both overloads. -/
def Insert (E : ElemOps α) (v : Vector α) (pos : Nat) (value : α) :
    Except Fault (Vector α × Nat) :=
  Emplace E v pos value

/-- Model of `Vector::EmplaceBack(args...)` with `x` the value of `T(args...)`; returns the new
state and the slot of the returned reference. -/
def EmplaceBack (E : ElemOps α) (v : Vector α) (x : α) : Except Fault (Vector α × Nat) :=
  let body : Except Fault (RawMemory α) :=
    if v.size_ = v.Capacity then
      let new_data : RawMemory α := RawMemory.ofCapacity (if v.size_ = 0 then 1 else v.size_ * 2)
      match new_data.index v.size_ with
      | .error e => .error e
      | .ok p =>
        match construct_at new_data.buffer_ p x with
        | .error e => .error e
        | .ok nb0 =>
          match transfer E v.data_.buffer_ 0 nb0 0 v.size_ with
          | .error e => .error e
          | .ok (old1, nb1) =>
            match destroy_n old1 0 v.size_ with
            | .error e => .error e
            | .ok old2 =>
              .ok (RawMemory.Swap ⟨old2, v.data_.capacity_⟩ ⟨nb1, new_data.capacity_⟩).1
    else
      match v.data_.index v.size_ with
      | .error e => .error e
      | .ok p =>
        match construct_at v.data_.buffer_ p x with
        | .error e => .error e
        | .ok buf => .ok ⟨buf, v.data_.capacity_⟩
  match body with
  | .error e => .error e
  | .ok data =>
    match data.index (v.size_ + 1 - 1) with
    | .error e => .error e
    | .ok p => .ok (⟨data, v.size_ + 1⟩, p)

/-- Model of `Vector::PushBack(value)`, both overloads. -/
def PushBack (E : ElemOps α) (v : Vector α) (value : α) : Except Fault (Vector α) :=
  match EmplaceBack E v value with
  | .error e => .error e
  | .ok r => .ok r.1

/-- Model of `Vector::PopBack`. -/
def PopBack (v : Vector α) : Except Fault (Vector α) :=
  match v.data_.index (usub v.size_ 1) with
  | .error e => .error e
  | .ok p =>
    match destroy_n v.data_.buffer_ p 1 with
    | .error e => .error e
    | .ok buf => .ok ⟨⟨buf, v.data_.capacity_⟩, usub v.size_ 1⟩

/-- The loop `for (; i < bound; ++i) data_[i] = rhs[i];` of copy assignment, `n` steps from `i`. -/
def assign_loop (data : RawMemory α) (rhs : Vector α) (i : Nat) : Nat → Except Fault (Slots α)
  | 0 => .ok data.buffer_
  | n + 1 =>
    match rhs.get i with
    | .error e => .error e
    | .ok x =>
      match data.index i with
      | .error e => .error e
      | .ok p =>
        match copy_assign data.buffer_ p x with
        | .error e => .error e
        | .ok buf => assign_loop ⟨buf, data.capacity_⟩ rhs (i + 1) n

/-- The loop `for (; i < rhs.size_; ++i) new(&data_[i])T(rhs[i]);` of copy assignment. -/
def construct_loop (data : RawMemory α) (rhs : Vector α) (i : Nat) : Nat → Except Fault (Slots α)
  | 0 => .ok data.buffer_
  | n + 1 =>
    match rhs.get i with
    | .error e => .error e
    | .ok x =>
      match data.index i with
      | .error e => .error e
      | .ok p =>
        match construct_at data.buffer_ p x with
        | .error e => .error e
        | .ok buf => construct_loop ⟨buf, data.capacity_⟩ rhs (i + 1) n

/-- Model of `Vector::operator=(const Vector& rhs)`; `same_object` is the value of
`this == &rhs`. -/
def copyAssign (this rhs : Vector α) (same_object : Bool) : Except Fault (Vector α) :=
  if same_object then .ok this
  else if rhs.size_ > this.data_.Capacity then
    match copy rhs with
    | .error e => .error e
    | .ok rhs_copy => .ok (Swap this rhs_copy).1
  else if this.size_ > rhs.size_ then
    match assign_loop this.data_ rhs 0 rhs.size_ with
    | .error e => .error e
    | .ok buf1 =>
      match (⟨buf1, this.data_.capacity_⟩ : RawMemory α).index rhs.size_ with
      | .error e => .error e
      | .ok p =>
        match destroy_n buf1 p (this.size_ - rhs.size_) with
        | .error e => .error e
        | .ok buf2 => .ok ⟨⟨buf2, this.data_.capacity_⟩, rhs.size_⟩
  else
    match assign_loop this.data_ rhs 0 this.size_ with
    | .error e => .error e
    | .ok buf1 =>
      match construct_loop ⟨buf1, this.data_.capacity_⟩ rhs this.size_
          (rhs.size_ - this.size_) with
      | .error e => .error e
      | .ok buf2 => .ok ⟨⟨buf2, this.data_.capacity_⟩, rhs.size_⟩

/-- Model of `Vector::operator=(Vector&& rhs)`: the new `*this` and what is left in `rhs`. -/
def moveAssign (this rhs : Vector α) : Vector α × Vector α :=
  Swap this rhs

/-- Model of `Vector(const Vector& other)` together with the state of `other` after the
construction: the new object, and `other` with the block `uninitialized_copy_n` read from. -/
def copyCtor (other : Vector α) : Except Fault (Vector α × Vector α) :=
  let data : RawMemory α := RawMemory.ofCapacity other.size_
  match uninitialized_copy_n other.data_.buffer_ 0 data.buffer_ 0 other.size_ with
  | .ok (src, buf) =>
    .ok (⟨⟨buf, data.capacity_⟩, other.size_⟩, ⟨⟨src, other.data_.capacity_⟩, other.size_⟩)
  | .error e => .error e

/-- Element write `v[index] = x` through the reference returned by `operator[]`. -/
def put (v : Vector α) (index : Nat) (x : α) : Except Fault (Vector α) :=
  match v.at_ index with
  | .error e => .error e
  | .ok i =>
    match copy_assign v.data_.buffer_ i x with
    | .error e => .error e
    | .ok buf => .ok ⟨⟨buf, v.data_.capacity_⟩, v.size_⟩

/-! ### Transfers whose constructor calls may throw -/

/-- Model of `std::uninitialized_copy_n(first, n, d_first)` when the copy constructor may throw:
`current` is the next slot to construct. On a throw the objects already constructed in
`[d_first, current)` are destroyed and the exception leaves the call. -/
def copy_throwing (T : Throws α) (src dst : Slots α) (d_first first current : Nat) :
    Nat → Except Fault (Moved α)
  | 0 => .ok (.completed src dst)
  | n + 1 =>
    match src[first]? with
    | some (some x) =>
      if T.copy_throws x then
        match destroy_n dst d_first (current - d_first) with
        | .ok dst1 => .ok (.threw src dst1)
        | .error e => .error e
      else
        match construct_at dst current x with
        | .ok dst1 => copy_throwing T src dst1 d_first (first + 1) (current + 1) n
        | .error e => .error e
    | _ => .error .undefined

/-- Model of `std::uninitialized_move_n(first, n, d_first)` when the move constructor may throw.
On a throw the objects already constructed in `[d_first, current)` are destroyed; the source
objects moved so far stay in their moved-from state. -/
def move_throwing (E : ElemOps α) (T : Throws α) (src dst : Slots α)
    (d_first first current : Nat) : Nat → Except Fault (Moved α)
  | 0 => .ok (.completed src dst)
  | n + 1 =>
    match src[first]? with
    | some (some x) =>
      if T.move_throws x then
        match destroy_n dst d_first (current - d_first) with
        | .ok dst1 => .ok (.threw src dst1)
        | .error e => .error e
      else
        match construct_at dst current x with
        | .ok dst1 =>
          move_throwing E T (src.set first (some (E.moved_from x))) dst1 d_first (first + 1)
            (current + 1) n
        | .error e => .error e
    | _ => .error .undefined

/-- Transfer on the growth paths when constructor calls may throw: move when the trait holds,
copy otherwise. -/
def transfer_throwing (E : ElemOps α) (T : Throws α) (src : Slots α) (first : Nat)
    (dst : Slots α) (d_first n : Nat) : Except Fault (Moved α) :=
  if E.nothrow_move then move_throwing E T src dst d_first first d_first n
  else copy_throwing T src dst d_first first d_first n

/-- Model of `Vector::Reserve` when the transfer may throw. No handler is installed: the
exception leaves the function and `new_data` releases its block. -/
def ReserveThrowing (E : ElemOps α) (T : Throws α) (v : Vector α) (new_capacity : Nat) :
    Except Fault (Outcome α) :=
  if new_capacity ≤ v.data_.Capacity then .ok (.returned v)
  else
    let new_data : RawMemory α := RawMemory.ofCapacity new_capacity
    match transfer_throwing E T v.data_.buffer_ 0 new_data.buffer_ 0 v.size_ with
    | .error e => .error e
    | .ok (.threw src dst) => .ok (.threw ⟨⟨src, v.data_.capacity_⟩, v.size_⟩ dst)
    | .ok (.completed old nw) =>
      match destroy_n old 0 v.size_ with
      | .error e => .error e
      | .ok old1 =>
        let sw := RawMemory.Swap ⟨old1, v.data_.capacity_⟩ ⟨nw, new_data.capacity_⟩
        .ok (.returned ⟨sw.1, v.size_⟩)

/-- Model of `Vector::EmplaceBack` when the transfer of the reallocating branch may throw. No
handler is installed there. The other branch is the one of `EmplaceBack`. -/
def EmplaceBackThrowing (E : ElemOps α) (T : Throws α) (v : Vector α) (x : α) :
    Except Fault (Outcome α) :=
  if v.size_ = v.Capacity then
    let new_data : RawMemory α := RawMemory.ofCapacity (if v.size_ = 0 then 1 else v.size_ * 2)
    match new_data.index v.size_ with
    | .error e => .error e
    | .ok p =>
      match construct_at new_data.buffer_ p x with
      | .error e => .error e
      | .ok nb0 =>
        match transfer_throwing E T v.data_.buffer_ 0 nb0 0 v.size_ with
        | .error e => .error e
        | .ok (.threw src dst) => .ok (.threw ⟨⟨src, v.data_.capacity_⟩, v.size_⟩ dst)
        | .ok (.completed old1 nb1) =>
          match destroy_n old1 0 v.size_ with
          | .error e => .error e
          | .ok old2 =>
            let data := (RawMemory.Swap ⟨old2, v.data_.capacity_⟩ ⟨nb1, new_data.capacity_⟩).1
            match data.index (v.size_ + 1 - 1) with
            | .error e => .error e
            | .ok _ => .ok (.returned ⟨data, v.size_ + 1⟩)
  else
    match EmplaceBack E v x with
    | .error e => .error e
    | .ok r => .ok (.returned r.1)

/-- Model of `Vector::Emplace` when the transfers of the reallocating branch may throw. The
first handler runs `std::destroy_n(&new_data[idx], 1)`, the second one
`std::destroy_n(new_data.GetAddress(), idx)`; both rethrow. The other branch is the one of
`Emplace`. -/
def EmplaceThrowing (E : ElemOps α) (T : Throws α) (v : Vector α) (pos : Nat) (x : α) :
    Except Fault (Outcome α) :=
  let idx := pos
  if v.size_ = v.Capacity then
    let new_data : RawMemory α := RawMemory.ofCapacity (if v.size_ = 0 then 1 else v.size_ * 2)
    match new_data.index idx with
    | .error e => .error e
    | .ok p =>
      match construct_at new_data.buffer_ p x with
      | .error e => .error e
      | .ok nb0 =>
        match transfer_throwing E T v.data_.buffer_ 0 nb0 0 idx with
        | .error e => .error e
        | .ok (.threw src dst) =>
          match new_data.index idx with
          | .error e => .error e
          | .ok q =>
            match destroy_n dst q 1 with
            | .error e => .error e
            | .ok dst1 => .ok (.threw ⟨⟨src, v.data_.capacity_⟩, v.size_⟩ dst1)
        | .ok (.completed old1 nb1) =>
          match transfer_throwing E T old1 idx nb1 (idx + 1) (usub v.size_ idx) with
          | .error e => .error e
          | .ok (.threw src dst) =>
            match destroy_n dst 0 idx with
            | .error e => .error e
            | .ok dst1 => .ok (.threw ⟨⟨src, v.data_.capacity_⟩, v.size_⟩ dst1)
          | .ok (.completed old2 nb2) =>
            match destroy_n old2 0 v.size_ with
            | .error e => .error e
            | .ok old3 =>
              let data := (RawMemory.Swap ⟨old3, v.data_.capacity_⟩ ⟨nb2, new_data.capacity_⟩).1
              match data.index idx with
              | .error e => .error e
              | .ok _ => .ok (.returned ⟨data, v.size_ + 1⟩)
  else
    match Emplace E v pos x with
    | .error e => .error e
    | .ok r => .ok (.returned r.1)

/-- The vector `v` is in the state that holds the sequence `s`: `size_` is the length of `s`,
slots `[0, size_)` hold the values of `s` in order, slots `[size_, capacity_)` are uninitialized
storage and the block has exactly `capacity_` slots. -/
def Holds (v : Vector α) (s : List α) : Prop :=
  v.size_ = s.length ∧ s.length ≤ v.data_.capacity_ ∧
    v.data_.buffer_ = s.map some ++ List.replicate (v.data_.capacity_ - s.length) none

instance Holds.decidable [DecidableEq α] (v : Vector α) (s : List α) : Decidable (Holds v s) := by
  unfold Holds
  infer_instance

/-- The state holding `s` in a block of `c` slots. -/
def build (s : List α) (c : Nat) : Vector α :=
  ⟨⟨s.map some ++ List.replicate (c - s.length) none, c⟩, s.length⟩

end Vector

/-! ## Objects in the free store

The same member functions with the storage blocks held in a store and the objects holding the
address of their block, so that two objects can designate one block. -/

/-- The free store: the blocks handed out by `operator new`, by address; a block released by
`operator delete` is `none`. An address is handed out once. -/
structure Heap (α : Type) where
  blocks : List (Option (Slots α))
  deriving DecidableEq, Repr

/-- Fields of a `RawMemory<T>` object: `buffer_` is the address of its block, `none` for
`nullptr`. -/
structure RawMemoryRef where
  buffer_ : Option Nat
  capacity_ : Nat
  deriving DecidableEq, Repr

/-- Fields of a `Vector<T>` object. -/
structure VectorRef where
  data_ : RawMemoryRef
  size_ : Nat
  deriving DecidableEq, Repr

namespace Heap

variable {α : Type}

/-- Slots of the block at the address `p`; no slot for `nullptr`, for a released block and for
an address that was never handed out. -/
def block (h : Heap α) (p : Option Nat) : Slots α :=
  match p with
  | none => []
  | some a =>
    match h.blocks[a]? with
    | some (some blk) => blk
    | _ => []

/-- The store after the slots of the block at the address `p` have become `blk`. -/
def store (h : Heap α) (p : Option Nat) (blk : Slots α) : Heap α :=
  match p with
  | none => h
  | some a => ⟨h.blocks.set a (some blk)⟩

/-- Model of `RawMemory::Allocate(n)`: a new block of `n` uninitialized slots at a new address,
`nullptr` for `n == 0`. -/
def Allocate (h : Heap α) (n : Nat) : Heap α × Option Nat :=
  if n ≠ 0 then (⟨h.blocks ++ [some (List.replicate n none)]⟩, some h.blocks.length)
  else (h, none)

/-- Model of `RawMemory::Deallocate(buf)`. -/
def Deallocate (h : Heap α) (p : Option Nat) : Heap α :=
  match p with
  | none => h
  | some a => ⟨h.blocks.set a none⟩

/-- The vector that the object `v` designates in the store. -/
def view (h : Heap α) (v : VectorRef) : Vector α :=
  ⟨⟨h.block v.data_.buffer_, v.data_.capacity_⟩, v.size_⟩

/-- The block of the object `v`, when it has one, was handed out by the store. -/
def owns (h : Heap α) (v : VectorRef) : Prop :=
  match v.data_.buffer_ with
  | none => True
  | some a => a < h.blocks.length

instance owns.decidable (h : Heap α) (v : VectorRef) : Decidable (h.owns v) := by
  unfold owns
  split <;> infer_instance

end Heap

/-- Model of `RawMemory::operator[](index)` on an object in the store. -/
def RawMemoryRef.index (m : RawMemoryRef) (index : Nat) : Except Fault Nat :=
  if index < m.capacity_ then .ok index else .error .assertion

namespace VectorRef

variable {α : Type}

/-- Model of `Vector(const Vector& other)` in the store: `data_(other.size_)` obtains a new
block, `uninitialized_copy_n` reads the block of `other` and constructs into the new one. -/
def copy (h : Heap α) (other : VectorRef) : Except Fault (Heap α × VectorRef) :=
  let a := h.Allocate other.size_
  match uninitialized_copy_n (a.1.block other.data_.buffer_) 0 (a.1.block a.2) 0
      other.size_ with
  | .ok (_, buf) => .ok (a.1.store a.2 buf, ⟨⟨a.2, other.size_⟩, other.size_⟩)
  | .error e => .error e

/-- Model of `Vector::operator[](index)` on an object in the store. -/
def at_ (v : VectorRef) (index : Nat) : Except Fault Nat :=
  if index < v.size_ then v.data_.index index else .error .assertion

/-- Element write `v[index] = x` on an object in the store. -/
def put (h : Heap α) (v : VectorRef) (index : Nat) (x : α) : Except Fault (Heap α × VectorRef) :=
  match v.at_ index with
  | .error e => .error e
  | .ok i =>
    match copy_assign (h.block v.data_.buffer_) i x with
    | .error e => .error e
    | .ok buf => .ok (h.store v.data_.buffer_ buf, v)

/-- Model of `Vector::Reserve` in the store: `new_data` obtains a new block; after the swap it
holds the old block and releases it when it goes out of scope. -/
def Reserve (E : ElemOps α) (h : Heap α) (v : VectorRef) (new_capacity : Nat) :
    Except Fault (Heap α × VectorRef) :=
  if new_capacity ≤ v.data_.capacity_ then .ok (h, v)
  else
    let a := h.Allocate new_capacity
    let new_data : RawMemoryRef := ⟨a.2, new_capacity⟩
    match Vector.transfer E (a.1.block v.data_.buffer_) 0 (a.1.block new_data.buffer_) 0
        v.size_ with
    | .error e => .error e
    | .ok (old, nw) =>
      match destroy_n old 0 v.size_ with
      | .error e => .error e
      | .ok old1 =>
        .ok (((a.1.store v.data_.buffer_ old1).store new_data.buffer_ nw).Deallocate
          v.data_.buffer_, ⟨new_data, v.size_⟩)

/-- Model of `Vector::Resize` in the store. -/
def Resize (E : ElemOps α) (h : Heap α) (v : VectorRef) (new_size : Nat) :
    Except Fault (Heap α × VectorRef) :=
  if new_size ≤ v.size_ then
    match v.data_.index new_size with
    | .error e => .error e
    | .ok p =>
      match destroy_n (h.block v.data_.buffer_) p (v.size_ - new_size) with
      | .error e => .error e
      | .ok buf => .ok (h.store v.data_.buffer_ buf, ⟨v.data_, new_size⟩)
  else
    match Reserve E h v new_size with
    | .error e => .error e
    | .ok (h1, v1) =>
      match v1.data_.index v1.size_ with
      | .error e => .error e
      | .ok p =>
        match uninitialized_value_construct_n E (h1.block v1.data_.buffer_) p
            (new_size - v1.size_) with
        | .error e => .error e
        | .ok buf => .ok (h1.store v1.data_.buffer_ buf, ⟨v1.data_, new_size⟩)

/-- Model of `Vector::Emplace` in the store; returns the store, the object and the slot of the
returned iterator. -/
def Emplace (E : ElemOps α) (h : Heap α) (v : VectorRef) (pos : Nat) (x : α) :
    Except Fault (Heap α × VectorRef × Nat) :=
  let idx := pos
  let body : Except Fault (Heap α × RawMemoryRef) :=
    if v.size_ = v.data_.capacity_ then
      let a := h.Allocate (if v.size_ = 0 then 1 else v.size_ * 2)
      let new_data : RawMemoryRef := ⟨a.2, if v.size_ = 0 then 1 else v.size_ * 2⟩
      match new_data.index idx with
      | .error e => .error e
      | .ok p =>
        match construct_at (a.1.block new_data.buffer_) p x with
        | .error e => .error e
        | .ok nb0 =>
          match Vector.transfer E (a.1.block v.data_.buffer_) 0 nb0 0 idx with
          | .error e => .error e
          | .ok (old1, nb1) =>
            match Vector.transfer E old1 idx nb1 (idx + 1) (usub v.size_ idx) with
            | .error e => .error e
            | .ok (old2, nb2) =>
              match destroy_n old2 0 v.size_ with
              | .error e => .error e
              | .ok old3 =>
                .ok (((a.1.store v.data_.buffer_ old3).store new_data.buffer_ nb2).Deallocate
                  v.data_.buffer_, new_data)
    else
      let shifted : Except Fault (Slots α) :=
        if v.size_ ≠ 0 then
          match v.data_.index (v.size_ - 1) with
          | .error e => .error e
          | .ok p =>
            match Vector.move_construct E (h.block v.data_.buffer_) v.size_ p with
            | .error e => .error e
            | .ok buf1 => move_backward E buf1 idx (v.size_ - 1) v.size_
        else .ok (h.block v.data_.buffer_)
      match shifted with
      | .error e => .error e
      | .ok buf2 =>
        match v.data_.index idx with
        | .error e => .error e
        | .ok p =>
          match (if idx < v.size_ then copy_assign buf2 p x else construct_at buf2 p x) with
          | .error e => .error e
          | .ok buf3 => .ok (h.store v.data_.buffer_ buf3, v.data_)
  match body with
  | .error e => .error e
  | .ok (h1, data) =>
    match data.index idx with
    | .error e => .error e
    | .ok p => .ok (h1, ⟨data, v.size_ + 1⟩, p)

/-- Model of `Vector::Erase` in the store. -/
def Erase (E : ElemOps α) (h : Heap α) (v : VectorRef) (pos : Nat) :
    Except Fault (Heap α × VectorRef × Nat) :=
  let idx := pos
  match move_range E (h.block v.data_.buffer_) (idx + 1) v.size_ idx with
  | .error e => .error e
  | .ok buf1 =>
    match destroy_n buf1 (usub v.size_ 1) 1 with
    | .error e => .error e
    | .ok buf2 => .ok (h.store v.data_.buffer_ buf2, ⟨v.data_, usub v.size_ 1⟩, idx)

/-- Model of `Vector::Insert` in the store, both overloads. -/
def Insert (E : ElemOps α) (h : Heap α) (v : VectorRef) (pos : Nat) (value : α) :
    Except Fault (Heap α × VectorRef × Nat) :=
  Emplace E h v pos value

/-- Model of `Vector::EmplaceBack` in the store. -/
def EmplaceBack (E : ElemOps α) (h : Heap α) (v : VectorRef) (x : α) :
    Except Fault (Heap α × VectorRef × Nat) :=
  let body : Except Fault (Heap α × RawMemoryRef) :=
    if v.size_ = v.data_.capacity_ then
      let a := h.Allocate (if v.size_ = 0 then 1 else v.size_ * 2)
      let new_data : RawMemoryRef := ⟨a.2, if v.size_ = 0 then 1 else v.size_ * 2⟩
      match new_data.index v.size_ with
      | .error e => .error e
      | .ok p =>
        match construct_at (a.1.block new_data.buffer_) p x with
        | .error e => .error e
        | .ok nb0 =>
          match Vector.transfer E (a.1.block v.data_.buffer_) 0 nb0 0 v.size_ with
          | .error e => .error e
          | .ok (old1, nb1) =>
            match destroy_n old1 0 v.size_ with
            | .error e => .error e
            | .ok old2 =>
              .ok (((a.1.store v.data_.buffer_ old2).store new_data.buffer_ nb1).Deallocate
                v.data_.buffer_, new_data)
    else
      match v.data_.index v.size_ with
      | .error e => .error e
      | .ok p =>
        match construct_at (h.block v.data_.buffer_) p x with
        | .error e => .error e
        | .ok buf => .ok (h.store v.data_.buffer_ buf, v.data_)
  match body with
  | .error e => .error e
  | .ok (h1, data) =>
    match data.index (v.size_ + 1 - 1) with
    | .error e => .error e
    | .ok p => .ok (h1, ⟨data, v.size_ + 1⟩, p)

/-- Model of `Vector::PushBack` in the store, both overloads. -/
def PushBack (E : ElemOps α) (h : Heap α) (v : VectorRef) (value : α) :
    Except Fault (Heap α × VectorRef) :=
  match EmplaceBack E h v value with
  | .error e => .error e
  | .ok r => .ok (r.1, r.2.1)

end VectorRef

/-! ## Specification vocabulary -/

/-- State the transfer leaves in the source objects: moved-from when moving, unchanged when
copying. -/
def transferred {α : Type} (E : ElemOps α) (x : α) : α :=
  if E.nothrow_move then E.moved_from x else x

/-- Capacity chosen by the reallocating branches: `size_ == 0 ? 1 : size_ * 2`. -/
def grown (n : Nat) : Nat := if n = 0 then 1 else n * 2

/-- Result sequence of `Emplace(pos, x)` on the state holding `s` in a block of `c` slots. The
in-place branch at `end()` of a non-empty vector leaves the former last element moved from. -/
def emplaced {α : Type} (E : ElemOps α) (s : List α) (c pos : Nat) (x : α) : List α :=
  if s.length < c ∧ pos = s.length then s.dropLast ++ (s.getLast?.toList.map E.moved_from ++ [x])
  else s.take pos ++ x :: s.drop pos

/-- Element type `int`: value-initialized to `0`; a move is a copy. -/
def intOps : ElemOps Int := ⟨0, id, true⟩

/-- An element type that owns its payload, such as `std::vector<int>` or `std::unique_ptr`:
value-initialized empty, nothrow move constructible, and a move leaves the source empty. -/
def ownerOps : ElemOps (List Nat) := ⟨[], fun _ => [], true⟩

/-- An element type that is copy constructible and whose move constructor may throw, with
`int` payload: the transfers copy. -/
def copyableOps : ElemOps Int := ⟨0, id, false⟩

/-- An element type that is not copy constructible and whose move constructor may throw, such
as a move-only handle: the trait holds, so the transfers move; a move leaves the source
empty. -/
def moveOnlyOps : ElemOps (List Nat) := ⟨[], fun _ => [], true⟩

/-- No constructor call throws. -/
def Throws.never {α : Type} : Throws α := ⟨fun _ => false, fun _ => false⟩

/-- The constructor used by the transfer throws on the object of value `x`. -/
def throwsOn {α : Type} (E : ElemOps α) (T : Throws α) (x : α) : Bool :=
  if E.nothrow_move then T.move_throws x else T.copy_throws x

/-- Copying or moving the object of value `bad` throws; no other constructor call does. -/
def Throws.onValue {α : Type} [DecidableEq α] (bad : α) : Throws α :=
  ⟨fun x => decide (x = bad), fun x => decide (x = bad)⟩

/-- One call, on a single vector, of the mutations `PushBack`, `Insert`, `Erase`, `Resize` and
element write. -/
inductive Mutation (α : Type) where
  | PushBack (value : α)
  | Insert (pos : Nat) (value : α)
  | Erase (pos : Nat)
  | Resize (new_size : Nat)
  | Write (index : Nat) (value : α)

/-- State of the vector after the mutation. -/
def Mutation.run {α : Type} (E : ElemOps α) (v : Vector α) : Mutation α → Except Fault (Vector α)
  | .PushBack value => Vector.PushBack E v value
  | .Insert pos value =>
    match Vector.Insert E v pos value with
    | .ok r => .ok r.1
    | .error e => .error e
  | .Erase pos =>
    match Vector.Erase E v pos with
    | .ok r => .ok r.1
    | .error e => .error e
  | .Resize new_size => Vector.Resize E v new_size
  | .Write index value => Vector.put v index value

/-- A program state with two vector objects `(A, B)`: run the mutations, in order, on `B`. -/
def mutateSecond {α : Type} (E : ElemOps α) (st : Vector α × Vector α) :
    List (Mutation α) → Except Fault (Vector α × Vector α)
  | [] => .ok st
  | m :: ms =>
    match m.run E st.2 with
    | .ok b1 => mutateSecond E (st.1, b1) ms
    | .error e => .error e

/-- One call of the tail interface. -/
inductive TailOp (α : Type) where
  | push (value : α)
  | pop
  deriving DecidableEq, Repr

/-- Run one tail call on the vector. -/
def TailOp.run {α : Type} (E : ElemOps α) (v : Vector α) : TailOp α → Except Fault (Vector α)
  | .push value => Vector.PushBack E v value
  | .pop => Vector.PopBack v

/-- Run a sequence of tail calls on the vector, first to last. -/
def runTail {α : Type} (E : ElemOps α) (v : Vector α) : List (TailOp α) → Except Fault (Vector α)
  | [] => .ok v
  | o :: os =>
    match o.run E v with
    | .ok v1 => runTail E v1 os
    | .error e => .error e

/-- List model of one tail call, from the specification: push appends the value, pop drops the
last element and is not allowed on the empty list. -/
def TailOp.model {α : Type} (s : List α) : TailOp α → Option (List α)
  | .push value => some (s ++ [value])
  | .pop => if s.isEmpty then none else some s.dropLast

/-- List model of a sequence of tail calls; `none` when some pop meets the empty list. -/
def modelTail {α : Type} (s : List α) : List (TailOp α) → Option (List α)
  | [] => some s
  | o :: os =>
    match o.model s with
    | some s1 => modelTail s1 os
    | none => none

/-- Number of pushes in a sequence of tail calls. -/
def pushes {α : Type} : List (TailOp α) → Nat
  | [] => 0
  | .push _ :: os => pushes os + 1
  | .pop :: os => pushes os

/-- Number of pops in a sequence of tail calls. -/
def pops {α : Type} : List (TailOp α) → Nat
  | [] => 0
  | .push _ :: os => pops os
  | .pop :: os => pops os + 1

/-- One call of a public mutating member function. -/
inductive Call (α : Type) where
  | PushBack (value : α)
  | EmplaceBack (x : α)
  | PopBack
  | Insert (pos : Nat) (value : α)
  | Emplace (pos : Nat) (x : α)
  | Erase (pos : Nat)
  | Reserve (new_capacity : Nat)
  | Resize (new_size : Nat)
  | CopyAssign (rhs : Vector α) (same_object : Bool)
  | MoveAssign (rhs : Vector α)
  | Swap (other : Vector α)

/-- State of `*this` after the call. -/
def Call.run {α : Type} (E : ElemOps α) (v : Vector α) : Call α → Except Fault (Vector α)
  | .PushBack value => Vector.PushBack E v value
  | .EmplaceBack x =>
    match Vector.EmplaceBack E v x with
    | .ok r => .ok r.1
    | .error e => .error e
  | .PopBack => Vector.PopBack v
  | .Insert pos value =>
    match Vector.Insert E v pos value with
    | .ok r => .ok r.1
    | .error e => .error e
  | .Emplace pos x =>
    match Vector.Emplace E v pos x with
    | .ok r => .ok r.1
    | .error e => .error e
  | .Erase pos =>
    match Vector.Erase E v pos with
    | .ok r => .ok r.1
    | .error e => .error e
  | .Reserve new_capacity => Vector.Reserve E v new_capacity
  | .Resize new_size => Vector.Resize E v new_size
  | .CopyAssign rhs same_object => Vector.copyAssign v rhs same_object
  | .MoveAssign rhs => .ok (Vector.moveAssign v rhs).1
  | .Swap other => .ok (Vector.Swap v other).1

/-- Precondition of the call on the state `v`: `PopBack` needs a non-empty vector, `Insert` and
`Emplace` a position in `[0, size]`, `Erase` a position in `[0, size)`; the vector handed to a
move assignment or a swap satisfies the size invariant itself. -/
def Call.pre {α : Type} (v : Vector α) : Call α → Prop
  | .PopBack => 0 < v.Size
  | .Insert pos _ => pos ≤ v.Size
  | .Emplace pos _ => pos ≤ v.Size
  | .Erase pos => pos < v.Size
  | .MoveAssign rhs => rhs.Size ≤ rhs.Capacity
  | .Swap other => other.Size ≤ other.Capacity
  | _ => True

/-- The calls that keep or grow the storage of `*this`: every call but the two that exchange
it with the storage of another vector. -/
def Call.keepsStorage {α : Type} : Call α → Bool
  | .MoveAssign _ => false
  | .Swap _ => false
  | _ => true

/-- The vectors passed to the call as arguments are valid states. -/
def Call.argsValid {α : Type} : Call α → Prop
  | .CopyAssign rhs _ => ∃ t, Vector.Holds rhs t
  | .MoveAssign rhs => ∃ t, Vector.Holds rhs t
  | .Swap other => ∃ t, Vector.Holds other t
  | _ => True

/-- The one call that stops on the assertion of `RawMemory::operator[]` although it is made
within its precondition: `Resize` to the current size of a full vector. -/
def Call.stopsOnAssert {α : Type} (v : Vector α) : Call α → Prop
  | .Resize new_size => new_size = v.Size ∧ v.Size = v.Capacity
  | _ => False

/-! ## Slot-list lemmas -/

theorem slot_get {β : Type} (pre post : List β) (a : β) (i : Nat) (h : i = pre.length) :
    (pre ++ a :: post)[i]? = some a := by
  subst h
  rw [List.getElem?_append_right (le_refl _)]
  simp

theorem slot_set {β : Type} (pre post : List β) (a b : β) (i : Nat) (h : i = pre.length) :
    (pre ++ a :: post).set i b = pre ++ b :: post := by
  subst h
  simp

theorem construct_at_mid {α : Type} (pre post : Slots α) (o : Option α) (i : Nat)
    (h : i = pre.length) (x : α) :
    construct_at (pre ++ o :: post) i x = .ok (pre ++ some x :: post) := by
  subst h
  simp [construct_at]

theorem destroy_n_mid {α : Type} (xs : List α) :
    ∀ (pre post : Slots α) (first : Nat), first = pre.length →
      destroy_n (pre ++ xs.map some ++ post) first xs.length
        = .ok (pre ++ List.replicate xs.length none ++ post) := by
  induction xs with
  | nil => intro pre post first _; simp [destroy_n]
  | cons x xs ih =>
    intro pre post first h
    have hg : (pre ++ List.map some (x :: xs) ++ post)[first]? = some (some x) := by
      simpa using slot_get pre (xs.map some ++ post) (some x) first h
    have hs : (pre ++ List.map some (x :: xs) ++ post).set first none
        = (pre ++ [none]) ++ xs.map some ++ post := by
      simpa using slot_set pre (xs.map some ++ post) (some x) none first h
    simp only [List.length_cons, destroy_n, hg, hs]
    rw [ih (pre ++ [none]) post (first + 1) (by simp [h])]
    simp [List.replicate_succ]

theorem value_construct_mid {α : Type} (E : ElemOps α) (n : Nat) :
    ∀ (pre mid post : Slots α) (first : Nat), first = pre.length → mid.length = n →
      uninitialized_value_construct_n E (pre ++ mid ++ post) first n
        = .ok (pre ++ List.replicate n (some E.value_init) ++ post) := by
  induction n with
  | zero =>
    intro pre mid post first _ hm
    have : mid = [] := List.length_eq_zero.mp hm
    simp [uninitialized_value_construct_n, this]
  | succ n ih =>
    intro pre mid post first h hm
    obtain ⟨o, mid1, rfl⟩ := List.exists_cons_of_length_eq_add_one hm
    have hc : construct_at (pre ++ o :: mid1 ++ post) first E.value_init
        = .ok ((pre ++ [some E.value_init]) ++ mid1 ++ post) := by
      simpa using construct_at_mid pre (mid1 ++ post) o first h E.value_init
    simp only [uninitialized_value_construct_n, hc]
    rw [ih (pre ++ [some E.value_init]) mid1 post (first + 1) (by simp [h]) (by simpa using hm)]
    simp [List.replicate_succ]

theorem uninitialized_copy_n_mid {α : Type} (xs : List α) :
    ∀ (spre spost dpre dmid dpost : Slots α) (first d_first : Nat),
      first = spre.length → d_first = dpre.length → dmid.length = xs.length →
      uninitialized_copy_n (spre ++ xs.map some ++ spost) first (dpre ++ dmid ++ dpost) d_first
          xs.length
        = .ok (spre ++ xs.map some ++ spost, dpre ++ xs.map some ++ dpost) := by
  induction xs with
  | nil =>
    intro spre spost dpre dmid dpost first d_first _ _ hm
    have : dmid = [] := List.length_eq_zero.mp hm
    simp [uninitialized_copy_n, this]
  | cons x xs ih =>
    intro spre spost dpre dmid dpost first d_first h hd hm
    obtain ⟨o, mid1, rfl⟩ := List.exists_cons_of_length_eq_add_one hm
    have hg : (spre ++ List.map some (x :: xs) ++ spost)[first]? = some (some x) := by
      simpa using slot_get spre (xs.map some ++ spost) (some x) first h
    have hc : construct_at (dpre ++ o :: mid1 ++ dpost) d_first x
        = .ok ((dpre ++ [some x]) ++ mid1 ++ dpost) := by
      simpa using construct_at_mid dpre (mid1 ++ dpost) o d_first hd x
    have hsrc : spre ++ List.map some (x :: xs) ++ spost
        = (spre ++ [some x]) ++ xs.map some ++ spost := by simp
    simp only [List.length_cons, uninitialized_copy_n, hg, hc]
    rw [hsrc, ih (spre ++ [some x]) spost (dpre ++ [some x]) mid1 dpost (first + 1) (d_first + 1)
      (by simp [h]) (by simp [hd]) (by simpa using hm)]
    simp

theorem uninitialized_move_n_mid {α : Type} (E : ElemOps α) (xs : List α) :
    ∀ (spre spost dpre dmid dpost : Slots α) (first d_first : Nat),
      first = spre.length → d_first = dpre.length → dmid.length = xs.length →
      uninitialized_move_n E (spre ++ xs.map some ++ spost) first (dpre ++ dmid ++ dpost) d_first
          xs.length
        = .ok (spre ++ (xs.map E.moved_from).map some ++ spost, dpre ++ xs.map some ++ dpost) := by
  induction xs with
  | nil =>
    intro spre spost dpre dmid dpost first d_first _ _ hm
    have : dmid = [] := List.length_eq_zero.mp hm
    simp [uninitialized_move_n, this]
  | cons x xs ih =>
    intro spre spost dpre dmid dpost first d_first h hd hm
    obtain ⟨o, mid1, rfl⟩ := List.exists_cons_of_length_eq_add_one hm
    have hg : (spre ++ List.map some (x :: xs) ++ spost)[first]? = some (some x) := by
      simpa using slot_get spre (xs.map some ++ spost) (some x) first h
    have hc : construct_at (dpre ++ o :: mid1 ++ dpost) d_first x
        = .ok ((dpre ++ [some x]) ++ mid1 ++ dpost) := by
      simpa using construct_at_mid dpre (mid1 ++ dpost) o d_first hd x
    have hs : (spre ++ List.map some (x :: xs) ++ spost).set first (some (E.moved_from x))
        = (spre ++ [some (E.moved_from x)]) ++ xs.map some ++ spost := by
      simpa using slot_set spre (xs.map some ++ spost) (some x) (some (E.moved_from x)) first h
    simp only [List.length_cons, uninitialized_move_n, hg, hc, hs]
    rw [ih (spre ++ [some (E.moved_from x)]) spost (dpre ++ [some x]) mid1 dpost (first + 1)
      (d_first + 1) (by simp [h]) (by simp [hd]) (by simpa using hm)]
    simp

theorem transfer_mid {α : Type} (E : ElemOps α) (xs : List α)
    (spre spost dpre dmid dpost : Slots α) (first d_first : Nat)
    (h : first = spre.length) (hd : d_first = dpre.length) (hm : dmid.length = xs.length) :
    Vector.transfer E (spre ++ xs.map some ++ spost) first (dpre ++ dmid ++ dpost) d_first
        xs.length
      = .ok (spre ++ (xs.map (transferred E)).map some ++ spost,
          dpre ++ xs.map some ++ dpost) := by
  unfold Vector.transfer
  by_cases hE : E.nothrow_move = true
  · have hf : transferred E = E.moved_from := by funext x; simp [transferred, hE]
    rw [if_pos hE, hf]
    exact uninitialized_move_n_mid E xs spre spost dpre dmid dpost first d_first h hd hm
  · have hf : transferred E = id := by funext x; simp [transferred, hE]
    rw [if_neg hE, hf, List.map_id]
    exact uninitialized_copy_n_mid xs spre spost dpre dmid dpost first d_first h hd hm

theorem move_assign_left {α : Type} (E : ElemOps α) (pre rest : Slots α) (w x : α) (d s : Nat)
    (hd : d = pre.length) (hs : s = pre.length + 1) :
    move_assign E (pre ++ some w :: some x :: rest) d s
      = .ok (pre ++ some x :: some (E.moved_from x) :: rest) := by
  have h1 : (pre ++ some w :: some x :: rest)[s]? = some (some x) := by
    have := slot_get (pre ++ [some w]) rest (some x) s (by simp [hs])
    simpa using this
  have h2 : (pre ++ some w :: some x :: rest)[d]? = some (some w) :=
    slot_get pre (some x :: rest) (some w) d hd
  have h3 : (pre ++ some w :: some x :: rest).set d (some x) = pre ++ some x :: some x :: rest :=
    slot_set pre (some x :: rest) (some w) (some x) d hd
  have h4 : (pre ++ some x :: some x :: rest).set s (some (E.moved_from x))
      = pre ++ some x :: some (E.moved_from x) :: rest := by
    have := slot_set (pre ++ [some x]) rest (some x) (some (E.moved_from x)) s (by simp [hs])
    simpa using this
  simp only [move_assign, h1, h2, h3, h4]

theorem move_assign_right {α : Type} (E : ElemOps α) (pre rest : Slots α) (y w : α) (d s : Nat)
    (hs : s = pre.length) (hd : d = pre.length + 1) :
    move_assign E (pre ++ some y :: some w :: rest) d s
      = .ok (pre ++ some (E.moved_from y) :: some y :: rest) := by
  have h1 : (pre ++ some y :: some w :: rest)[s]? = some (some y) :=
    slot_get pre (some w :: rest) (some y) s hs
  have h2 : (pre ++ some y :: some w :: rest)[d]? = some (some w) := by
    have := slot_get (pre ++ [some y]) rest (some w) d (by simp [hd])
    simpa using this
  have h3 : (pre ++ some y :: some w :: rest).set d (some y) = pre ++ some y :: some y :: rest := by
    have := slot_set (pre ++ [some y]) rest (some w) (some y) d (by simp [hd])
    simpa using this
  have h4 : (pre ++ some y :: some y :: rest).set s (some (E.moved_from y))
      = pre ++ some (E.moved_from y) :: some y :: rest :=
    slot_set pre (some y :: rest) (some y) (some (E.moved_from y)) s hs
  simp only [move_assign, h1, h2, h3, h4]

/-- Forward shift: the objects `xs` move one slot to the left over the object `w`; the slot
they vacate keeps a live object. -/
theorem move_loop_mid {α : Type} (E : ElemOps α) (xs : List α) :
    ∀ (pre post : Slots α) (w : α) (first d_first : Nat),
      d_first = pre.length → first = pre.length + 1 →
      ∃ w1, move_loop E (pre ++ some w :: xs.map some ++ post) first d_first xs.length
        = .ok (pre ++ xs.map some ++ some w1 :: post) := by
  induction xs with
  | nil => intro pre post w first d_first _ _; exact ⟨w, by simp [move_loop]⟩
  | cons x xs ih =>
    intro pre post w first d_first hd hf
    have hm := move_assign_left E pre (xs.map some ++ post) w x d_first first hd hf
    obtain ⟨w1, hw1⟩ := ih (pre ++ [some x]) post (E.moved_from x) (first + 1) (d_first + 1)
      (by simp [hd]) (by simp [hf])
    refine ⟨w1, ?_⟩
    have e1 : pre ++ some w :: List.map some (x :: xs) ++ post
        = pre ++ some w :: some x :: (xs.map some ++ post) := by simp
    have e2 : pre ++ some x :: some (E.moved_from x) :: (xs.map some ++ post)
        = (pre ++ [some x]) ++ some (E.moved_from x) :: xs.map some ++ post := by simp
    simp only [List.length_cons, move_loop, e1, hm]
    rw [e2, hw1]
    simp

/-- Backward shift: the objects `xs` move one slot to the right over the object `w`; the slot
they vacate keeps a live object. -/
theorem move_backward_loop_mid {α : Type} (E : ElemOps α) (xs : List α) :
    ∀ (pre post : Slots α) (w : α) (last d_last : Nat),
      last = pre.length + xs.length → d_last = pre.length + xs.length + 1 →
      ∃ w1, move_backward_loop E (pre ++ xs.map some ++ some w :: post) last d_last xs.length
        = .ok (pre ++ some w1 :: xs.map some ++ post) := by
  induction xs using List.reverseRecOn with
  | nil => intro pre post w last d_last _ _; exact ⟨w, by simp [move_backward_loop]⟩
  | append_singleton ys y ih =>
    intro pre post w last d_last hl hd
    simp only [List.length_append, List.length_singleton] at hl hd
    have hm := move_assign_right E (pre ++ ys.map some) post y w (d_last - 1) (last - 1)
      (by simp only [List.length_append, List.length_map]; omega)
      (by simp only [List.length_append, List.length_map]; omega)
    obtain ⟨w1, hw1⟩ := ih pre (some y :: post) (E.moved_from y) (last - 1) (d_last - 1)
      (by omega) (by omega)
    refine ⟨w1, ?_⟩
    have e1 : pre ++ List.map some (ys ++ [y]) ++ some w :: post
        = (pre ++ ys.map some) ++ some y :: some w :: post := by simp
    have e2 : (pre ++ ys.map some) ++ some (E.moved_from y) :: some y :: post
        = pre ++ ys.map some ++ some (E.moved_from y) :: (some y :: post) := by simp
    have e3 : (ys ++ [y]).length = ys.length + 1 := by simp
    rw [e3]
    simp only [move_backward_loop, e1, hm]
    rw [e2, hw1]
    simp

/-! ## The operations on the state `build s c` -/

theorem Allocate_eq {α : Type} (n : Nat) :
    (RawMemory.Allocate n : Slots α) = List.replicate n none := by
  unfold RawMemory.Allocate
  by_cases h : n = 0
  · simp [h]
  · simp [h]

theorem replicate_split {β : Type} (a : β) (k n : Nat) (h : k ≤ n) :
    List.replicate n a = List.replicate k a ++ List.replicate (n - k) a := by
  rw [← List.replicate_add]
  congr 1
  omega

theorem transfer_front {α : Type} (E : ElemOps α) (xs : List α) (spost dpost : Slots α) :
    Vector.transfer E (xs.map some ++ spost) 0 (List.replicate xs.length none ++ dpost) 0
        xs.length
      = .ok ((xs.map (transferred E)).map some ++ spost, xs.map some ++ dpost) := by
  simpa using transfer_mid E xs [] spost [] (List.replicate xs.length none) dpost 0 0 rfl rfl
    (by simp)

theorem destroy_n_front {α : Type} (xs : List α) (post : Slots α) (n : Nat)
    (h : n = xs.length) :
    destroy_n (xs.map some ++ post) 0 n = .ok (List.replicate n none ++ post) := by
  subst h
  simpa using destroy_n_mid xs [] post 0 rfl

theorem Holds_build {α : Type} (s : List α) (c : Nat) (h : s.length ≤ c) :
    Vector.Holds (Vector.build s c) s :=
  ⟨rfl, h, rfl⟩

theorem Holds_eq_build {α : Type} (v : Vector α) (s : List α) (h : Vector.Holds v s) :
    v = Vector.build s v.data_.capacity_ := by
  obtain ⟨⟨buf, c⟩, n⟩ := v
  obtain ⟨h1, _, h3⟩ := h
  simp only at h1 h3
  simp [Vector.build, h1, h3]

theorem Reserve_build_le {α : Type} (E : ElemOps α) (s : List α) (c n : Nat) (hn : n ≤ c) :
    Vector.Reserve E (Vector.build s c) n = .ok (Vector.build s c) := by
  simp [Vector.Reserve, Vector.build, RawMemory.Capacity, hn]

theorem Reserve_build_gt {α : Type} (E : ElemOps α) (s : List α) (c n : Nat)
    (hs : s.length ≤ c) (hn : c < n) :
    Vector.Reserve E (Vector.build s c) n = .ok (Vector.build s n) := by
  have hdst : (RawMemory.Allocate n : Slots α)
      = List.replicate s.length none ++ List.replicate (n - s.length) none := by
    rw [Allocate_eq]; exact replicate_split _ _ _ (by omega)
  have ht := transfer_front E s (List.replicate (c - s.length) none)
    (List.replicate (n - s.length) none)
  have hd := destroy_n_front (s.map (transferred E)) (List.replicate (c - s.length) none)
    s.length (by simp)
  simp only [Vector.Reserve, Vector.build, RawMemory.Capacity, RawMemory.ofCapacity, hdst,
    ht, hd, RawMemory.Swap]
  simp [Nat.not_le.mpr hn]

theorem Allocate_split {α : Type} (k n : Nat) (h : k < n) :
    (RawMemory.Allocate n : Slots α)
      = List.replicate k none ++ none :: List.replicate (n - (k + 1)) none := by
  rw [Allocate_eq, replicate_split none k n (by omega)]
  congr 1
  rw [← List.replicate_succ]
  congr 1
  omega

theorem lt_grown (n : Nat) : n < grown n := by
  unfold grown
  split <;> omega

theorem grown_eq_max (n : Nat) : grown n = max 1 (2 * n) := by
  unfold grown
  split <;> omega

theorem EmplaceBack_build_full {α : Type} (E : ElemOps α) (s : List α) (x : α) :
    Vector.EmplaceBack E (Vector.build s s.length) x
      = .ok (Vector.build (s ++ [x]) (grown s.length), s.length) := by
  have hlt := lt_grown s.length
  have hdst := Allocate_split (α := α) s.length (grown s.length) hlt
  have hc := construct_at_mid (List.replicate s.length (none : Option α))
    (List.replicate (grown s.length - (s.length + 1)) none) none s.length (by simp) x
  have ht := transfer_front E s (List.replicate (s.length - s.length) none)
    (some x :: List.replicate (grown s.length - (s.length + 1)) none)
  have hd := destroy_n_front (s.map (transferred E)) (List.replicate (s.length - s.length) none)
    s.length (by simp)
  have hg : (if s.length = 0 then 1 else s.length * 2) = grown s.length := rfl
  simp only [Vector.EmplaceBack, Vector.build, Vector.Capacity, RawMemory.Capacity,
    RawMemory.ofCapacity, RawMemory.index, hg, hdst, hc, ht, hd, RawMemory.Swap, if_pos hlt,
    if_true]
  simp [hlt]

theorem EmplaceBack_build_spare {α : Type} (E : ElemOps α) (s : List α) (c : Nat) (x : α)
    (h : s.length < c) :
    Vector.EmplaceBack E (Vector.build s c) x = .ok (Vector.build (s ++ [x]) c, s.length) := by
  have hb : List.replicate (c - s.length) (none : Option α)
      = none :: List.replicate (c - (s.length + 1)) none := by
    rw [← List.replicate_succ]; congr 1; omega
  have hc := construct_at_mid (s.map some) (List.replicate (c - (s.length + 1)) none) none
    s.length (by simp) x
  have hne : ¬ s.length = c := by omega
  simp only [Vector.EmplaceBack, Vector.build, Vector.Capacity, RawMemory.Capacity,
    RawMemory.index, hb, hc, if_neg hne, if_pos h]
  simp [h]

theorem PopBack_build {α : Type} (t : List α) (y : α) (c : Nat) (h : t.length + 1 ≤ c) :
    Vector.PopBack (Vector.build (t ++ [y]) c) = .ok (Vector.build t c) := by
  have hu : usub (t ++ [y]).length 1 = t.length := by simp [usub]
  have hd := destroy_n_mid [y] (t.map some) (List.replicate (c - (t.length + 1)) none) t.length
    (by simp)
  have hb : (none : Option α) :: List.replicate (c - (t.length + 1)) none
      = List.replicate (c - t.length) none := by
    rw [← List.replicate_succ]; congr 1; omega
  have hlt : t.length < c := by omega
  simp only [Vector.PopBack, Vector.build, RawMemory.index, hu, if_pos hlt]
  simp only [List.length_append, List.length_singleton, List.map_append] at hd ⊢
  simp only [hd]
  simp [hb]

theorem Erase_build {α : Type} (E : ElemOps α) (a b : List α) (w : α) (c : Nat)
    (h : a.length + (b.length + 1) ≤ c) :
    Vector.Erase E (Vector.build (a ++ w :: b) c) a.length
      = .ok (Vector.build (a ++ b) c, a.length) := by
  have hlen : (a ++ w :: b).length = a.length + (b.length + 1) := by simp
  have hu : usub (a.length + (b.length + 1)) 1 = a.length + b.length := by
    unfold usub; rw [if_pos (by omega)]; omega
  have hbuf : List.map some (a ++ w :: b) ++ List.replicate (c - (a.length + (b.length + 1))) none
      = a.map some ++ some w :: b.map some
          ++ List.replicate (c - (a.length + (b.length + 1))) none := by simp
  obtain ⟨w1, hw1⟩ := move_loop_mid E b (a.map some)
    (List.replicate (c - (a.length + (b.length + 1))) none) w (a.length + 1) a.length
    (by simp) (by simp)
  have hn : a.length + (b.length + 1) - (a.length + 1) = b.length := by omega
  have hd := destroy_n_mid [w1] (a.map some ++ b.map some)
    (List.replicate (c - (a.length + (b.length + 1))) none) (a.length + b.length) (by simp)
  have hd1 : destroy_n (a.map some ++ b.map some
      ++ some w1 :: List.replicate (c - (a.length + (b.length + 1))) none) (a.length + b.length) 1
      = .ok (a.map some ++ b.map some
          ++ none :: List.replicate (c - (a.length + (b.length + 1))) none) := by
    simpa using hd
  have hb : (none : Option α) :: List.replicate (c - (a.length + (b.length + 1))) none
      = List.replicate (c - (a.length + b.length)) none := by
    rw [← List.replicate_succ]; congr 1; omega
  simp only [Vector.Erase, Vector.build, move_range, hlen, hu, hbuf, hn, hw1, hd1, hb]
  simp

theorem move_construct_next {α : Type} (E : ElemOps α) (pre rest : Slots α) (y : α)
    (o : Option α) (d s : Nat) (hs : s = pre.length) (hd : d = pre.length + 1) :
    Vector.move_construct E (pre ++ some y :: o :: rest) d s
      = .ok (pre ++ some (E.moved_from y) :: some y :: rest) := by
  have h1 : (pre ++ some y :: o :: rest)[s]? = some (some y) :=
    slot_get pre (o :: rest) (some y) s hs
  have h2 : (pre ++ some y :: o :: rest).set s (some (E.moved_from y))
      = pre ++ some (E.moved_from y) :: o :: rest :=
    slot_set pre (o :: rest) (some y) (some (E.moved_from y)) s hs
  have h3 : construct_at (pre ++ some (E.moved_from y) :: o :: rest) d y
      = .ok (pre ++ some (E.moved_from y) :: some y :: rest) := by
    have := construct_at_mid (pre ++ [some (E.moved_from y)]) rest o d (by simp [hd]) y
    simpa using this
  simp only [Vector.move_construct, h1, h2, h3]

theorem copy_assign_mid {α : Type} (pre post : Slots α) (w x : α) (i : Nat)
    (h : i = pre.length) :
    copy_assign (pre ++ some w :: post) i x = .ok (pre ++ some x :: post) := by
  simp only [copy_assign, slot_get pre post (some w) i h, slot_set pre post (some w) (some x) i h]

theorem spare_split {α : Type} (c n : Nat) (h : n < c) :
    List.replicate (c - n) (none : Option α) = none :: List.replicate (c - (n + 1)) none := by
  rw [← List.replicate_succ]; congr 1; omega

/-- In-place branch of `Emplace`, position before the last element or at it. -/
theorem Emplace_build_inplace_mid {α : Type} (E : ElemOps α) (a m : List α) (y x : α) (c : Nat)
    (h : a.length + m.length + 1 < c) :
    Vector.Emplace E (Vector.build (a ++ m ++ [y]) c) a.length x
      = .ok (Vector.build (a ++ x :: m ++ [y]) c, a.length) := by
  have hlen : (a ++ m ++ [y]).length = a.length + m.length + 1 := by
    simp only [List.length_append, List.length_singleton]
  have hbuf : List.map some (a ++ m ++ [y]) ++ List.replicate (c - (a.length + m.length + 1)) none
      = (a.map some ++ m.map some) ++ some y :: none
          :: List.replicate (c - (a.length + m.length + 1 + 1)) none := by
    rw [spare_split c _ h]; simp
  have hmc := move_construct_next E (a.map some ++ m.map some)
    (List.replicate (c - (a.length + m.length + 1 + 1)) none) y none
    (a.length + m.length + 1) (a.length + m.length + 1 - 1)
    (by simp only [List.length_append, List.length_map]; omega)
    (by simp only [List.length_append, List.length_map])
  obtain ⟨w1, hw1⟩ := move_backward_loop_mid E m (a.map some)
    (some y :: List.replicate (c - (a.length + m.length + 1 + 1)) none) (E.moved_from y)
    (a.length + m.length + 1 - 1) (a.length + m.length + 1)
    (by simp only [List.length_map]; omega) (by simp only [List.length_map])
  have hcnt : a.length + m.length + 1 - 1 - a.length = m.length := by omega
  have hca := copy_assign_mid (a.map some)
    (m.map some ++ (some y :: List.replicate (c - (a.length + m.length + 1 + 1)) none)) w1 x
    a.length (by simp)
  have hne : ¬ a.length + m.length + 1 = c := by omega
  have hne0 : a.length + m.length + 1 ≠ 0 := by omega
  have hi1 : a.length + m.length + 1 - 1 < c := by omega
  have hi2 : a.length < c := by omega
  have hi3 : a.length < a.length + m.length + 1 := by omega
  simp only [Vector.Emplace, Vector.build, Vector.Capacity, RawMemory.Capacity, RawMemory.index,
    move_backward, hlen, hbuf, if_neg hne, if_pos hne0, if_pos hi1, if_pos hi2, if_pos hi3,
    hmc, hcnt]
  simp only [List.append_assoc, List.cons_append] at hw1 hca ⊢
  simp only [hw1, hca]
  simp [hi2]
  constructor <;> omega

/-- In-place branch of `Emplace` at `end()` of a non-empty vector: the last element is moved
from and stays in its moved-from state. -/
theorem Emplace_build_inplace_end {α : Type} (E : ElemOps α) (t : List α) (y x : α) (c : Nat)
    (h : t.length + 1 < c) :
    Vector.Emplace E (Vector.build (t ++ [y]) c) (t.length + 1) x
      = .ok (Vector.build (t ++ [E.moved_from y, x]) c, t.length + 1) := by
  have hlen : (t ++ [y]).length = t.length + 1 := by simp
  have hbuf : List.map some (t ++ [y]) ++ List.replicate (c - (t.length + 1)) none
      = t.map some ++ some y :: none :: List.replicate (c - (t.length + 1 + 1)) none := by
    rw [spare_split c _ h]; simp
  have hmc := move_construct_next E (t.map some)
    (List.replicate (c - (t.length + 1 + 1)) none) y none
    (t.length + 1) (t.length + 1 - 1) (by simp) (by simp)
  have hcnt : t.length + 1 - 1 - (t.length + 1) = 0 := by omega
  have hc := construct_at_mid (t.map some ++ [some (E.moved_from y)])
    (List.replicate (c - (t.length + 1 + 1)) none) (some y) (t.length + 1) (by simp) x
  have hne : ¬ t.length + 1 = c := by omega
  have hne0 : t.length + 1 ≠ 0 := by omega
  have hi1 : t.length + 1 - 1 < c := by omega
  have hi2 : t.length + 1 < c := by omega
  have hi3 : ¬ t.length + 1 < t.length + 1 := by omega
  simp only [Vector.Emplace, Vector.build, Vector.Capacity, RawMemory.Capacity, RawMemory.index,
    move_backward, move_backward_loop, hlen, hbuf, if_neg hne, if_pos hne0, if_pos hi1,
    if_pos hi2, if_neg hi3, hmc, hcnt]
  simp only [List.append_assoc, List.singleton_append, List.cons_append, List.nil_append]
    at hc ⊢
  simp only [hc]
  simp [hi2]

/-- In-place branch of `Emplace` on an empty vector with spare capacity. -/
theorem Emplace_build_inplace_nil {α : Type} (E : ElemOps α) (x : α) (c : Nat) (h : 0 < c) :
    Vector.Emplace E (Vector.build [] c) 0 x = .ok (Vector.build [x] c, 0) := by
  have hbuf : List.replicate (c - 0) (none : Option α) = none :: List.replicate (c - 1) none :=
    spare_split c 0 h
  have hc := construct_at_mid ([] : Slots α) (List.replicate (c - 1) none) none 0 rfl x
  have hne : ¬ 0 = c := by omega
  simp only [Vector.Emplace, Vector.build, Vector.Capacity, RawMemory.Capacity, RawMemory.index,
    List.length_nil, List.map_nil, List.nil_append, hbuf, if_neg hne, if_pos h, ne_eq,
    not_true_eq_false, if_false, lt_self_iff_false] at hc ⊢
  simp only [hc]
  simp [h]

/-- Reallocating branch of `Emplace`. -/
theorem Emplace_build_full {α : Type} (E : ElemOps α) (a b : List α) (x : α) :
    Vector.Emplace E (Vector.build (a ++ b) (a ++ b).length) a.length x
      = .ok (Vector.build (a ++ x :: b) (grown (a ++ b).length), a.length) := by
  have hlen : (a ++ b).length = a.length + b.length := List.length_append a b
  have hlt := lt_grown (a.length + b.length)
  have hg : (if a.length + b.length = 0 then 1 else (a.length + b.length) * 2)
      = grown (a.length + b.length) := rfl
  have hdst : (RawMemory.Allocate (grown (a.length + b.length)) : Slots α)
      = List.replicate a.length none ++ none :: (List.replicate b.length none
          ++ List.replicate (grown (a.length + b.length) - (a.length + b.length + 1)) none) := by
    rw [Allocate_split a.length _ (by omega)]
    congr 2
    rw [← List.replicate_add]
    congr 1
    omega
  have hc := construct_at_mid (List.replicate a.length (none : Option α))
    (List.replicate b.length none
      ++ List.replicate (grown (a.length + b.length) - (a.length + b.length + 1)) none)
    none a.length (by simp) x
  have hsrc : List.map some (a ++ b)
        ++ List.replicate (a.length + b.length - (a.length + b.length)) none
      = a.map some ++ (b.map some ++ []) := by simp
  have ht1 := transfer_front E a (b.map some ++ [])
    (some x :: (List.replicate b.length none
      ++ List.replicate (grown (a.length + b.length) - (a.length + b.length + 1)) none))
  have ht2 := transfer_mid E b ((a.map (transferred E)).map some) [] (a.map some ++ [some x])
    (List.replicate b.length none)
    (List.replicate (grown (a.length + b.length) - (a.length + b.length + 1)) none)
    a.length (a.length + 1) (by simp) (by simp) (by simp)
  have hu : usub (a.length + b.length) a.length = b.length := by
    unfold usub; rw [if_pos (by omega)]; omega
  have hd := destroy_n_front (a.map (transferred E) ++ b.map (transferred E)) []
    (a.length + b.length) (by simp)
  have hi : a.length < grown (a.length + b.length) := by omega
  simp only [Vector.Emplace, Vector.build, Vector.Capacity, RawMemory.Capacity,
    RawMemory.ofCapacity, RawMemory.index, RawMemory.Swap, hlen, hg, hdst, hc, hsrc, hu, ht1,
    if_pos hi, if_true]
  simp only [List.append_assoc, List.cons_append, List.nil_append, List.append_nil,
    List.map_append, List.singleton_append] at ht2 hd ⊢
  simp only [ht2, hd]
  simp [hi]
  omega

theorem Resize_build_shrink {α : Type} (E : ElemOps α) (a b : List α) (c : Nat)
    (h : a.length + b.length ≤ c) (hlt : a.length < c) :
    Vector.Resize E (Vector.build (a ++ b) c) a.length = .ok (Vector.build a c) := by
  have hlen : (a ++ b).length = a.length + b.length := List.length_append a b
  have hle : a.length ≤ a.length + b.length := by omega
  have hcnt : a.length + b.length - a.length = b.length := by omega
  have hd := destroy_n_mid b (a.map some) (List.replicate (c - (a.length + b.length)) none)
    a.length (by simp)
  have hr : List.replicate b.length (none : Option α)
        ++ List.replicate (c - (a.length + b.length)) none
      = List.replicate (c - a.length) none := by
    rw [← List.replicate_add]; congr 1; omega
  simp only [Vector.Resize, Vector.build, RawMemory.index, hlen, if_pos hle, if_pos hlt, hcnt]
  simp only [List.append_assoc, List.map_append] at hd ⊢
  simp only [hd, hr]

/-- On a full vector `Resize(size())` evaluates `data_[size_]`, whose assertion
`index < capacity_` fails. -/
theorem Resize_build_trap {α : Type} (E : ElemOps α) (s : List α) :
    Vector.Resize E (Vector.build s s.length) s.length = .error .assertion := by
  simp [Vector.Resize, Vector.build, RawMemory.index]

theorem Resize_build_grow {α : Type} (E : ElemOps α) (s : List α) (c m : Nat)
    (h : s.length ≤ c) (hm : s.length < m) :
    Vector.Resize E (Vector.build s c) m
      = .ok (Vector.build (s ++ List.replicate (m - s.length) E.value_init) (max c m)) := by
  have hres : Vector.Reserve E (Vector.build s c) m = .ok (Vector.build s (max c m)) := by
    by_cases hc : m ≤ c
    · rw [Reserve_build_le E s c m hc, max_eq_left hc]
    · rw [Reserve_build_gt E s c m h (by omega), max_eq_right (by omega)]
  have hnle : ¬ m ≤ s.length := by omega
  have hi : s.length < max c m := by omega
  have hsp : List.replicate (max c m - s.length) (none : Option α)
      = List.replicate (m - s.length) none ++ List.replicate (max c m - m) none := by
    rw [← List.replicate_add]; congr 1; omega
  have hv := value_construct_mid E (m - s.length) (s.map some)
    (List.replicate (m - s.length) none) (List.replicate (max c m - m) none) s.length
    (by simp) (by simp)
  have hsz : (Vector.build s c).size_ = s.length := rfl
  rw [Vector.Resize, hsz, if_neg hnle, hres]
  simp only [Vector.build, RawMemory.index, if_pos hi, hsp]
  simp only [List.append_assoc] at hv ⊢
  simp only [hv]
  simp
  constructor <;> omega

/-! ## The operations on an arbitrary valid state -/

theorem Holds_exists_build {α : Type} (v : Vector α) (s : List α) (h : Vector.Holds v s) :
    ∃ c, v = Vector.build s c ∧ s.length ≤ c :=
  ⟨v.data_.capacity_, Holds_eq_build v s h, h.2.1⟩

theorem get_build {α : Type} (s : List α) (c i : Nat) (hc : s.length ≤ c) (hi : i < s.length) :
    Vector.get (Vector.build s c) i = .ok (s.get ⟨i, hi⟩) := by
  have hic : i < c := by omega
  have hg : (List.map some s ++ List.replicate (c - s.length) none)[i]?
      = some (some (s.get ⟨i, hi⟩)) := by
    rw [List.getElem?_append_left (by simpa using hi)]
    simp [List.getElem?_eq_getElem hi]
  simp only [Vector.get, Vector.at_, Vector.build, RawMemory.index, if_pos hi, if_pos hic,
    read_at, hg]

theorem Erase_build_at {α : Type} (E : ElemOps α) (s : List α) (c pos : Nat)
    (hc : s.length ≤ c) (hp : pos < s.length) :
    Vector.Erase E (Vector.build s c) pos
      = .ok (Vector.build (s.take pos ++ s.drop (pos + 1)) c, pos) := by
  have hs : s = s.take pos ++ s.get ⟨pos, hp⟩ :: s.drop (pos + 1) := by
    conv_lhs => rw [← List.take_append_drop pos s, List.drop_eq_getElem_cons hp]
    rfl
  have hl : (s.take pos).length = pos := by simp; omega
  have hl2 : (s.take pos).length + ((s.drop (pos + 1)).length + 1) ≤ c := by
    simp only [List.length_take, List.length_drop]; omega
  have := Erase_build E (s.take pos) (s.drop (pos + 1)) (s.get ⟨pos, hp⟩) c hl2
  rw [hl, ← hs] at this
  exact this

theorem Emplace_build_at_full {α : Type} (E : ElemOps α) (s : List α) (pos : Nat) (x : α)
    (hp : pos ≤ s.length) :
    Vector.Emplace E (Vector.build s s.length) pos x
      = .ok (Vector.build (s.take pos ++ x :: s.drop pos) (grown s.length), pos) := by
  have hl : (s.take pos).length = pos := by simp; omega
  have := Emplace_build_full E (s.take pos) (s.drop pos) x
  rw [hl, List.take_append_drop] at this
  exact this

theorem Emplace_build_at_mid {α : Type} (E : ElemOps α) (s : List α) (c pos : Nat) (x : α)
    (hc : s.length < c) (hp : pos < s.length) :
    Vector.Emplace E (Vector.build s c) pos x
      = .ok (Vector.build (s.take pos ++ x :: s.drop pos) c, pos) := by
  have hne : s.drop pos ≠ [] := by
    intro h0
    have := congrArg List.length h0
    simp at this
    omega
  have hd : s.drop pos = (s.drop pos).dropLast ++ [(s.drop pos).getLast hne] :=
    (List.dropLast_append_getLast hne).symm
  have hl : (s.take pos).length = pos := by simp; omega
  have hs : s = s.take pos ++ (s.drop pos).dropLast ++ [(s.drop pos).getLast hne] := by
    rw [List.append_assoc, ← hd, List.take_append_drop]
  have hlen : (s.take pos).length + (s.drop pos).dropLast.length + 1 < c := by
    simp only [List.length_take, List.length_dropLast, List.length_drop]; omega
  have := Emplace_build_inplace_mid E (s.take pos) (s.drop pos).dropLast
    ((s.drop pos).getLast hne) x c hlen
  rw [hl, ← hs] at this
  rw [this]
  congr 3
  rw [List.append_assoc, List.cons_append, ← hd]

theorem Emplace_build_at_end {α : Type} (E : ElemOps α) (s : List α) (c : Nat) (x : α)
    (hc : s.length < c) :
    Vector.Emplace E (Vector.build s c) s.length x
      = .ok (Vector.build (s.dropLast ++ (s.getLast?.toList.map E.moved_from ++ [x])) c,
          s.length) := by
  rcases List.eq_nil_or_concat s with rfl | ⟨t, y, rfl⟩
  · simpa using Emplace_build_inplace_nil E x c (by simpa using hc)
  · have hc1 : t.length + 1 < c := by simpa using hc
    have := Emplace_build_inplace_end E t y x c hc1
    simpa using this

theorem Emplace_build_at {α : Type} (E : ElemOps α) (s : List α) (c pos : Nat) (x : α)
    (hc : s.length ≤ c) (hp : pos ≤ s.length) :
    Vector.Emplace E (Vector.build s c) pos x
      = .ok (Vector.build (emplaced E s c pos x) (if s.length = c then grown c else c), pos) := by
  unfold emplaced
  by_cases hfull : s.length = c
  · subst hfull
    rw [if_pos rfl, if_neg (by omega)]
    exact Emplace_build_at_full E s pos x hp
  · have hlt : s.length < c := by omega
    rw [if_neg hfull]
    by_cases hend : pos = s.length
    · subst hend
      rw [if_pos ⟨hlt, rfl⟩]
      exact Emplace_build_at_end E s c x hlt
    · rw [if_neg (by tauto)]
      exact Emplace_build_at_mid E s c pos x hlt (by omega)

theorem EmplaceBack_build {α : Type} (E : ElemOps α) (s : List α) (c : Nat) (x : α)
    (hc : s.length ≤ c) :
    Vector.EmplaceBack E (Vector.build s c) x
      = .ok (Vector.build (s ++ [x]) (if s.length = c then grown c else c), s.length) := by
  by_cases hfull : s.length = c
  · subst hfull
    rw [if_pos rfl]
    exact EmplaceBack_build_full E s x
  · rw [if_neg hfull]
    exact EmplaceBack_build_spare E s c x (by omega)

theorem Resize_build_le {α : Type} (E : ElemOps α) (s : List α) (c m : Nat)
    (hc : s.length ≤ c) (hm : m ≤ s.length) (hmc : m < c) :
    Vector.Resize E (Vector.build s c) m = .ok (Vector.build (s.take m) c) := by
  have hl : (s.take m).length = m := by simp; omega
  have := Resize_build_shrink E (s.take m) (s.drop m) c
    (by simp only [List.length_take, List.length_drop]; omega) (by omega)
  rw [hl, List.take_append_drop] at this
  exact this

/-! ## Shape of the size and capacity after a call, on any state -/

theorem EmplaceBack_shape {α : Type} (E : ElemOps α) (v : Vector α) (x : α)
    (r : Vector α × Nat) (h : Vector.EmplaceBack E v x = .ok r) :
    r.1.size_ = v.size_ + 1
      ∧ r.1.data_.capacity_
          = (if v.size_ = v.data_.capacity_ then grown v.size_ else v.data_.capacity_) := by
  unfold Vector.EmplaceBack at h
  simp only [Vector.Capacity, RawMemory.Capacity, RawMemory.ofCapacity, RawMemory.Swap] at h
  split at h
  · cases h
  · rename_i data hbody
    split at h
    · cases h
    · cases h
      refine ⟨rfl, ?_⟩
      show data.capacity_ = _
      split at hbody
      · rename_i hf
        rw [if_pos hf]
        repeat' split at hbody
        all_goals cases hbody
        all_goals (unfold grown; split <;> first | rfl | omega)
      · rename_i hf
        rw [if_neg hf]
        repeat' split at hbody
        all_goals cases hbody
        all_goals rfl

theorem Emplace_shape {α : Type} (E : ElemOps α) (v : Vector α) (pos : Nat) (x : α)
    (r : Vector α × Nat) (h : Vector.Emplace E v pos x = .ok r) :
    r.1.size_ = v.size_ + 1
      ∧ r.1.data_.capacity_
          = (if v.size_ = v.data_.capacity_ then grown v.size_ else v.data_.capacity_) := by
  unfold Vector.Emplace at h
  simp only [Vector.Capacity, RawMemory.Capacity, RawMemory.ofCapacity, RawMemory.Swap] at h
  split at h
  · cases h
  · rename_i data hbody
    split at h
    · cases h
    · cases h
      refine ⟨rfl, ?_⟩
      show data.capacity_ = _
      split at hbody
      · rename_i hf
        rw [if_pos hf]
        repeat' split at hbody
        all_goals cases hbody
        all_goals (unfold grown; split <;> first | rfl | omega)
      · rename_i hf
        rw [if_neg hf]
        split at hbody
        · cases hbody
        · split at hbody
          · cases hbody
          · split at hbody
            · cases hbody
            · cases hbody
              rfl

theorem PopBack_shape {α : Type} (v v1 : Vector α) (h : Vector.PopBack v = .ok v1) :
    v1.size_ = usub v.size_ 1 ∧ v1.data_.capacity_ = v.data_.capacity_ := by
  unfold Vector.PopBack at h
  repeat' split at h
  all_goals cases h
  exact ⟨rfl, rfl⟩

theorem Erase_shape {α : Type} (E : ElemOps α) (v : Vector α) (pos : Nat)
    (r : Vector α × Nat) (h : Vector.Erase E v pos = .ok r) :
    r.1.size_ = usub v.size_ 1 ∧ r.1.data_.capacity_ = v.data_.capacity_ := by
  unfold Vector.Erase at h
  dsimp only at h
  repeat' split at h
  all_goals cases h
  exact ⟨rfl, rfl⟩

theorem Reserve_shape {α : Type} (E : ElemOps α) (v v1 : Vector α) (n : Nat)
    (h : Vector.Reserve E v n = .ok v1) :
    v1.size_ = v.size_ ∧ v1.data_.capacity_ = max v.data_.capacity_ n := by
  unfold Vector.Reserve at h
  simp only [RawMemory.Capacity, RawMemory.ofCapacity, RawMemory.Swap] at h
  split at h
  · rename_i hle
    cases h
    exact ⟨rfl, (max_eq_left hle).symm⟩
  · rename_i hle
    repeat' split at h
    all_goals cases h
    refine ⟨rfl, ?_⟩
    show n = max v.data_.capacity_ n
    exact (max_eq_right (by omega)).symm

theorem Resize_shape {α : Type} (E : ElemOps α) (v v1 : Vector α) (m : Nat)
    (h : Vector.Resize E v m = .ok v1) :
    v1.size_ = m
      ∧ v1.data_.capacity_ = (if m ≤ v.size_ then v.data_.capacity_ else max v.data_.capacity_ m)
      := by
  unfold Vector.Resize at h
  split at h
  · rename_i hle
    rw [if_pos hle]
    repeat' split at h
    all_goals cases h
    exact ⟨rfl, rfl⟩
  · rename_i hle
    rw [if_neg hle]
    split at h
    · cases h
    · rename_i v2 hres
      have hs := Reserve_shape E v v2 m hres
      repeat' split at h
      all_goals cases h
      exact ⟨rfl, hs.2⟩

theorem copy_shape {α : Type} (other v1 : Vector α) (h : Vector.copy other = .ok v1) :
    v1.size_ = other.size_ ∧ v1.data_.capacity_ = other.size_ := by
  unfold Vector.copy at h
  simp only [RawMemory.ofCapacity] at h
  repeat' split at h
  all_goals cases h
  exact ⟨rfl, rfl⟩

theorem ofSize_shape {α : Type} (E : ElemOps α) (n : Nat) (v1 : Vector α)
    (h : Vector.ofSize E n = .ok v1) :
    v1.size_ = n ∧ v1.data_.capacity_ = n := by
  unfold Vector.ofSize at h
  simp only [RawMemory.ofCapacity] at h
  repeat' split at h
  all_goals cases h
  exact ⟨rfl, rfl⟩

theorem copyAssign_shape {α : Type} (this rhs v1 : Vector α) (same_object : Bool)
    (h : Vector.copyAssign this rhs same_object = .ok v1) :
    (same_object = true ∧ v1 = this)
      ∨ (v1.size_ = rhs.size_
          ∧ v1.data_.capacity_
              = (if rhs.size_ > this.data_.capacity_ then rhs.size_ else this.data_.capacity_))
      := by
  unfold Vector.copyAssign at h
  simp only [RawMemory.Capacity, Vector.Swap, RawMemory.Swap] at h
  split at h
  · rename_i hs
    cases h
    exact Or.inl ⟨hs, rfl⟩
  · right
    split at h
    · rename_i hgt
      rw [if_pos hgt]
      split at h
      · cases h
      · rename_i c hc
        cases h
        exact copy_shape rhs c hc
    · rename_i hgt
      rw [if_neg hgt]
      repeat' split at h
      all_goals cases h
      all_goals exact ⟨rfl, rfl⟩


/-! ## The tail interface against its list model -/

theorem PushBack_build {α : Type} (E : ElemOps α) (s : List α) (c : Nat) (x : α)
    (hc : s.length ≤ c) :
    Vector.PushBack E (Vector.build s c) x
      = .ok (Vector.build (s ++ [x]) (if s.length = c then grown c else c)) := by
  simp only [Vector.PushBack, EmplaceBack_build E s c x hc]

theorem grown_room (n c : Nat) (hc : n ≤ c) : n + 1 ≤ (if n = c then grown c else c) := by
  split
  · have := lt_grown c; omega
  · omega

theorem TailOp_run_model {α : Type} (E : ElemOps α) (v : Vector α) (s s1 : List α)
    (o : TailOp α) (h : Vector.Holds v s) (hm : o.model s = some s1) :
    ∃ v1, o.run E v = .ok v1 ∧ Vector.Holds v1 s1 := by
  obtain ⟨c, rfl, hc⟩ := Holds_exists_build v s h
  cases o with
  | push value =>
    simp only [TailOp.model, Option.some.injEq] at hm
    subst hm
    refine ⟨_, PushBack_build E s c value hc, Holds_build _ _ ?_⟩
    simpa using grown_room s.length c hc
  | pop =>
    rcases List.eq_nil_or_concat s with rfl | ⟨t, y, rfl⟩
    · simp [TailOp.model] at hm
    · simp only [TailOp.model, List.concat_eq_append, List.isEmpty_eq_true, List.append_eq_nil,
        List.cons_ne_self, and_false, if_false, List.dropLast_concat, Option.some.injEq,
        reduceCtorEq] at hm
      subst hm
      have hc1 : t.length + 1 ≤ c := by simpa using hc
      refine ⟨_, ?_, Holds_build t c (by omega)⟩
      simpa [TailOp.run] using PopBack_build t y c hc1

theorem runTail_model {α : Type} (E : ElemOps α) (ops : List (TailOp α)) :
    ∀ (v : Vector α) (s s1 : List α), Vector.Holds v s → modelTail s ops = some s1 →
      ∃ v1, runTail E v ops = .ok v1 ∧ Vector.Holds v1 s1
        ∧ s1.length + pops ops = s.length + pushes ops := by
  induction ops with
  | nil =>
    intro v s s1 h hm
    simp only [modelTail, Option.some.injEq] at hm
    subst hm
    exact ⟨v, rfl, h, rfl⟩
  | cons o os ih =>
    intro v s s1 h hm
    simp only [modelTail] at hm
    cases hs : o.model s with
    | none => simp [hs] at hm
    | some s2 =>
      simp only [hs] at hm
      obtain ⟨v2, hr, h2⟩ := TailOp_run_model E v s s2 o h hs
      obtain ⟨v1, hr1, h1, hcount⟩ := ih v2 s2 s1 h2 hm
      refine ⟨v1, by simp only [runTail, hr, hr1], h1, ?_⟩
      cases o with
      | push value =>
        simp only [TailOp.model, Option.some.injEq] at hs
        subst hs
        simp only [List.length_append, List.length_singleton] at hcount
        simp only [pops, pushes]
        omega
      | pop =>
        rcases List.eq_nil_or_concat s with rfl | ⟨t, y, rfl⟩
        · simp [TailOp.model] at hs
        · simp only [TailOp.model, List.concat_eq_append, List.isEmpty_eq_true,
            List.append_eq_nil, List.cons_ne_self, and_false, if_false, List.dropLast_concat,
            Option.some.injEq, reduceCtorEq] at hs
          subst hs
          simp only [List.concat_eq_append, List.length_append, List.length_singleton, pops,
            pushes]
          omega

theorem ofSize_total {α : Type} (E : ElemOps α) (n : Nat) :
    Vector.ofSize E n = .ok (Vector.build (List.replicate n E.value_init) n) := by
  have hv := value_construct_mid E n [] (List.replicate n none) [] 0 rfl (by simp)
  simp only [List.nil_append, List.append_nil] at hv
  simp only [Vector.ofSize, RawMemory.ofCapacity, Allocate_eq, hv, Vector.build]
  simp

theorem copy_build {α : Type} (s : List α) (c : Nat) :
    Vector.copy (Vector.build s c) = .ok (Vector.build s s.length) := by
  have hcp := uninitialized_copy_n_mid s [] (List.replicate (c - s.length) none) []
    (List.replicate s.length none) [] 0 0 rfl rfl (by simp)
  simp only [List.nil_append, List.append_nil] at hcp
  simp only [Vector.copy, RawMemory.ofCapacity, Allocate_eq, Vector.build, hcp]
  simp

/-! ## Copy assignment on valid states -/

theorem assign_loop_mid {α : Type} (t : List α) (d cap : Nat) (hd : t.length ≤ d) (n : Nat) :
    ∀ (pre : Slots α) (ws : List α) (post : Slots α) (i : Nat),
      i = pre.length → ws.length = n → i + n ≤ t.length → i + n ≤ cap →
      Vector.assign_loop ⟨pre ++ ws.map some ++ post, cap⟩ (Vector.build t d) i n
        = .ok (pre ++ ((t.drop i).take n).map some ++ post) := by
  induction n with
  | zero =>
    intro pre ws post i _ hw _ _
    have : ws = [] := List.length_eq_zero.mp hw
    simp [Vector.assign_loop, this]
  | succ n ih =>
    intro pre ws post i hi hw hit hic
    obtain ⟨w, ws1, rfl⟩ := List.exists_cons_of_length_eq_add_one hw
    have hlt : i < t.length := by omega
    have hg := get_build t d i hd hlt
    have hidx : i < cap := by omega
    have hca : copy_assign (pre ++ List.map some (w :: ws1) ++ post) i (t.get ⟨i, hlt⟩)
        = .ok ((pre ++ [some (t.get ⟨i, hlt⟩)]) ++ ws1.map some ++ post) := by
      simpa using copy_assign_mid pre (ws1.map some ++ post) w (t.get ⟨i, hlt⟩) i hi
    have hdrop : t.drop i = t.get ⟨i, hlt⟩ :: t.drop (i + 1) := by
      rw [List.drop_eq_getElem_cons hlt]; rfl
    simp only [Vector.assign_loop, hg, RawMemory.index, if_pos hidx, hca]
    rw [ih (pre ++ [some (t.get ⟨i, hlt⟩)]) ws1 post (i + 1) (by simp [hi]) (by simpa using hw)
      (by omega) (by omega), hdrop]
    simp only [List.take_succ_cons, List.map_cons, List.append_assoc, List.singleton_append,
      List.cons_append, List.nil_append]

theorem construct_loop_mid {α : Type} (t : List α) (d cap : Nat) (hd : t.length ≤ d) (n : Nat) :
    ∀ (pre mid post : Slots α) (i : Nat),
      i = pre.length → mid.length = n → i + n ≤ t.length → i + n ≤ cap →
      Vector.construct_loop ⟨pre ++ mid ++ post, cap⟩ (Vector.build t d) i n
        = .ok (pre ++ ((t.drop i).take n).map some ++ post) := by
  induction n with
  | zero =>
    intro pre mid post i _ hw _ _
    have : mid = [] := List.length_eq_zero.mp hw
    simp [Vector.construct_loop, this]
  | succ n ih =>
    intro pre mid post i hi hw hit hic
    obtain ⟨o, mid1, rfl⟩ := List.exists_cons_of_length_eq_add_one hw
    have hlt : i < t.length := by omega
    have hg := get_build t d i hd hlt
    have hidx : i < cap := by omega
    have hca : construct_at (pre ++ o :: mid1 ++ post) i (t.get ⟨i, hlt⟩)
        = .ok ((pre ++ [some (t.get ⟨i, hlt⟩)]) ++ mid1 ++ post) := by
      simpa using construct_at_mid pre (mid1 ++ post) o i hi (t.get ⟨i, hlt⟩)
    have hdrop : t.drop i = t.get ⟨i, hlt⟩ :: t.drop (i + 1) := by
      rw [List.drop_eq_getElem_cons hlt]; rfl
    simp only [Vector.construct_loop, hg, RawMemory.index, if_pos hidx, hca]
    rw [ih (pre ++ [some (t.get ⟨i, hlt⟩)]) mid1 post (i + 1) (by simp [hi]) (by simpa using hw)
      (by omega) (by omega), hdrop]
    simp only [List.take_succ_cons, List.map_cons, List.append_assoc, List.singleton_append,
      List.cons_append, List.nil_append]

theorem copyAssign_build_grow {α : Type} (s t : List α) (c d : Nat) (h : c < t.length) :
    Vector.copyAssign (Vector.build s c) (Vector.build t d) false
      = .ok (Vector.build t t.length) := by
  have hgt : (Vector.build t d).size_ > (Vector.build s c).data_.Capacity := h
  simp only [Vector.copyAssign, Bool.false_eq_true, if_false, if_pos hgt, copy_build]
  rfl

theorem copyAssign_build_shrink {α : Type} (s t : List α) (c d : Nat) (hs : s.length ≤ c)
    (hd : t.length ≤ d) (hts : t.length < s.length) :
    Vector.copyAssign (Vector.build s c) (Vector.build t d) false = .ok (Vector.build t c) := by
  have hngt : ¬ (Vector.build t d).size_ > (Vector.build s c).data_.Capacity := by
    show ¬ t.length > c
    omega
  have hgt2 : (Vector.build s c).size_ > (Vector.build t d).size_ := hts
  have hbuf : (Vector.build s c).data_
      = ⟨[] ++ (s.take t.length).map some
          ++ ((s.drop t.length).map some ++ List.replicate (c - s.length) none), c⟩ := by
    simp only [Vector.build, List.nil_append, ← List.append_assoc, ← List.map_append,
      List.take_append_drop]
  have hl : (s.take t.length).length = t.length := by simp; omega
  have ha := assign_loop_mid t d c hd t.length [] (s.take t.length)
    ((s.drop t.length).map some ++ List.replicate (c - s.length) none) 0 rfl hl (by omega)
    (by omega)
  have hdes := destroy_n_mid (s.drop t.length) (t.map some)
    (List.replicate (c - s.length) none) t.length (by simp)
  have hcnt : (s.drop t.length).length = s.length - t.length := by simp
  have hidx : t.length < c := by omega
  have hr : List.replicate (s.length - t.length) (none : Option α)
        ++ List.replicate (c - s.length) none
      = List.replicate (c - t.length) none := by
    rw [← List.replicate_add]; congr 1; omega
  have hsz1 : (Vector.build s c).size_ = s.length := rfl
  have hsz2 : (Vector.build t d).size_ = t.length := rfl
  have hcap : (Vector.build s c).data_.capacity_ = c := rfl
  rw [Vector.copyAssign, if_neg (by simp), if_neg hngt, if_pos hgt2, hsz1, hsz2, hcap, hbuf, ha]
  rw [hcnt] at hdes
  simp only [List.drop_zero, List.take_length, List.nil_append, RawMemory.index, if_pos hidx,
    List.append_assoc] at hdes ⊢
  simp only [hdes, hr, Vector.build]

theorem copyAssign_build_extend {α : Type} (s t : List α) (c d : Nat)
    (hd : t.length ≤ d) (htc : t.length ≤ c) (hst : s.length ≤ t.length) :
    Vector.copyAssign (Vector.build s c) (Vector.build t d) false = .ok (Vector.build t c) := by
  have hngt : ¬ (Vector.build t d).size_ > (Vector.build s c).data_.Capacity := by
    show ¬ t.length > c
    omega
  have hngt2 : ¬ (Vector.build s c).size_ > (Vector.build t d).size_ := by
    show ¬ s.length > t.length
    omega
  have hsp : List.replicate (c - s.length) (none : Option α)
      = List.replicate (t.length - s.length) none ++ List.replicate (c - t.length) none := by
    rw [← List.replicate_add]; congr 1; omega
  have hbuf : (Vector.build s c).data_
      = ⟨[] ++ s.map some ++ List.replicate (c - s.length) none, c⟩ := by
    simp only [Vector.build, List.nil_append]
  have ha := assign_loop_mid t d c hd s.length [] s (List.replicate (c - s.length) none) 0 rfl
    rfl (by omega) (by omega)
  have hl : ((t.take s.length).map some).length = s.length := by simp; omega
  have hc := construct_loop_mid t d c hd (t.length - s.length) ((t.take s.length).map some)
    (List.replicate (t.length - s.length) none) (List.replicate (c - t.length) none) s.length
    hl.symm (by simp) (by omega) (by omega)
  have hfin : List.take (t.length - s.length) (List.drop s.length t) = List.drop s.length t := by
    apply List.take_of_length_le
    simp
  have hsz1 : (Vector.build s c).size_ = s.length := rfl
  have hsz2 : (Vector.build t d).size_ = t.length := rfl
  have hcap : (Vector.build s c).data_.capacity_ = c := rfl
  rw [Vector.copyAssign, if_neg (by simp), if_neg hngt, if_neg hngt2, hsz1, hsz2, hcap, hbuf, ha]
  simp only [List.drop_zero, List.nil_append, hsp]
  simp only [List.append_assoc] at hc ⊢
  rw [hc, hfin]
  simp only [Vector.build, ← List.append_assoc, ← List.map_append, List.take_append_drop]

theorem copyAssign_build {α : Type} (s t : List α) (c d : Nat) (hs : s.length ≤ c)
    (hd : t.length ≤ d) :
    Vector.copyAssign (Vector.build s c) (Vector.build t d) false
      = .ok (Vector.build t (if t.length > c then t.length else c)) := by
  by_cases h : t.length > c
  · rw [if_pos h]
    exact copyAssign_build_grow s t c d h
  · rw [if_neg h]
    by_cases h2 : t.length < s.length
    · exact copyAssign_build_shrink s t c d hs hd h2
    · exact copyAssign_build_extend s t c d hd (by omega) (by omega)

/-! ## Every call within its precondition on a valid state -/

theorem emplaced_length {α : Type} (E : ElemOps α) (s : List α) (c pos : Nat) (x : α)
    (hp : pos ≤ s.length) : (emplaced E s c pos x).length = s.length + 1 := by
  unfold emplaced
  split
  · rcases List.eq_nil_or_concat s with rfl | ⟨t, y, rfl⟩
    · simp
    · simp
  · simp only [List.length_append, List.length_take, List.length_cons, List.length_drop]
    omega

/-- A call made within its precondition on a valid state, with valid argument vectors,
completes in a valid state, unless it is `Resize` to the current size of a full vector. -/
theorem Call_run_valid {α : Type} (E : ElemOps α) (v : Vector α) (s : List α) (c : Call α)
    (h : Vector.Holds v s) (hpre : c.pre v) (hargs : c.argsValid) (hno : ¬ c.stopsOnAssert v) :
    ∃ v1 s1, c.run E v = .ok v1 ∧ Vector.Holds v1 s1 := by
  obtain ⟨k, rfl, hk⟩ := Holds_exists_build v s h
  cases c with
  | PushBack value =>
    exact ⟨_, _, PushBack_build E s k value hk,
      Holds_build _ _ (by simpa using grown_room s.length k hk)⟩
  | EmplaceBack x =>
    refine ⟨_, _, ?_, Holds_build (s ++ [x]) (if s.length = k then grown k else k)
      (by simpa using grown_room s.length k hk)⟩
    simp only [Call.run, EmplaceBack_build E s k x hk]
  | PopBack =>
    have hp : 0 < s.length := hpre
    rcases List.eq_nil_or_concat s with rfl | ⟨t, y, rfl⟩
    · simp at hp
    · have hk1 : t.length + 1 ≤ k := by simpa using hk
      refine ⟨_, _, ?_, Holds_build t k (by omega)⟩
      simpa [Call.run] using PopBack_build t y k hk1
  | Insert pos value =>
    have hp : pos ≤ s.length := hpre
    refine ⟨_, _, ?_, Holds_build (emplaced E s k pos value)
      (if s.length = k then grown k else k) ?_⟩
    · simp only [Call.run, Vector.Insert, Emplace_build_at E s k pos value hk hp]
    · rw [emplaced_length E s k pos value hp]
      exact grown_room s.length k hk
  | Emplace pos x =>
    have hp : pos ≤ s.length := hpre
    refine ⟨_, _, ?_, Holds_build (emplaced E s k pos x)
      (if s.length = k then grown k else k) ?_⟩
    · simp only [Call.run, Emplace_build_at E s k pos x hk hp]
    · rw [emplaced_length E s k pos x hp]
      exact grown_room s.length k hk
  | Erase pos =>
    have hp : pos < s.length := hpre
    refine ⟨_, _, ?_, Holds_build (s.take pos ++ s.drop (pos + 1)) k ?_⟩
    · simp only [Call.run, Erase_build_at E s k pos hk hp]
    · simp only [List.length_append, List.length_take, List.length_drop]
      omega
  | Reserve n =>
    by_cases hn : n ≤ k
    · exact ⟨_, s, Reserve_build_le E s k n hn, Holds_build s k hk⟩
    · exact ⟨_, s, Reserve_build_gt E s k n hk (by omega), Holds_build s n (by omega)⟩
  | Resize m =>
    have hno1 : ¬ (m = s.length ∧ s.length = k) := hno
    by_cases hm : m ≤ s.length
    · refine ⟨_, _, Resize_build_le E s k m hk hm (by omega), Holds_build _ k ?_⟩
      simp only [List.length_take]
      omega
    · refine ⟨_, _, Resize_build_grow E s k m hk (by omega), Holds_build _ _ ?_⟩
      simp only [List.length_append, List.length_replicate]
      omega
  | CopyAssign rhs same_object =>
    obtain ⟨t, ht⟩ := hargs
    obtain ⟨d, rfl, hd⟩ := Holds_exists_build rhs t ht
    cases same_object with
    | true => exact ⟨_, s, by simp [Call.run, Vector.copyAssign], Holds_build s k hk⟩
    | false =>
      refine ⟨_, t, copyAssign_build s t k d hk hd, Holds_build t _ ?_⟩
      split <;> omega
  | MoveAssign rhs =>
    obtain ⟨t, ht⟩ := hargs
    exact ⟨rhs, t, rfl, ht⟩
  | Swap other =>
    obtain ⟨t, ht⟩ := hargs
    exact ⟨other, t, rfl, ht⟩

/-! ## Transfers that may throw -/

theorem copy_throwing_never {α : Type} (n : Nat) :
    ∀ (src dst : Slots α) (d_first first current : Nat),
      Vector.copy_throwing Throws.never src dst d_first first current n
        = (match uninitialized_copy_n src first dst current n with
          | .ok r => .ok (.completed r.1 r.2)
          | .error e => .error e) := by
  induction n with
  | zero => intro src dst d_first first current; rfl
  | succ n ih =>
    intro src dst d_first first current
    simp only [Vector.copy_throwing, uninitialized_copy_n]
    cases hs : src[first]? with
    | none => rfl
    | some o =>
      cases o with
      | none => rfl
      | some x =>
        have h0 : (Throws.never : Throws α).copy_throws x = false := rfl
        simp only [h0, Bool.false_eq_true, if_false]
        cases hc : construct_at dst current x with
        | error e => rfl
        | ok dst1 => simp only [ih]

theorem move_throwing_never {α : Type} (E : ElemOps α) (n : Nat) :
    ∀ (src dst : Slots α) (d_first first current : Nat),
      Vector.move_throwing E Throws.never src dst d_first first current n
        = (match uninitialized_move_n E src first dst current n with
          | .ok r => .ok (.completed r.1 r.2)
          | .error e => .error e) := by
  induction n with
  | zero => intro src dst d_first first current; rfl
  | succ n ih =>
    intro src dst d_first first current
    simp only [Vector.move_throwing, uninitialized_move_n]
    cases hs : src[first]? with
    | none => rfl
    | some o =>
      cases o with
      | none => rfl
      | some x =>
        have h0 : (Throws.never : Throws α).move_throws x = false := rfl
        simp only [h0, Bool.false_eq_true, if_false]
        cases hc : construct_at dst current x with
        | error e => rfl
        | ok dst1 => simp only [ih]

/-- With constructors that never throw, the throwing transfer is the transfer. -/
theorem transfer_throwing_never {α : Type} (E : ElemOps α) (src dst : Slots α)
    (first d_first n : Nat) :
    Vector.transfer_throwing E Throws.never src first dst d_first n
      = (match Vector.transfer E src first dst d_first n with
        | .ok r => .ok (.completed r.1 r.2)
        | .error e => .error e) := by
  unfold Vector.transfer_throwing Vector.transfer
  split
  · exact move_throwing_never E n src dst d_first first d_first
  · exact copy_throwing_never n src dst d_first first d_first

theorem copy_throwing_pass {α : Type} (T : Throws α) (xs : List α) :
    (∀ x ∈ xs, T.copy_throws x = false) →
    ∀ (spre spost dpre dmid dpost : Slots α) (d_first first current : Nat),
      first = spre.length → current = dpre.length → dmid.length = xs.length →
      Vector.copy_throwing T (spre ++ xs.map some ++ spost) (dpre ++ dmid ++ dpost) d_first first
          current xs.length
        = .ok (.completed (spre ++ xs.map some ++ spost) (dpre ++ xs.map some ++ dpost)) := by
  induction xs with
  | nil =>
    intro _ spre spost dpre dmid dpost d_first first current _ _ hm
    have : dmid = [] := List.length_eq_zero.mp hm
    simp [Vector.copy_throwing, this]
  | cons x xs ih =>
    intro hx spre spost dpre dmid dpost d_first first current h hd hm
    obtain ⟨o, mid1, rfl⟩ := List.exists_cons_of_length_eq_add_one hm
    have hx0 : T.copy_throws x = false := hx x (List.mem_cons_self x xs)
    have hxs : ∀ y ∈ xs, T.copy_throws y = false := fun y hy => hx y (List.mem_cons_of_mem x hy)
    have hg : (spre ++ List.map some (x :: xs) ++ spost)[first]? = some (some x) := by
      simpa using slot_get spre (xs.map some ++ spost) (some x) first h
    have hc : construct_at (dpre ++ o :: mid1 ++ dpost) current x
        = .ok ((dpre ++ [some x]) ++ mid1 ++ dpost) := by
      simpa using construct_at_mid dpre (mid1 ++ dpost) o current hd x
    have hsrc : spre ++ List.map some (x :: xs) ++ spost
        = (spre ++ [some x]) ++ xs.map some ++ spost := by simp
    simp only [List.length_cons, Vector.copy_throwing, hg, hc, hx0, Bool.false_eq_true, if_false]
    rw [hsrc, ih hxs (spre ++ [some x]) spost (dpre ++ [some x]) mid1 dpost d_first (first + 1)
      (current + 1) (by simp [h]) (by simp [hd]) (by simpa using hm)]
    simp

theorem move_throwing_pass {α : Type} (E : ElemOps α) (T : Throws α) (xs : List α) :
    (∀ x ∈ xs, T.move_throws x = false) →
    ∀ (spre spost dpre dmid dpost : Slots α) (d_first first current : Nat),
      first = spre.length → current = dpre.length → dmid.length = xs.length →
      Vector.move_throwing E T (spre ++ xs.map some ++ spost) (dpre ++ dmid ++ dpost) d_first
          first current xs.length
        = .ok (.completed (spre ++ (xs.map E.moved_from).map some ++ spost)
            (dpre ++ xs.map some ++ dpost)) := by
  induction xs with
  | nil =>
    intro _ spre spost dpre dmid dpost d_first first current _ _ hm
    have : dmid = [] := List.length_eq_zero.mp hm
    simp [Vector.move_throwing, this]
  | cons x xs ih =>
    intro hx spre spost dpre dmid dpost d_first first current h hd hm
    obtain ⟨o, mid1, rfl⟩ := List.exists_cons_of_length_eq_add_one hm
    have hx0 : T.move_throws x = false := hx x (List.mem_cons_self x xs)
    have hxs : ∀ y ∈ xs, T.move_throws y = false := fun y hy => hx y (List.mem_cons_of_mem x hy)
    have hg : (spre ++ List.map some (x :: xs) ++ spost)[first]? = some (some x) := by
      simpa using slot_get spre (xs.map some ++ spost) (some x) first h
    have hc : construct_at (dpre ++ o :: mid1 ++ dpost) current x
        = .ok ((dpre ++ [some x]) ++ mid1 ++ dpost) := by
      simpa using construct_at_mid dpre (mid1 ++ dpost) o current hd x
    have hs : (spre ++ List.map some (x :: xs) ++ spost).set first (some (E.moved_from x))
        = (spre ++ [some (E.moved_from x)]) ++ xs.map some ++ spost := by
      simpa using slot_set spre (xs.map some ++ spost) (some x) (some (E.moved_from x)) first h
    simp only [List.length_cons, Vector.move_throwing, hg, hc, hs, hx0, Bool.false_eq_true,
      if_false]
    rw [ih hxs (spre ++ [some (E.moved_from x)]) spost (dpre ++ [some x]) mid1 dpost d_first
      (first + 1) (current + 1) (by simp [h]) (by simp [hd]) (by simpa using hm)]
    simp

theorem copy_throwing_fail {α : Type} (T : Throws α) (a : List α) (x : α) (b : List α)
    (hx : T.copy_throws x = true) :
    (∀ y ∈ a, T.copy_throws y = false) →
    ∀ (spre spost dpre dpost : Slots α) (done : List α) (d_first first current n : Nat),
      first = spre.length → d_first = dpre.length → current = dpre.length + done.length →
      n = a.length + (b.length + 1) →
      Vector.copy_throwing T (spre ++ (a ++ x :: b).map some ++ spost)
          (dpre ++ done.map some ++ List.replicate n none ++ dpost) d_first first current n
        = .ok (.threw (spre ++ (a ++ x :: b).map some ++ spost)
            (dpre ++ List.replicate (done.length + n) none ++ dpost)) := by
  induction a with
  | nil =>
    intro _ spre spost dpre dpost done d_first first current n h hd hcur hn
    simp only [List.length_nil, Nat.zero_add] at hn
    subst hn
    have hg : (spre ++ List.map some ([] ++ x :: b) ++ spost)[first]? = some (some x) := by
      simpa using slot_get spre (b.map some ++ spost) (some x) first h
    have hcnt : current - d_first = done.length := by omega
    have hdes := destroy_n_mid done dpre (List.replicate (b.length + 1) none ++ dpost) d_first hd
    simp only [Vector.copy_throwing, hg, hx, if_true, hcnt]
    simp only [List.append_assoc] at hdes ⊢
    rw [hdes]
    simp [List.replicate_add]
  | cons y a ih =>
    intro ha spre spost dpre dpost done d_first first current n h hd hcur hn
    have hn1 : n = (a.length + (b.length + 1)) + 1 := by
      simp only [List.length_cons] at hn; omega
    subst hn1
    have hy0 : T.copy_throws y = false := ha y (List.mem_cons_self y a)
    have ha1 : ∀ z ∈ a, T.copy_throws z = false := fun z hz => ha z (List.mem_cons_of_mem y hz)
    have hg : (spre ++ List.map some (y :: a ++ x :: b) ++ spost)[first]? = some (some y) := by
      simpa using slot_get spre ((a ++ x :: b).map some ++ spost) (some y) first h
    have hc : construct_at (dpre ++ done.map some
          ++ List.replicate (a.length + (b.length + 1) + 1) none ++ dpost) current y
        = .ok (dpre ++ (done ++ [y]).map some
            ++ List.replicate (a.length + (b.length + 1)) none ++ dpost) := by
      have := construct_at_mid (dpre ++ done.map some)
        (List.replicate (a.length + (b.length + 1)) none ++ dpost) none current
        (by simp [hcur]) y
      simpa [List.replicate_succ] using this
    have hsrc : spre ++ List.map some (y :: a ++ x :: b) ++ spost
        = (spre ++ [some y]) ++ (a ++ x :: b).map some ++ spost := by simp
    rw [Vector.copy_throwing]
    simp only [hg, hy0, Bool.false_eq_true, if_false, hc]
    rw [hsrc, ih ha1 (spre ++ [some y]) spost dpre dpost (done ++ [y]) d_first (first + 1)
      (current + 1) (a.length + (b.length + 1)) (by simp [h]) hd (by simp [hcur]; omega) rfl]
    simp only [List.length_append, List.length_singleton]
    rw [show done.length + 1 + (a.length + (b.length + 1))
      = done.length + (a.length + (b.length + 1) + 1) by omega]

theorem move_throwing_fail {α : Type} (E : ElemOps α) (T : Throws α) (a : List α) (x : α)
    (b : List α) (hx : T.move_throws x = true) :
    (∀ y ∈ a, T.move_throws y = false) →
    ∀ (spre spost dpre dpost : Slots α) (done : List α) (d_first first current n : Nat),
      first = spre.length → d_first = dpre.length → current = dpre.length + done.length →
      n = a.length + (b.length + 1) →
      Vector.move_throwing E T (spre ++ (a ++ x :: b).map some ++ spost)
          (dpre ++ done.map some ++ List.replicate n none ++ dpost) d_first first current n
        = .ok (.threw (spre ++ (a.map E.moved_from ++ x :: b).map some ++ spost)
            (dpre ++ List.replicate (done.length + n) none ++ dpost)) := by
  induction a with
  | nil =>
    intro _ spre spost dpre dpost done d_first first current n h hd hcur hn
    simp only [List.length_nil, Nat.zero_add] at hn
    subst hn
    have hg : (spre ++ List.map some ([] ++ x :: b) ++ spost)[first]? = some (some x) := by
      simpa using slot_get spre (b.map some ++ spost) (some x) first h
    have hcnt : current - d_first = done.length := by omega
    have hdes := destroy_n_mid done dpre (List.replicate (b.length + 1) none ++ dpost) d_first hd
    simp only [Vector.move_throwing, hg, hx, if_true, hcnt]
    simp only [List.append_assoc] at hdes ⊢
    rw [hdes]
    simp [List.replicate_add]
  | cons y a ih =>
    intro ha spre spost dpre dpost done d_first first current n h hd hcur hn
    have hn1 : n = (a.length + (b.length + 1)) + 1 := by
      simp only [List.length_cons] at hn; omega
    subst hn1
    have hy0 : T.move_throws y = false := ha y (List.mem_cons_self y a)
    have ha1 : ∀ z ∈ a, T.move_throws z = false := fun z hz => ha z (List.mem_cons_of_mem y hz)
    have hg : (spre ++ List.map some (y :: a ++ x :: b) ++ spost)[first]? = some (some y) := by
      simpa using slot_get spre ((a ++ x :: b).map some ++ spost) (some y) first h
    have hc : construct_at (dpre ++ done.map some
          ++ List.replicate (a.length + (b.length + 1) + 1) none ++ dpost) current y
        = .ok (dpre ++ (done ++ [y]).map some
            ++ List.replicate (a.length + (b.length + 1)) none ++ dpost) := by
      have := construct_at_mid (dpre ++ done.map some)
        (List.replicate (a.length + (b.length + 1)) none ++ dpost) none current
        (by simp [hcur]) y
      simpa [List.replicate_succ] using this
    have hs : (spre ++ List.map some (y :: a ++ x :: b) ++ spost).set first
          (some (E.moved_from y))
        = (spre ++ [some (E.moved_from y)]) ++ (a ++ x :: b).map some ++ spost := by
      simpa using slot_set spre ((a ++ x :: b).map some ++ spost) (some y)
        (some (E.moved_from y)) first h
    rw [Vector.move_throwing]
    simp only [hg, hy0, Bool.false_eq_true, if_false, hc, hs]
    rw [ih ha1 (spre ++ [some (E.moved_from y)]) spost dpre dpost (done ++ [y]) d_first
      (first + 1) (current + 1) (a.length + (b.length + 1)) (by simp [h]) hd
      (by simp [hcur]; omega) rfl]
    simp only [List.length_append, List.length_singleton]
    rw [show done.length + 1 + (a.length + (b.length + 1))
      = done.length + (a.length + (b.length + 1) + 1) by omega]
    simp

theorem transfer_throwing_pass {α : Type} (E : ElemOps α) (T : Throws α) (xs : List α)
    (hx : ∀ x ∈ xs, throwsOn E T x = false)
    (spre spost dpre dmid dpost : Slots α) (first d_first : Nat)
    (h : first = spre.length) (hd : d_first = dpre.length) (hm : dmid.length = xs.length) :
    Vector.transfer_throwing E T (spre ++ xs.map some ++ spost) first (dpre ++ dmid ++ dpost)
        d_first xs.length
      = .ok (.completed (spre ++ (xs.map (transferred E)).map some ++ spost)
          (dpre ++ xs.map some ++ dpost)) := by
  unfold Vector.transfer_throwing
  by_cases hE : E.nothrow_move = true
  · have hf : transferred E = E.moved_from := by funext x; simp [transferred, hE]
    have hx1 : ∀ x ∈ xs, T.move_throws x = false := by
      intro x hxm; simpa [throwsOn, hE] using hx x hxm
    rw [if_pos hE, hf]
    exact move_throwing_pass E T xs hx1 spre spost dpre dmid dpost d_first first d_first h hd hm
  · have hf : transferred E = id := by funext x; simp [transferred, hE]
    have hx1 : ∀ x ∈ xs, T.copy_throws x = false := by
      intro x hxm; simpa [throwsOn, hE] using hx x hxm
    rw [if_neg hE, hf, List.map_id]
    exact copy_throwing_pass T xs hx1 spre spost dpre dmid dpost d_first first d_first h hd hm

theorem transfer_throwing_fail {α : Type} (E : ElemOps α) (T : Throws α) (a : List α) (x : α)
    (b : List α) (hx : throwsOn E T x = true) (ha : ∀ y ∈ a, throwsOn E T y = false)
    (spre spost dpre dpost : Slots α) (first d_first n : Nat)
    (h : first = spre.length) (hd : d_first = dpre.length) (hn : n = a.length + (b.length + 1)) :
    Vector.transfer_throwing E T (spre ++ (a ++ x :: b).map some ++ spost) first
        (dpre ++ List.replicate n none ++ dpost) d_first n
      = .ok (.threw (spre ++ (a.map (transferred E) ++ x :: b).map some ++ spost)
          (dpre ++ List.replicate n none ++ dpost)) := by
  unfold Vector.transfer_throwing
  by_cases hE : E.nothrow_move = true
  · have hf : transferred E = E.moved_from := by funext z; simp [transferred, hE]
    have hx1 : T.move_throws x = true := by simpa [throwsOn, hE] using hx
    have ha1 : ∀ y ∈ a, T.move_throws y = false := by
      intro y hy; simpa [throwsOn, hE] using ha y hy
    have := move_throwing_fail E T a x b hx1 ha1 spre spost dpre dpost [] d_first first d_first n
      h hd (by simp [hd]) hn
    rw [if_pos hE, hf]
    simpa using this
  · have hf : transferred E = id := by funext z; simp [transferred, hE]
    have hx1 : T.copy_throws x = true := by simpa [throwsOn, hE] using hx
    have ha1 : ∀ y ∈ a, T.copy_throws y = false := by
      intro y hy; simpa [throwsOn, hE] using ha y hy
    have := copy_throwing_fail T a x b hx1 ha1 spre spost dpre dpost [] d_first first d_first n
      h hd (by simp [hd]) hn
    rw [if_neg hE, hf, List.map_id]
    simpa using this

/-- A list with an element on which `f` holds splits at the first such element. -/
theorem split_at_first {β : Type} (f : β → Bool) (s : List β) (h : ∃ x ∈ s, f x = true) :
    ∃ a x b, s = a ++ x :: b ∧ (∀ y ∈ a, f y = false) ∧ f x = true := by
  induction s with
  | nil => obtain ⟨x, hx, _⟩ := h; cases hx
  | cons y s ih =>
    by_cases hy : f y = true
    · exact ⟨[], y, s, rfl, fun z hz => absurd hz (List.not_mem_nil z), hy⟩
    · have hs : ∃ x ∈ s, f x = true := by
        obtain ⟨x, hx, hfx⟩ := h
        rcases List.mem_cons.mp hx with rfl | hx1
        · exact absurd hfx hy
        · exact ⟨x, hx1, hfx⟩
      obtain ⟨a, x, b, rfl, ha, hx⟩ := ih hs
      refine ⟨y :: a, x, b, rfl, ?_, hx⟩
      intro z hz
      rcases List.mem_cons.mp hz with rfl | hz1
      · simpa using hy
      · exact ha z hz1

/-! ## Growth on a valid state when the transfer throws -/

theorem transferred_copy {α : Type} (E : ElemOps α) (h : E.nothrow_move = false) (a : List α) :
    a.map (transferred E) = a := by
  have hf : transferred E = id := by funext x; simp [transferred, h]
  rw [hf, List.map_id]

theorem ReserveThrowing_build_fail {α : Type} (E : ElemOps α) (T : Throws α) (a : List α)
    (x : α) (b : List α) (c n : Nat) (hx : throwsOn E T x = true)
    (ha : ∀ y ∈ a, throwsOn E T y = false) (hc : a.length + (b.length + 1) ≤ c) (hn : c < n) :
    Vector.ReserveThrowing E T (Vector.build (a ++ x :: b) c) n
      = .ok (.threw (Vector.build (a.map (transferred E) ++ x :: b) c)
          (List.replicate n none)) := by
  have hlen : (a ++ x :: b).length = a.length + (b.length + 1) := by simp
  have hlen2 : (a.map (transferred E) ++ x :: b).length = a.length + (b.length + 1) := by simp
  have hdst : (RawMemory.Allocate n : Slots α)
      = [] ++ List.replicate (a.length + (b.length + 1)) none
          ++ List.replicate (n - (a.length + (b.length + 1))) none := by
    rw [Allocate_eq, List.nil_append]; exact replicate_split _ _ _ (by omega)
  have hsrc : List.map some (a ++ x :: b)
        ++ List.replicate (c - (a.length + (b.length + 1))) none
      = [] ++ List.map some (a ++ x :: b)
          ++ List.replicate (c - (a.length + (b.length + 1))) none := by simp
  have ht := transfer_throwing_fail E T a x b hx ha []
    (List.replicate (c - (a.length + (b.length + 1))) none) []
    (List.replicate (n - (a.length + (b.length + 1))) none) 0 0 (a.length + (b.length + 1))
    rfl rfl rfl
  have hnle : ¬ n ≤ c := by omega
  simp only [Vector.ReserveThrowing, Vector.build, RawMemory.Capacity, RawMemory.ofCapacity,
    hlen, hlen2, if_neg hnle, hdst]
  rw [hsrc, ht]
  simp only [List.nil_append, ← replicate_split none _ n (by omega : a.length + (b.length + 1) ≤ n)]

theorem EmplaceBackThrowing_build_fail {α : Type} (E : ElemOps α) (T : Throws α) (a : List α)
    (x : α) (b : List α) (c : Nat) (xnew : α) (hx : throwsOn E T x = true)
    (ha : ∀ y ∈ a, throwsOn E T y = false) (hc : c = a.length + (b.length + 1)) :
    Vector.EmplaceBackThrowing E T (Vector.build (a ++ x :: b) c) xnew
      = .ok (.threw (Vector.build (a.map (transferred E) ++ x :: b) c)
          (List.replicate c none ++ some xnew :: List.replicate (grown c - (c + 1)) none)) := by
  subst hc
  have hlen : (a ++ x :: b).length = a.length + (b.length + 1) := by simp
  have hlen2 : (a.map (transferred E) ++ x :: b).length = a.length + (b.length + 1) := by simp
  have hlt := lt_grown (a.length + (b.length + 1))
  have hg : (if a.length + (b.length + 1) = 0 then 1 else (a.length + (b.length + 1)) * 2)
      = grown (a.length + (b.length + 1)) := rfl
  have hdst := Allocate_split (α := α) (a.length + (b.length + 1))
    (grown (a.length + (b.length + 1))) hlt
  have hcn := construct_at_mid (List.replicate (a.length + (b.length + 1)) (none : Option α))
    (List.replicate (grown (a.length + (b.length + 1)) - (a.length + (b.length + 1) + 1)) none)
    none (a.length + (b.length + 1)) (by simp) xnew
  have ht := transfer_throwing_fail E T a x b hx ha []
    (List.replicate (a.length + (b.length + 1) - (a.length + (b.length + 1))) none) []
    (some xnew
      :: List.replicate (grown (a.length + (b.length + 1)) - (a.length + (b.length + 1) + 1))
        none) 0 0 (a.length + (b.length + 1)) rfl rfl rfl
  simp only [List.nil_append] at ht
  simp only [Vector.EmplaceBackThrowing, Vector.build, Vector.Capacity, RawMemory.Capacity,
    RawMemory.ofCapacity, RawMemory.index, hlen, hlen2, hg, hdst, hcn, ht, if_pos hlt, if_true]

/-- Reallocating `Emplace`, the transfer of `[0, pos)` throws: the handler destroys the new
element and every slot of the new block is unconstructed. -/
theorem EmplaceThrowing_build_fail_front {α : Type} (E : ElemOps α) (T : Throws α)
    (a : List α) (x : α) (b1 b2 : List α) (c : Nat) (xnew : α) (hx : throwsOn E T x = true)
    (ha : ∀ y ∈ a, throwsOn E T y = false) (hc : c = a.length + (b1.length + 1) + b2.length) :
    Vector.EmplaceThrowing E T (Vector.build (a ++ x :: (b1 ++ b2)) c)
        (a.length + (b1.length + 1)) xnew
      = .ok (.threw (Vector.build (a.map (transferred E) ++ x :: (b1 ++ b2)) c)
          (List.replicate (grown c) none)) := by
  subst hc
  have hlen : (a ++ x :: (b1 ++ b2)).length = a.length + (b1.length + 1) + b2.length := by
    simp; omega
  have hlen2 : (a.map (transferred E) ++ x :: (b1 ++ b2)).length
      = a.length + (b1.length + 1) + b2.length := by simp; omega
  have hlt := lt_grown (a.length + (b1.length + 1) + b2.length)
  have hpos : a.length + (b1.length + 1) < grown (a.length + (b1.length + 1) + b2.length) := by
    omega
  have hg : (if a.length + (b1.length + 1) + b2.length = 0 then 1
      else (a.length + (b1.length + 1) + b2.length) * 2)
      = grown (a.length + (b1.length + 1) + b2.length) := rfl
  have hdst := Allocate_split (α := α) (a.length + (b1.length + 1))
    (grown (a.length + (b1.length + 1) + b2.length)) hpos
  have hcn := construct_at_mid (List.replicate (a.length + (b1.length + 1)) (none : Option α))
    (List.replicate (grown (a.length + (b1.length + 1) + b2.length)
      - (a.length + (b1.length + 1) + 1)) none)
    none (a.length + (b1.length + 1)) (by simp) xnew
  have hsrc : List.map some (a ++ x :: (b1 ++ b2))
        ++ List.replicate (a.length + (b1.length + 1) + b2.length
          - (a.length + (b1.length + 1) + b2.length)) none
      = List.map some (a ++ x :: b1) ++ List.map some b2 := by simp
  have ht := transfer_throwing_fail E T a x b1 hx ha [] (List.map some b2) []
    (some xnew :: List.replicate (grown (a.length + (b1.length + 1) + b2.length)
      - (a.length + (b1.length + 1) + 1)) none) 0 0 (a.length + (b1.length + 1)) rfl rfl rfl
  have hdes := destroy_n_mid [xnew] (List.replicate (a.length + (b1.length + 1)) none)
    (List.replicate (grown (a.length + (b1.length + 1) + b2.length)
      - (a.length + (b1.length + 1) + 1)) none) (a.length + (b1.length + 1)) (by simp)
  have hall : List.replicate (a.length + (b1.length + 1)) (none : Option α)
        ++ none :: List.replicate (grown (a.length + (b1.length + 1) + b2.length)
          - (a.length + (b1.length + 1) + 1)) none
      = List.replicate (grown (a.length + (b1.length + 1) + b2.length)) none := by
    rw [← hdst, Allocate_eq]
  simp only [List.nil_append] at ht
  simp only [Vector.EmplaceThrowing, Vector.build, Vector.Capacity, RawMemory.Capacity,
    RawMemory.ofCapacity, RawMemory.index, hlen, hlen2, hg, hdst, hcn, if_pos hpos, if_true]
  rw [hsrc, ht]
  simp only [List.nil_append, List.map_cons, List.map_nil, List.length_singleton,
    List.replicate_one, List.singleton_append, List.append_assoc, List.cons_append] at hdes ⊢
  simp only [hdes, hall]
  simp

/-- Reallocating `Emplace`, the transfer of `[pos, size)` throws: the handler destroys the
slots `[0, pos)` of the new block, and the new element in slot `pos` stays constructed. -/
theorem EmplaceThrowing_build_fail_back {α : Type} (E : ElemOps α) (T : Throws α)
    (a1 a2 : List α) (x : α) (b : List α) (c : Nat) (xnew : α) (hx : throwsOn E T x = true)
    (ha1 : ∀ y ∈ a1, throwsOn E T y = false) (ha2 : ∀ y ∈ a2, throwsOn E T y = false)
    (hc : c = a1.length + (a2.length + (b.length + 1))) :
    Vector.EmplaceThrowing E T (Vector.build (a1 ++ (a2 ++ x :: b)) c) a1.length xnew
      = .ok (.threw (Vector.build ((a1 ++ a2).map (transferred E) ++ x :: b) c)
          (List.replicate a1.length none
            ++ some xnew :: List.replicate (grown c - (a1.length + 1)) none)) := by
  subst hc
  have hlen : (a1 ++ (a2 ++ x :: b)).length = a1.length + (a2.length + (b.length + 1)) := by
    simp
  have hlen2 : ((a1 ++ a2).map (transferred E) ++ x :: b).length
      = a1.length + (a2.length + (b.length + 1)) := by
    simp only [List.length_append, List.length_map, List.length_cons]; omega
  have hlt := lt_grown (a1.length + (a2.length + (b.length + 1)))
  have hpos : a1.length < grown (a1.length + (a2.length + (b.length + 1))) := by omega
  have hg : (if a1.length + (a2.length + (b.length + 1)) = 0 then 1
      else (a1.length + (a2.length + (b.length + 1))) * 2)
      = grown (a1.length + (a2.length + (b.length + 1))) := rfl
  have hrest : List.replicate (grown (a1.length + (a2.length + (b.length + 1)))
        - (a1.length + 1)) (none : Option α)
      = List.replicate (a2.length + (b.length + 1)) none
          ++ List.replicate (grown (a1.length + (a2.length + (b.length + 1)))
            - (a1.length + (a2.length + (b.length + 1)) + 1)) none := by
    rw [← List.replicate_add]; congr 1; omega
  have hdst : (RawMemory.Allocate (grown (a1.length + (a2.length + (b.length + 1)))) : Slots α)
      = List.replicate a1.length none ++ none
          :: (List.replicate (a2.length + (b.length + 1)) none
            ++ List.replicate (grown (a1.length + (a2.length + (b.length + 1)))
              - (a1.length + (a2.length + (b.length + 1)) + 1)) none) := by
    rw [Allocate_split a1.length _ hpos, hrest]
  have hcn := construct_at_mid (List.replicate a1.length (none : Option α))
    (List.replicate (a2.length + (b.length + 1)) none
      ++ List.replicate (grown (a1.length + (a2.length + (b.length + 1)))
        - (a1.length + (a2.length + (b.length + 1)) + 1)) none)
    none a1.length (by simp) xnew
  have hsrc : List.map some (a1 ++ (a2 ++ x :: b))
        ++ List.replicate (a1.length + (a2.length + (b.length + 1))
          - (a1.length + (a2.length + (b.length + 1)))) none
      = List.map some a1 ++ List.map some (a2 ++ x :: b) := by simp
  have ht1 := transfer_throwing_pass E T a1 ha1 [] (List.map some (a2 ++ x :: b)) []
    (List.replicate a1.length none)
    (some xnew :: (List.replicate (a2.length + (b.length + 1)) none
      ++ List.replicate (grown (a1.length + (a2.length + (b.length + 1)))
        - (a1.length + (a2.length + (b.length + 1)) + 1)) none)) 0 0 rfl rfl (by simp)
  have ht2 := transfer_throwing_fail E T a2 x b hx ha2 ((a1.map (transferred E)).map some) []
    (a1.map some ++ [some xnew])
    (List.replicate (grown (a1.length + (a2.length + (b.length + 1)))
      - (a1.length + (a2.length + (b.length + 1)) + 1)) none)
    a1.length (a1.length + 1) (a2.length + (b.length + 1)) (by simp) (by simp) rfl
  simp only [List.nil_append] at ht1
  have hu : usub (a1.length + (a2.length + (b.length + 1))) a1.length
      = a2.length + (b.length + 1) := by
    unfold usub; rw [if_pos (by omega)]; omega
  have hdes := destroy_n_front a1
    (some xnew :: (List.replicate (a2.length + (b.length + 1)) none
      ++ List.replicate (grown (a1.length + (a2.length + (b.length + 1)))
        - (a1.length + (a2.length + (b.length + 1)) + 1)) none)) a1.length rfl
  simp only [Vector.EmplaceThrowing, Vector.build, Vector.Capacity, RawMemory.Capacity,
    RawMemory.ofCapacity, RawMemory.index, hlen, hlen2, hg, hdst, hcn, if_pos hpos, if_true, hu]
  rw [hsrc, ht1]
  simp only [List.nil_append, List.append_nil, List.append_assoc, List.singleton_append,
    List.cons_append] at ht2 hdes ⊢
  simp only [ht2, hdes, hrest]
  simp

/-! ## The throwing model with constructors that never throw -/

theorem ReserveThrowing_never {α : Type} (E : ElemOps α) (v : Vector α) (n : Nat) :
    Vector.ReserveThrowing E Throws.never v n
      = (match Vector.Reserve E v n with
        | .ok v1 => .ok (.returned v1)
        | .error e => .error e) := by
  unfold Vector.ReserveThrowing Vector.Reserve
  by_cases hn : n ≤ v.data_.Capacity
  · simp only [if_pos hn]
  · simp only [if_neg hn, transfer_throwing_never]
    cases ht : Vector.transfer E v.data_.buffer_ 0 (RawMemory.ofCapacity n).buffer_ 0 v.size_ with
    | error e => rfl
    | ok r =>
      obtain ⟨old, nw⟩ := r
      simp only
      cases hd : destroy_n old 0 v.size_ with
      | error e => rfl
      | ok old1 => rfl

theorem EmplaceBackThrowing_never {α : Type} (E : ElemOps α) (v : Vector α) (x : α) :
    Vector.EmplaceBackThrowing E Throws.never v x
      = (match Vector.EmplaceBack E v x with
        | .ok r => .ok (.returned r.1)
        | .error e => .error e) := by
  unfold Vector.EmplaceBackThrowing
  by_cases hf : v.size_ = v.Capacity
  · simp only [if_pos hf, transfer_throwing_never]
    unfold Vector.EmplaceBack
    simp only [if_pos hf]
    cases hi : (RawMemory.ofCapacity (if v.size_ = 0 then 1 else v.size_ * 2) : RawMemory α).index
        v.size_ with
    | error e => rfl
    | ok p =>
      simp only
      cases hc : construct_at
          (RawMemory.ofCapacity (if v.size_ = 0 then 1 else v.size_ * 2) : RawMemory α).buffer_
          p x with
      | error e => rfl
      | ok nb0 =>
        simp only
        cases ht : Vector.transfer E v.data_.buffer_ 0 nb0 0 v.size_ with
        | error e => rfl
        | ok r =>
          obtain ⟨old1, nb1⟩ := r
          simp only
          cases hd : destroy_n old1 0 v.size_ with
          | error e => rfl
          | ok old2 =>
            simp only
            cases hj : (RawMemory.Swap ⟨old2, v.data_.capacity_⟩
                ⟨nb1, (RawMemory.ofCapacity (if v.size_ = 0 then 1 else v.size_ * 2)
                  : RawMemory α).capacity_⟩).1.index (v.size_ + 1 - 1) with
            | error e => rfl
            | ok q => rfl
  · simp only [if_neg hf]
    cases Vector.EmplaceBack E v x <;> rfl

theorem EmplaceThrowing_never {α : Type} (E : ElemOps α) (v : Vector α) (pos : Nat) (x : α) :
    Vector.EmplaceThrowing E Throws.never v pos x
      = (match Vector.Emplace E v pos x with
        | .ok r => .ok (.returned r.1)
        | .error e => .error e) := by
  unfold Vector.EmplaceThrowing
  by_cases hf : v.size_ = v.Capacity
  · simp only [if_pos hf, transfer_throwing_never]
    unfold Vector.Emplace
    simp only [if_pos hf]
    cases hi : (RawMemory.ofCapacity (if v.size_ = 0 then 1 else v.size_ * 2) : RawMemory α).index
        pos with
    | error e => rfl
    | ok p =>
      simp only
      cases hc : construct_at
          (RawMemory.ofCapacity (if v.size_ = 0 then 1 else v.size_ * 2) : RawMemory α).buffer_
          p x with
      | error e => rfl
      | ok nb0 =>
        simp only
        cases ht : Vector.transfer E v.data_.buffer_ 0 nb0 0 pos with
        | error e => rfl
        | ok r =>
          obtain ⟨old1, nb1⟩ := r
          simp only
          cases ht2 : Vector.transfer E old1 pos nb1 (pos + 1) (usub v.size_ pos) with
          | error e => rfl
          | ok r2 =>
            obtain ⟨old2, nb2⟩ := r2
            simp only
            cases hd : destroy_n old2 0 v.size_ with
            | error e => rfl
            | ok old3 =>
              simp only
              cases hj : (RawMemory.Swap ⟨old3, v.data_.capacity_⟩
                  ⟨nb2, (RawMemory.ofCapacity (if v.size_ = 0 then 1 else v.size_ * 2)
                    : RawMemory α).capacity_⟩).1.index pos with
              | error e => rfl
              | ok q => rfl
  · simp only [if_neg hf]
    cases Vector.Emplace E v pos x <;> rfl

/-! ## Where an assertion can fail -/

theorem construct_at_no_assert {α : Type} (buf : Slots α) (i : Nat) (x : α) :
    construct_at buf i x ≠ .error .assertion := by
  unfold construct_at
  split <;> simp

theorem destroy_n_no_assert {α : Type} (n : Nat) :
    ∀ (buf : Slots α) (first : Nat), destroy_n buf first n ≠ .error .assertion := by
  induction n with
  | zero => intro buf first; simp [destroy_n]
  | succ n ih =>
    intro buf first
    unfold destroy_n
    split
    · exact ih _ _
    · simp

theorem copy_assign_no_assert {α : Type} (buf : Slots α) (i : Nat) (x : α) :
    copy_assign buf i x ≠ .error .assertion := by
  unfold copy_assign
  split <;> simp

theorem move_assign_no_assert {α : Type} (E : ElemOps α) (buf : Slots α) (d s : Nat) :
    move_assign E buf d s ≠ .error .assertion := by
  unfold move_assign
  split <;> simp

theorem move_loop_no_assert {α : Type} (E : ElemOps α) (n : Nat) :
    ∀ (buf : Slots α) (first d_first : Nat),
      move_loop E buf first d_first n ≠ .error .assertion := by
  induction n with
  | zero => intro buf first d_first; simp [move_loop]
  | succ n ih =>
    intro buf first d_first
    unfold move_loop
    split
    · exact ih _ _ _
    · rename_i e he
      intro h
      cases h
      exact move_assign_no_assert E buf d_first first he

theorem move_backward_loop_no_assert {α : Type} (E : ElemOps α) (n : Nat) :
    ∀ (buf : Slots α) (last d_last : Nat),
      move_backward_loop E buf last d_last n ≠ .error .assertion := by
  induction n with
  | zero => intro buf last d_last; simp [move_backward_loop]
  | succ n ih =>
    intro buf last d_last
    unfold move_backward_loop
    split
    · exact ih _ _ _
    · rename_i e he
      intro h
      cases h
      exact move_assign_no_assert E buf (d_last - 1) (last - 1) he

theorem move_construct_no_assert {α : Type} (E : ElemOps α) (buf : Slots α) (d s : Nat) :
    Vector.move_construct E buf d s ≠ .error .assertion := by
  unfold Vector.move_construct
  split
  · exact construct_at_no_assert _ _ _
  · simp

theorem uninitialized_copy_n_no_assert {α : Type} (n : Nat) :
    ∀ (src dst : Slots α) (first d_first : Nat),
      uninitialized_copy_n src first dst d_first n ≠ .error .assertion := by
  induction n with
  | zero => intro src dst first d_first; simp [uninitialized_copy_n]
  | succ n ih =>
    intro src dst first d_first
    unfold uninitialized_copy_n
    split
    · split
      · exact ih _ _ _ _
      · rename_i e he
        intro h
        cases h
        exact construct_at_no_assert _ _ _ he
    · simp

theorem uninitialized_move_n_no_assert {α : Type} (E : ElemOps α) (n : Nat) :
    ∀ (src dst : Slots α) (first d_first : Nat),
      uninitialized_move_n E src first dst d_first n ≠ .error .assertion := by
  induction n with
  | zero => intro src dst first d_first; simp [uninitialized_move_n]
  | succ n ih =>
    intro src dst first d_first
    unfold uninitialized_move_n
    split
    · split
      · exact ih _ _ _ _
      · rename_i e he
        intro h
        cases h
        exact construct_at_no_assert _ _ _ he
    · simp

theorem transfer_no_assert {α : Type} (E : ElemOps α) (src dst : Slots α)
    (first d_first n : Nat) :
    Vector.transfer E src first dst d_first n ≠ .error .assertion := by
  unfold Vector.transfer
  split
  · exact uninitialized_move_n_no_assert E n src dst first d_first
  · exact uninitialized_copy_n_no_assert n src dst first d_first

/-- `Erase` executes no assertion: whatever the state and the position, its result is not the
assertion error. -/
theorem Erase_no_assert {α : Type} (E : ElemOps α) (v : Vector α) (pos : Nat) :
    Vector.Erase E v pos ≠ .error .assertion := by
  intro h
  unfold Vector.Erase at h
  dsimp only at h
  split at h
  · rename_i e he
    cases h
    exact move_loop_no_assert E _ _ _ _ he
  · split at h
    · rename_i e he
      cases h
      exact destroy_n_no_assert _ _ _ he
    · cases h

/-- `Emplace` on a state with `size <= capacity` and a position below the capacity of the
block it writes to (the doubled capacity on a full vector, the capacity otherwise) fails no
assertion, also when the position is past `size`. -/
theorem Emplace_no_assert {α : Type} (E : ElemOps α) (v : Vector α) (pos : Nat) (x : α)
    (hinv : v.size_ ≤ v.data_.capacity_)
    (hp : pos < (if v.size_ = v.data_.capacity_ then grown v.data_.capacity_
      else v.data_.capacity_)) :
    Vector.Emplace E v pos x ≠ .error .assertion := by
  intro h
  unfold Vector.Emplace at h
  simp only [Vector.Capacity, RawMemory.Capacity, RawMemory.ofCapacity, RawMemory.Swap,
    RawMemory.index] at h
  by_cases hf : v.size_ = v.data_.capacity_
  · rw [if_pos hf] at hp
    have hg : pos < (if v.size_ = 0 then 1 else v.size_ * 2) := by
      rw [hf]; exact hp
    simp only [if_pos hf, if_pos hg] at h
    split at h
    · rename_i e hbody
      cases h
      split at hbody
      · rename_i e1 h1
        cases hbody
        exact construct_at_no_assert _ _ _ h1
      · split at hbody
        · rename_i e2 h2
          cases hbody
          exact transfer_no_assert _ _ _ _ _ _ h2
        · split at hbody
          · rename_i e3 h3
            cases hbody
            exact transfer_no_assert _ _ _ _ _ _ h3
          · split at hbody
            · rename_i e4 h4
              cases hbody
              exact destroy_n_no_assert _ _ _ h4
            · cases hbody
    · rename_i data hbody
      have hcapd : data.capacity_ = (if v.size_ = 0 then 1 else v.size_ * 2) := by
        repeat' split at hbody
        all_goals cases hbody
        all_goals simp_all
      rw [hcapd, if_pos hg] at h
      cases h
  · rw [if_neg hf] at hp
    have hlt : v.size_ < v.data_.capacity_ := by omega
    have hi1 : v.size_ - 1 < v.data_.capacity_ := by omega
    simp only [if_neg hf, if_pos hi1, if_pos hp] at h
    split at h
    · rename_i e hbody
      cases h
      split at hbody
      · rename_i e1 hsh
        cases hbody
        split at hsh
        · split at hsh
          · rename_i e2 h2
            cases hsh
            exact move_construct_no_assert _ _ _ _ h2
          · exact move_backward_loop_no_assert _ _ _ _ _ hsh
        · cases hsh
      · split at hbody
        · rename_i e3 h3
          cases hbody
          split at h3
          · exact copy_assign_no_assert _ _ _ h3
          · exact construct_at_no_assert _ _ _ h3
        · cases hbody
    · rename_i data hbody
      have hcapd : data.capacity_ = v.data_.capacity_ := by
        split at hbody
        · cases hbody
        · split at hbody
          · cases hbody
          · cases hbody
            rfl
      rw [hcapd, if_pos hp] at h
      cases h

/-- `Emplace` on a full vector, or on an empty vector with spare capacity, at a position at or
beyond the capacity of the block it writes to: the assertion of `RawMemory::operator[]` fails
before any element is touched. -/
theorem Emplace_build_past {α : Type} (E : ElemOps α) (s : List α) (c pos : Nat) (x : α)
    (hfe : s.length = c ∨ s = [])
    (hp : (if s.length = c then grown c else c) ≤ pos) :
    Vector.Emplace E (Vector.build s c) pos x = .error .assertion := by
  by_cases hfull : s.length = c
  · subst hfull
    rw [if_pos rfl] at hp
    have hg : (if s.length = 0 then 1 else s.length * 2) = grown s.length := rfl
    have hnot : ¬ pos < grown s.length := by omega
    simp only [Vector.Emplace, Vector.build, Vector.Capacity, RawMemory.Capacity,
      RawMemory.ofCapacity, RawMemory.index, hg, if_neg hnot, if_true]
  · rw [if_neg hfull] at hp
    have hnot : ¬ pos < c := by omega
    rcases hfe with hfe | rfl
    · exact absurd hfe hfull
    · have hne : ¬ (0 : Nat) = c := by simpa using hfull
      simp only [Vector.Emplace, Vector.build, Vector.Capacity, RawMemory.Capacity,
        RawMemory.index, List.length_nil, if_neg hne, ne_eq, not_true_eq_false, if_false,
        if_neg hnot]

/-! ## Copy construction and mutations of a second object -/

theorem copyCtor_build {α : Type} (s : List α) (c : Nat) :
    Vector.copyCtor (Vector.build s c) = .ok (Vector.build s s.length, Vector.build s c) := by
  have hcp := uninitialized_copy_n_mid s [] (List.replicate (c - s.length) none) []
    (List.replicate s.length none) [] 0 0 rfl rfl (by simp)
  simp only [List.nil_append, List.append_nil] at hcp
  simp only [Vector.copyCtor, RawMemory.ofCapacity, Allocate_eq, Vector.build, hcp]
  simp

theorem mutateSecond_first {α : Type} (E : ElemOps α) (ms : List (Mutation α)) :
    ∀ (st st1 : Vector α × Vector α), mutateSecond E st ms = .ok st1 → st1.1 = st.1 := by
  induction ms with
  | nil =>
    intro st st1 h
    simp only [mutateSecond, Except.ok.injEq] at h
    rw [← h]
  | cons m ms ih =>
    intro st st1 h
    simp only [mutateSecond] at h
    split at h
    · rename_i b1 _
      exact ih (st.1, b1) st1 h
    · cases h

/-! ## The free store -/

/-- Every vector is the vector designated by an object of some store. -/
theorem Heap.view_onto {α : Type} (V : Vector α) :
    ∃ (h : Heap α) (v : VectorRef), h.owns v ∧ h.view v = V :=
  ⟨⟨[some V.data_.buffer_]⟩, ⟨⟨some 0, V.data_.capacity_⟩, V.size_⟩, Nat.zero_lt_one, rfl⟩

/-! ## Copy construction in the store -/

/-- Two objects that designate one block: a write through one of them is read through the
other. -/
theorem shared_block_write :
    VectorRef.put (⟨[some [some 1, some 2, none, none]]⟩ : Heap Int) ⟨⟨some 0, 4⟩, 2⟩ 0 5
        = .ok (⟨[some [some 5, some 2, none, none]]⟩, ⟨⟨some 0, 4⟩, 2⟩)
      ∧ (⟨[some [some 1, some 2, none, none]]⟩ : Heap Int).view ⟨⟨some 0, 4⟩, 2⟩
        = Vector.build [1, 2] 4
      ∧ (⟨[some [some 5, some 2, none, none]]⟩ : Heap Int).view ⟨⟨some 0, 4⟩, 2⟩
        = Vector.build [5, 2] 4 :=
  ⟨rfl, rfl, rfl⟩

/-! ## Claims -/

/-- C1 (fails on the in-place branch at `end()`): for the element type `ownerOps`, the vector
holding `[[1]]` with capacity 2 and `Insert(end(), [2])`, the call returns position 1 and
leaves the vector holding `[[], [2]]`: the former last element was moved from, so the vector
does not hold `s[0..pos) ++ [v] ++ s[pos..n) = [[1], [2]]`. -/
theorem C1_insert_at_end_moves_from_last :
    Vector.Insert ownerOps (Vector.build [[1]] 2) 1 [2] = .ok (Vector.build [[], [2]] 2, 1)
      ∧ Vector.Holds (Vector.build [[1]] 2) [[1]]
      ∧ Vector.Holds (Vector.build [[], [2]] 2) [[], [2]]
      ∧ ¬ Vector.Holds (Vector.build [[], [2]] 2)
          (([[1]] : List (List Nat)).take 1 ++ [2] :: ([[1]] : List (List Nat)).drop 1) := by
  refine ⟨rfl, by decide, by decide, by decide⟩

/-- C2: on a vector holding `s` with `pos < n`, `Erase(pos)` completes, returns `pos`, leaves the
vector holding `s[0..pos) ++ s[pos+1..n)` with size `n - 1` and the capacity unchanged; the
returned position reads the former successor `s[pos+1]` when there is one and is `end()`
(the new size) when the removed element was the last. -/
theorem C2_erase {α : Type} (E : ElemOps α) (v : Vector α) (s : List α) (pos : Nat)
    (h : Vector.Holds v s) (hp : pos < s.length) :
    ∃ v1, Vector.Erase E v pos = .ok (v1, pos)
      ∧ Vector.Holds v1 (s.take pos ++ s.drop (pos + 1))
      ∧ v1.Size = s.length - 1
      ∧ v1.Capacity = v.Capacity
      ∧ (∀ hq : pos + 1 < s.length, Vector.get v1 pos = .ok (s.get ⟨pos + 1, hq⟩))
      ∧ (pos + 1 = s.length → pos = v1.Size) := by
  obtain ⟨c, rfl, hc⟩ := Holds_exists_build v s h
  have hl : (s.take pos ++ s.drop (pos + 1)).length = s.length - 1 := by
    simp only [List.length_append, List.length_take, List.length_drop]; omega
  refine ⟨_, Erase_build_at E s c pos hc hp, Holds_build _ c (by omega), hl, rfl, ?_, ?_⟩
  · intro hq
    have hi : pos < (s.take pos ++ s.drop (pos + 1)).length := by omega
    rw [get_build _ c pos (by omega) hi]
    congr 1
    simp only [List.get_eq_getElem]
    rw [List.getElem_append_right (by simp)]
    simp
    congr 1
    omega
  · intro he
    show pos = (s.take pos ++ s.drop (pos + 1)).length
    omega

/-- Witness of C2: erasing position 0 of `[9, 2, 3]` held with capacity 4. -/
theorem C2_erase_witness :
    Vector.Holds (Vector.build [9, 2, 3] 4) ([9, 2, 3] : List Int)
      ∧ 0 < ([9, 2, 3] : List Int).length
      ∧ ∃ v1, Vector.Erase intOps (Vector.build [9, 2, 3] 4) 0 = .ok (v1, 0)
        ∧ Vector.Holds v1 (([9, 2, 3] : List Int).take 0 ++ ([9, 2, 3] : List Int).drop (0 + 1))
        ∧ v1.Size = ([9, 2, 3] : List Int).length - 1
        ∧ v1.Capacity = (Vector.build [9, 2, 3] 4 : Vector Int).Capacity
        ∧ (∀ hq : 0 + 1 < ([9, 2, 3] : List Int).length,
            Vector.get v1 0 = .ok (([9, 2, 3] : List Int).get ⟨0 + 1, hq⟩))
        ∧ (0 + 1 = ([9, 2, 3] : List Int).length → 0 = v1.Size) :=
  ⟨by decide, by decide,
    C2_erase intOps (Vector.build [9, 2, 3] 4) [9, 2, 3] 0 (by decide) (by decide)⟩

/-- C3 (fails on the in-place branch at `end()`): for the element type `ownerOps` and the
vector holding `[[1]]` with capacity 2, `Insert(end(), [2])` followed by `Erase` at the returned
position 1 leaves the vector holding `[[]]`, not the sequence `[[1]]` it held before. -/
theorem C3_insert_erase_at_end_not_identity :
    Vector.Holds (Vector.build [[1]] 2) [[1]]
      ∧ Vector.Insert ownerOps (Vector.build [[1]] 2) 1 [2] = .ok (Vector.build [[], [2]] 2, 1)
      ∧ Vector.Erase ownerOps (Vector.build [[], [2]] 2) 1 = .ok (Vector.build [[]] 2, 1)
      ∧ Vector.Holds (Vector.build [[]] 2) ([[]] : List (List Nat))
      ∧ ¬ Vector.Holds (Vector.build [[]] 2) ([[1]] : List (List Nat)) := by
  refine ⟨by decide, rfl, rfl, by decide, by decide⟩

/-- C4: for every sequence of `PushBack(v)` and `PopBack()` calls that the list model accepts
from the empty list (no pop on an empty list), running the calls on the default-constructed
vector completes; the final `Size()` is the length of the model list and equals pushes minus
pops, and `operator[](i)` reads the `i`-th element of the model list for every `i < Size()`. -/
theorem C4_push_pop_refines_list {α : Type} (E : ElemOps α) (ops : List (TailOp α))
    (s : List α) (hm : modelTail [] ops = some s) :
    ∃ v, runTail E Vector.empty ops = .ok v
      ∧ v.Size = s.length
      ∧ v.Size + pops ops = pushes ops
      ∧ v.Size = pushes ops - pops ops
      ∧ ∀ (i : Nat) (hi : i < s.length), Vector.get v i = .ok (s.get ⟨i, hi⟩) := by
  have h0 : Vector.Holds (Vector.empty : Vector α) [] := ⟨rfl, Nat.le_refl _, rfl⟩
  obtain ⟨v, hr, hv, hcount⟩ := runTail_model E ops Vector.empty [] s h0 hm
  obtain ⟨c, rfl, hc⟩ := Holds_exists_build v s hv
  have hsz : (Vector.build s c).Size = s.length := rfl
  simp only [List.length_nil, Nat.zero_add] at hcount
  refine ⟨_, hr, hsz, by rw [hsz]; exact hcount, by rw [hsz]; omega, ?_⟩
  intro i hi
  exact get_build s c i hc hi

/-- Witness of C4 on `push 1, push 2, pop, push 3` over `int`. -/
theorem C4_push_pop_refines_list_witness :
    modelTail ([] : List Int) [.push 1, .push 2, .pop, .push 3] = some [1, 3]
      ∧ ∃ v, runTail intOps Vector.empty [.push 1, .push 2, .pop, .push 3] = .ok v
        ∧ v.Size = ([1, 3] : List Int).length
        ∧ v.Size + pops ([.push 1, .push 2, .pop, .push 3] : List (TailOp Int))
            = pushes ([.push 1, .push 2, .pop, .push 3] : List (TailOp Int))
        ∧ v.Size = pushes ([.push 1, .push 2, .pop, .push 3] : List (TailOp Int))
            - pops ([.push 1, .push 2, .pop, .push 3] : List (TailOp Int))
        ∧ ∀ (i : Nat) (hi : i < ([1, 3] : List Int).length),
            Vector.get v i = .ok (([1, 3] : List Int).get ⟨i, hi⟩) :=
  ⟨rfl, C4_push_pop_refines_list intOps [.push 1, .push 2, .pop, .push 3] [1, 3] rfl⟩

/-- C5: on a valid vector `EmplaceBack(x)` and `PushBack(x)` complete with the same state; the
capacity afterwards is `max(1, 2 * old capacity)` when size equalled capacity before the call
and is unchanged when size was below capacity; the returned reference designates the new last
element, whose value is `x`. -/
theorem C5_emplace_back {α : Type} (E : ElemOps α) (v : Vector α) (s : List α) (x : α)
    (h : Vector.Holds v s) :
    ∃ v1 p, Vector.EmplaceBack E v x = .ok (v1, p)
      ∧ Vector.PushBack E v x = .ok v1
      ∧ (v.Size = v.Capacity → v1.Capacity = max 1 (2 * v.Capacity))
      ∧ (v.Size < v.Capacity → v1.Capacity = v.Capacity)
      ∧ p + 1 = v1.Size
      ∧ Vector.get v1 p = .ok x := by
  obtain ⟨c, rfl, hc⟩ := Holds_exists_build v s h
  have he := EmplaceBack_build E s c x hc
  have hsz : (Vector.build s c).Size = s.length := rfl
  have hcap : (Vector.build s c).Capacity = c := rfl
  have hcap1 : s.length + 1 ≤ (if s.length = c then grown c else c) := by
    split
    · have := lt_grown c; omega
    · omega
  refine ⟨_, _, he, by simp [Vector.PushBack, he], ?_, ?_, ?_, ?_⟩
  · intro hfull
    rw [hsz, hcap] at hfull
    show (if s.length = c then grown c else c) = max 1 (2 * c)
    rw [if_pos hfull, grown_eq_max]
  · intro hlt
    rw [hsz, hcap] at hlt
    show (if s.length = c then grown c else c) = c
    rw [if_neg (by omega)]
  · show s.length + 1 = (s ++ [x]).length
    simp
  · have hi : s.length < (s ++ [x]).length := by simp
    rw [get_build (s ++ [x]) _ s.length (by simpa using hcap1) hi]
    simp

/-- Witness of C5: `EmplaceBack(3)` on the full vector holding `[1, 2]`. -/
theorem C5_emplace_back_witness :
    Vector.Holds (Vector.build [1, 2] 2) ([1, 2] : List Int)
      ∧ ∃ v1 p, Vector.EmplaceBack intOps (Vector.build [1, 2] 2) 3 = .ok (v1, p)
        ∧ Vector.PushBack intOps (Vector.build [1, 2] 2) 3 = .ok v1
        ∧ ((Vector.build [1, 2] 2 : Vector Int).Size = (Vector.build [1, 2] 2 : Vector Int).Capacity
            → v1.Capacity = max 1 (2 * (Vector.build [1, 2] 2 : Vector Int).Capacity))
        ∧ ((Vector.build [1, 2] 2 : Vector Int).Size < (Vector.build [1, 2] 2 : Vector Int).Capacity
            → v1.Capacity = (Vector.build [1, 2] 2 : Vector Int).Capacity)
        ∧ p + 1 = v1.Size
        ∧ Vector.get v1 p = .ok 3 :=
  ⟨by decide, C5_emplace_back intOps (Vector.build [1, 2] 2) [1, 2] 3 (by decide)⟩

/-- C6: `Size() <= Capacity()` holds after the default constructor, after the sized
constructor (which completes for every size), after a completed copy construction, and in
both objects after a move construction from a vector that satisfies it; every public mutating
call made within its precondition on a state that satisfies it and that completes leaves a
state that satisfies it; after `Swap` or a move assignment the other vector satisfies it too. -/
theorem C6_size_le_capacity {α : Type} (E : ElemOps α) :
    (Vector.empty : Vector α).Size ≤ (Vector.empty : Vector α).Capacity
      ∧ (∀ n : Nat, ∃ v, Vector.ofSize E n = .ok v ∧ v.Size ≤ v.Capacity)
      ∧ (∀ other v : Vector α, Vector.copy other = .ok v → v.Size ≤ v.Capacity)
      ∧ (∀ other : Vector α, other.Size ≤ other.Capacity →
          (Vector.moveCtor other).1.Size ≤ (Vector.moveCtor other).1.Capacity
            ∧ (Vector.moveCtor other).2.Size ≤ (Vector.moveCtor other).2.Capacity)
      ∧ (∀ (v : Vector α) (c : Call α) (v1 : Vector α), v.Size ≤ v.Capacity → c.pre v →
          c.run E v = .ok v1 → v1.Size ≤ v1.Capacity)
      ∧ (∀ v other : Vector α, v.Size ≤ v.Capacity →
          (Vector.Swap v other).2.Size ≤ (Vector.Swap v other).2.Capacity
            ∧ (Vector.moveAssign v other).2.Size ≤ (Vector.moveAssign v other).2.Capacity) := by
  refine ⟨Nat.le_refl _, ?_, ?_, ?_, ?_, ?_⟩
  · intro n
    refine ⟨_, ofSize_total E n, ?_⟩
    show (List.replicate n E.value_init).length ≤ n
    simp
  · intro other v h
    obtain ⟨h1, h2⟩ := copy_shape other v h
    show v.size_ ≤ v.data_.capacity_
    omega
  · intro other h
    exact ⟨h, Nat.le_refl _⟩
  · intro v c v1 hinv hpre hrun
    have hinv1 : v.size_ ≤ v.data_.capacity_ := hinv
    show v1.size_ ≤ v1.data_.capacity_
    cases c with
    | PushBack value =>
      simp only [Call.run, Vector.PushBack] at hrun
      split at hrun
      · cases hrun
      · rename_i r hr
        cases hrun
        obtain ⟨h1, h2⟩ := EmplaceBack_shape E v value r hr
        rw [h1, h2]
        have := lt_grown v.size_
        split <;> omega
    | EmplaceBack x =>
      simp only [Call.run] at hrun
      split at hrun
      · rename_i r hr
        cases hrun
        obtain ⟨h1, h2⟩ := EmplaceBack_shape E v x r hr
        rw [h1, h2]
        have := lt_grown v.size_
        split <;> omega
      · cases hrun
    | PopBack =>
      simp only [Call.run] at hrun
      obtain ⟨h1, h2⟩ := PopBack_shape v v1 hrun
      have hp : 0 < v.size_ := hpre
      rw [h1, h2, usub, if_pos (by omega)]
      omega
    | Insert pos value =>
      simp only [Call.run, Vector.Insert] at hrun
      split at hrun
      · rename_i r hr
        cases hrun
        obtain ⟨h1, h2⟩ := Emplace_shape E v pos value r hr
        rw [h1, h2]
        have := lt_grown v.size_
        split <;> omega
      · cases hrun
    | Emplace pos x =>
      simp only [Call.run] at hrun
      split at hrun
      · rename_i r hr
        cases hrun
        obtain ⟨h1, h2⟩ := Emplace_shape E v pos x r hr
        rw [h1, h2]
        have := lt_grown v.size_
        split <;> omega
      · cases hrun
    | Erase pos =>
      simp only [Call.run] at hrun
      split at hrun
      · rename_i r hr
        cases hrun
        obtain ⟨h1, h2⟩ := Erase_shape E v pos r hr
        have hp : pos < v.size_ := hpre
        rw [h1, h2, usub, if_pos (by omega)]
        omega
      · cases hrun
    | Reserve n =>
      simp only [Call.run] at hrun
      obtain ⟨h1, h2⟩ := Reserve_shape E v v1 n hrun
      rw [h1, h2]
      omega
    | Resize m =>
      simp only [Call.run] at hrun
      obtain ⟨h1, h2⟩ := Resize_shape E v v1 m hrun
      rw [h1, h2]
      split <;> omega
    | CopyAssign rhs same_object =>
      simp only [Call.run] at hrun
      rcases copyAssign_shape v rhs v1 same_object hrun with ⟨_, rfl⟩ | ⟨h1, h2⟩
      · exact hinv1
      · rw [h1, h2]
        split <;> omega
    | MoveAssign rhs =>
      simp only [Call.run, Vector.moveAssign, Vector.Swap, RawMemory.Swap] at hrun
      cases hrun
      exact hpre
    | Swap other =>
      simp only [Call.run, Vector.Swap, RawMemory.Swap] at hrun
      cases hrun
      exact hpre
  · intro v other h
    exact ⟨h, h⟩

/-- Witness of C6: `PushBack(2)` on the full vector holding `[1]`. -/
theorem C6_size_le_capacity_witness :
    (Vector.build [1] 1 : Vector Int).Size ≤ (Vector.build [1] 1 : Vector Int).Capacity
      ∧ Call.pre (Vector.build [1] 1 : Vector Int) (.PushBack 2)
      ∧ (Call.PushBack 2).run intOps (Vector.build [1] 1) = .ok (Vector.build [1, 2] 2)
      ∧ (Vector.build [1, 2] 2 : Vector Int).Size ≤ (Vector.build [1, 2] 2 : Vector Int).Capacity :=
  ⟨by decide, trivial, rfl,
    (C6_size_le_capacity intOps).2.2.2.2.1 (Vector.build [1] 1) (.PushBack 2)
      (Vector.build [1, 2] 2) (by decide) trivial rfl⟩

/-- C7: for every vector state and every argument, a completed call of `PushBack`,
`EmplaceBack`, `PopBack`, `Insert`, `Emplace`, `Erase`, `Reserve`, `Resize` or copy assignment
leaves `Capacity()` at least what it was before the call. -/
theorem C7_capacity_never_decreases {α : Type} (E : ElemOps α) (v : Vector α) (c : Call α)
    (v1 : Vector α) (hk : c.keepsStorage = true) (hrun : c.run E v = .ok v1) :
    v.Capacity ≤ v1.Capacity := by
  show v.data_.capacity_ ≤ v1.data_.capacity_
  cases c with
  | PushBack value =>
    simp only [Call.run, Vector.PushBack] at hrun
    split at hrun
    · cases hrun
    · rename_i r hr
      cases hrun
      obtain ⟨_, h2⟩ := EmplaceBack_shape E v value r hr
      rw [h2]
      split
      · rename_i hf
        have := lt_grown v.size_
        omega
      · exact Nat.le_refl _
  | EmplaceBack x =>
    simp only [Call.run] at hrun
    split at hrun
    · rename_i r hr
      cases hrun
      obtain ⟨_, h2⟩ := EmplaceBack_shape E v x r hr
      rw [h2]
      split
      · rename_i hf
        have := lt_grown v.size_
        omega
      · exact Nat.le_refl _
    · cases hrun
  | PopBack =>
    simp only [Call.run] at hrun
    rw [(PopBack_shape v v1 hrun).2]
  | Insert pos value =>
    simp only [Call.run, Vector.Insert] at hrun
    split at hrun
    · rename_i r hr
      cases hrun
      obtain ⟨_, h2⟩ := Emplace_shape E v pos value r hr
      rw [h2]
      split
      · rename_i hf
        have := lt_grown v.size_
        omega
      · exact Nat.le_refl _
    · cases hrun
  | Emplace pos x =>
    simp only [Call.run] at hrun
    split at hrun
    · rename_i r hr
      cases hrun
      obtain ⟨_, h2⟩ := Emplace_shape E v pos x r hr
      rw [h2]
      split
      · rename_i hf
        have := lt_grown v.size_
        omega
      · exact Nat.le_refl _
    · cases hrun
  | Erase pos =>
    simp only [Call.run] at hrun
    split at hrun
    · rename_i r hr
      cases hrun
      rw [(Erase_shape E v pos r hr).2]
    · cases hrun
  | Reserve n =>
    simp only [Call.run] at hrun
    rw [(Reserve_shape E v v1 n hrun).2]
    exact Nat.le_max_left _ _
  | Resize m =>
    simp only [Call.run] at hrun
    rw [(Resize_shape E v v1 m hrun).2]
    split
    · exact Nat.le_refl _
    · exact Nat.le_max_left _ _
  | CopyAssign rhs same_object =>
    simp only [Call.run] at hrun
    rcases copyAssign_shape v rhs v1 same_object hrun with ⟨_, rfl⟩ | ⟨_, h2⟩
    · exact Nat.le_refl _
    · rw [h2]
      split <;> omega
  | MoveAssign rhs => simp [Call.keepsStorage] at hk
  | Swap other => simp [Call.keepsStorage] at hk

/-- Witness of C7: `Resize(5)` on the vector holding `[9, 2, 3]` with capacity 4. -/
theorem C7_capacity_never_decreases_witness :
    (Call.Resize 5 : Call Int).keepsStorage = true
      ∧ (Call.Resize 5).run intOps (Vector.build [9, 2, 3] 4)
          = .ok (Vector.build [9, 2, 3, 0, 0] 5)
      ∧ (Vector.build [9, 2, 3] 4 : Vector Int).Capacity
          ≤ (Vector.build [9, 2, 3, 0, 0] 5 : Vector Int).Capacity :=
  ⟨rfl, rfl,
    C7_capacity_never_decreases intOps (Vector.build [9, 2, 3] 4) (.Resize 5)
      (Vector.build [9, 2, 3, 0, 0] 5) rfl rfl⟩

/-- C8: on a valid vector holding `s`, `Reserve(n)` with `n <= Capacity()` returns with the
state unchanged, and `Reserve(n)` with `n > Capacity()` completes with capacity exactly `n`, the
same size and the same element sequence `s`. -/
theorem C8_reserve {α : Type} (E : ElemOps α) (v : Vector α) (s : List α) (n : Nat)
    (h : Vector.Holds v s) :
    (n ≤ v.Capacity → Vector.Reserve E v n = .ok v)
      ∧ (v.Capacity < n → ∃ v1, Vector.Reserve E v n = .ok v1 ∧ v1.Capacity = n
          ∧ v1.Size = v.Size ∧ Vector.Holds v1 s) := by
  obtain ⟨c, rfl, hc⟩ := Holds_exists_build v s h
  constructor
  · intro hn
    exact Reserve_build_le E s c n hn
  · intro hn
    have hn1 : c < n := hn
    exact ⟨_, Reserve_build_gt E s c n hc hn1, rfl, rfl, Holds_build s n (by omega)⟩

/-- Witness of C8: `Reserve(5)` on the vector holding `[9, 2, 3]` with capacity 4. -/
theorem C8_reserve_witness :
    Vector.Holds (Vector.build [9, 2, 3] 4) ([9, 2, 3] : List Int)
      ∧ (5 ≤ (Vector.build [9, 2, 3] 4 : Vector Int).Capacity
          → Vector.Reserve intOps (Vector.build [9, 2, 3] 4) 5 = .ok (Vector.build [9, 2, 3] 4))
      ∧ ((Vector.build [9, 2, 3] 4 : Vector Int).Capacity < 5
          → ∃ v1, Vector.Reserve intOps (Vector.build [9, 2, 3] 4) 5 = .ok v1 ∧ v1.Capacity = 5
            ∧ v1.Size = (Vector.build [9, 2, 3] 4 : Vector Int).Size
            ∧ Vector.Holds v1 ([9, 2, 3] : List Int)) :=
  ⟨by decide, C8_reserve intOps (Vector.build [9, 2, 3] 4) [9, 2, 3] 5 (by decide)⟩

/-- C9 (fails when `new_size == size == capacity`): `Resize(0)` on the default-constructed
vector of `int`, and `Resize(2)` on the vector holding `[1, 2]` with capacity 2, both stop on
the assertion `index < capacity_` of `RawMemory::operator[]` instead of leaving the sequence
`s[0..m)`. -/
theorem C9_resize_to_full_size_asserts :
    Vector.Holds (Vector.empty : Vector Int) []
      ∧ Vector.Resize intOps Vector.empty 0 = .error .assertion
      ∧ Vector.Holds (Vector.build [1, 2] 2) ([1, 2] : List Int)
      ∧ Vector.Resize intOps (Vector.build [1, 2] 2) 2 = .error .assertion := by
  refine ⟨by decide, rfl, by decide, rfl⟩

/-- C10: the worked example on a vector of integers. From the empty vector, `PushBack(1)`,
`PushBack(2)`, `PushBack(3)` give size 3 and `[1,2,3]`; `Insert` of 9 at position 1 gives
`[1,9,2,3]`, size 4; `Erase` at position 0 gives `[9,2,3]`, size 3; `Resize(5)` gives
`[9,2,3,0,0]`, size 5; `Resize(2)` gives `[9,2]`, size 2, with the capacity unchanged by that
call and at least 5. -/
theorem C10_worked_example :
    ∃ v1 v2 v3 v4 v5 v6 v7 : Vector Int,
      Vector.PushBack intOps Vector.empty 1 = .ok v1
      ∧ Vector.PushBack intOps v1 2 = .ok v2
      ∧ Vector.PushBack intOps v2 3 = .ok v3
      ∧ v3.Size = 3 ∧ Vector.Holds v3 [1, 2, 3]
      ∧ Vector.Insert intOps v3 1 9 = .ok (v4, 1)
      ∧ v4.Size = 4 ∧ Vector.Holds v4 [1, 9, 2, 3]
      ∧ Vector.Erase intOps v4 0 = .ok (v5, 0)
      ∧ v5.Size = 3 ∧ Vector.Holds v5 [9, 2, 3]
      ∧ Vector.Resize intOps v5 5 = .ok v6
      ∧ v6.Size = 5 ∧ Vector.Holds v6 [9, 2, 3, 0, 0]
      ∧ Vector.Resize intOps v6 2 = .ok v7
      ∧ v7.Size = 2 ∧ Vector.Holds v7 [9, 2]
      ∧ v7.Capacity = v6.Capacity ∧ 5 ≤ v7.Capacity := by
  refine ⟨Vector.build [1] 1, Vector.build [1, 2] 2, Vector.build [1, 2, 3] 4,
    Vector.build [1, 9, 2, 3] 4, Vector.build [9, 2, 3] 4, Vector.build [9, 2, 3, 0, 0] 5,
    Vector.build [9, 2] 5, rfl, rfl, rfl, rfl, by decide, rfl, rfl, by decide, rfl, rfl,
    by decide, rfl, rfl, by decide, rfl, rfl, by decide, rfl, by decide⟩

/-- C12: move-constructing `B` from a valid vector `A` holding `s` with size `n` and capacity
`c` leaves `B` holding `s` with size `n` and capacity `c`, and leaves `A` in the
default-constructed state: empty, size 0, capacity 0. -/
theorem C12_move_construct {α : Type} (A : Vector α) (s : List α) (h : Vector.Holds A s) :
    Vector.Holds (Vector.moveCtor A).1 s
      ∧ (Vector.moveCtor A).1.Size = s.length
      ∧ (Vector.moveCtor A).1.Capacity = A.Capacity
      ∧ (Vector.moveCtor A).2 = Vector.empty
      ∧ Vector.Holds (Vector.moveCtor A).2 []
      ∧ (Vector.moveCtor A).2.Size = 0
      ∧ (Vector.moveCtor A).2.Capacity = 0 :=
  ⟨h, h.1, rfl, rfl, ⟨rfl, Nat.le_refl _, rfl⟩, rfl, rfl⟩

/-- Witness of C12: moving from the vector holding `[1, 2]` with capacity 4. -/
theorem C12_move_construct_witness :
    Vector.Holds (Vector.build [1, 2] 4) ([1, 2] : List Int)
      ∧ Vector.Holds (Vector.moveCtor (Vector.build [1, 2] 4)).1 ([1, 2] : List Int)
      ∧ (Vector.moveCtor (Vector.build [1, 2] 4 : Vector Int)).1.Size = ([1, 2] : List Int).length
      ∧ (Vector.moveCtor (Vector.build [1, 2] 4 : Vector Int)).1.Capacity
          = (Vector.build [1, 2] 4 : Vector Int).Capacity
      ∧ (Vector.moveCtor (Vector.build [1, 2] 4 : Vector Int)).2 = Vector.empty
      ∧ Vector.Holds (Vector.moveCtor (Vector.build [1, 2] 4 : Vector Int)).2 []
      ∧ (Vector.moveCtor (Vector.build [1, 2] 4 : Vector Int)).2.Size = 0
      ∧ (Vector.moveCtor (Vector.build [1, 2] 4 : Vector Int)).2.Capacity = 0 :=
  ⟨by decide, C12_move_construct (Vector.build [1, 2] 4) [1, 2] (by decide)⟩

/-- C13: for valid vectors `L` and `R` that are distinct objects, `R` holding `t`, the copy
assignment `L = R` completes and leaves `L` holding `t` with the size of `R`; the capacity of
`L` becomes the size of `R` when that exceeded the old capacity of `L` and stays the old
capacity otherwise. `R` is taken by reference to const and only read: the copy construction of
the temporary leaves it as it was. Self-assignment returns `L` unchanged. -/
theorem C13_copy_assign {α : Type} (L R : Vector α) (s t : List α) (hL : Vector.Holds L s)
    (hR : Vector.Holds R t) :
    (∃ L1, Vector.copyAssign L R false = .ok L1
        ∧ Vector.Holds L1 t
        ∧ L1.Size = R.Size
        ∧ (R.Size > L.Capacity → L1.Capacity = R.Size)
        ∧ (R.Size ≤ L.Capacity → L1.Capacity = L.Capacity))
      ∧ (∃ C, Vector.copyCtor R = .ok (C, R))
      ∧ Vector.copyAssign L L true = .ok L := by
  obtain ⟨c, rfl, hc⟩ := Holds_exists_build L s hL
  obtain ⟨d, rfl, hd⟩ := Holds_exists_build R t hR
  refine ⟨⟨_, copyAssign_build s t c d hc hd, Holds_build t _ ?_, rfl, ?_, ?_⟩,
    ⟨_, copyCtor_build t d⟩, by simp [Vector.copyAssign]⟩
  · split <;> omega
  · intro hgt
    have hgt1 : t.length > c := hgt
    show (if t.length > c then t.length else c) = t.length
    rw [if_pos hgt1]
  · intro hle
    have hle1 : t.length ≤ c := hle
    show (if t.length > c then t.length else c) = c
    rw [if_neg (by omega)]

/-- Witness of C13: assigning the vector holding `[5, 6, 7]` to the one holding `[1]` with
capacity 2. -/
theorem C13_copy_assign_witness :
    Vector.Holds (Vector.build [1] 2) ([1] : List Int)
      ∧ Vector.Holds (Vector.build [5, 6, 7] 4) ([5, 6, 7] : List Int)
      ∧ (∃ L1, Vector.copyAssign (Vector.build [1] 2) (Vector.build [5, 6, 7] 4) false = .ok L1
          ∧ Vector.Holds L1 ([5, 6, 7] : List Int)
          ∧ L1.Size = (Vector.build [5, 6, 7] 4 : Vector Int).Size
          ∧ ((Vector.build [5, 6, 7] 4 : Vector Int).Size > (Vector.build [1] 2 : Vector Int).Capacity
              → L1.Capacity = (Vector.build [5, 6, 7] 4 : Vector Int).Size)
          ∧ ((Vector.build [5, 6, 7] 4 : Vector Int).Size ≤ (Vector.build [1] 2 : Vector Int).Capacity
              → L1.Capacity = (Vector.build [1] 2 : Vector Int).Capacity))
      ∧ (∃ C, Vector.copyCtor (Vector.build [5, 6, 7] 4 : Vector Int)
          = .ok (C, Vector.build [5, 6, 7] 4))
      ∧ Vector.copyAssign (Vector.build [1] 2 : Vector Int) (Vector.build [1] 2) true
          = .ok (Vector.build [1] 2) :=
  ⟨by decide, by decide,
    C13_copy_assign (Vector.build [1] 2) (Vector.build [5, 6, 7] 4) [1] [5, 6, 7] (by decide)
      (by decide)⟩

/-- C14: after the move assignment `L = std::move(R)` the two vectors have exchanged their
states: `L` is in the prior state of `R` (size, capacity, elements) and `R` in the prior state
of `L`; a second move assignment, or two calls of `Swap`, restore both. -/
theorem C14_move_assign_exchanges {α : Type} (L R : Vector α) :
    (Vector.moveAssign L R).1 = R
      ∧ (Vector.moveAssign L R).2 = L
      ∧ (Vector.moveAssign L R).1.Size = R.Size
      ∧ (Vector.moveAssign L R).1.Capacity = R.Capacity
      ∧ (Vector.moveAssign L R).2.Size = L.Size
      ∧ (Vector.moveAssign L R).2.Capacity = L.Capacity
      ∧ (∀ t, Vector.Holds R t → Vector.Holds (Vector.moveAssign L R).1 t)
      ∧ (∀ s, Vector.Holds L s → Vector.Holds (Vector.moveAssign L R).2 s)
      ∧ Vector.moveAssign (Vector.moveAssign L R).1 (Vector.moveAssign L R).2 = (L, R)
      ∧ Vector.Swap (Vector.Swap L R).1 (Vector.Swap L R).2 = (L, R) :=
  ⟨rfl, rfl, rfl, rfl, rfl, rfl, fun _ h => h, fun _ h => h, rfl, rfl⟩

/-- C15 (fails: the source keeps its members): move-constructing from a `RawMemory<int>` of
capacity 2 gives a destination with that block and capacity 2, and leaves the source with
`Capacity()` 2 and the same, non-null block; move-assigning it to a default-constructed
`RawMemory` leaves the source the same way. -/
theorem C15_raw_memory_move_keeps_source :
    RawMemory.moveCtor (RawMemory.ofCapacity 2 : RawMemory Int)
        = (RawMemory.ofCapacity 2, RawMemory.ofCapacity 2)
      ∧ (RawMemory.moveCtor (RawMemory.ofCapacity 2 : RawMemory Int)).2.Capacity = 2
      ∧ (RawMemory.moveCtor (RawMemory.ofCapacity 2 : RawMemory Int)).2.buffer_
          ≠ (RawMemory.empty : RawMemory Int).buffer_
      ∧ RawMemory.moveAssign RawMemory.empty (RawMemory.ofCapacity 2 : RawMemory Int)
          = (RawMemory.ofCapacity 2, RawMemory.ofCapacity 2)
      ∧ (RawMemory.moveAssign RawMemory.empty (RawMemory.ofCapacity 2 : RawMemory Int)).2.Capacity
          = 2 := by
  refine ⟨rfl, rfl, by decide, rfl, rfl⟩

/-- C16 (fails for `Emplace` past `size`): `Emplace` and `Insert` at position 2 of the empty
vector with capacity 4 (position past `size`, below the capacity) do not yield the assertion
error; they complete with size 1, slot 0 unconstructed and the value in slot 2. -/
theorem C16_emplace_past_size_completes :
    Vector.Holds (Vector.build [] 4) ([] : List Int)
      ∧ (Vector.build [] 4 : Vector Int).Size < 2
      ∧ Vector.Emplace intOps (Vector.build [] 4) 2 9
          = .ok (⟨⟨[none, none, some 9, none], 4⟩, 1⟩, 2)
      ∧ Vector.Insert intOps (Vector.build [] 4) 2 9
          = .ok (⟨⟨[none, none, some 9, none], 4⟩, 1⟩, 2) := by
  refine ⟨by decide, by decide, rfl, rfl⟩

/-- C16 (amended): with a failed `assert` as an error result, on a valid vector
`operator[](i)` with `i >= size` yields the assertion error; `PopBack` on an empty vector
yields it (through `data_[size_ - 1]`, whose index wraps to `2^64 - 1`); `Emplace` and `Insert`
yield it on a full or an empty vector when the position is at or beyond the capacity of the
block they write to (the doubled capacity when full, the capacity when empty). `Erase` fails no
assertion at any position, and `Emplace` and `Insert` fail none at any position below that
capacity, positions past `size` included. -/
theorem C16_asserted_violations {α : Type} (E : ElemOps α) (v : Vector α) (s : List α)
    (i pos : Nat) (x : α) (h : Vector.Holds v s) (hi : v.Size ≤ i)
    (hcap : v.Capacity < 2 ^ 64) :
    v.at_ i = .error .assertion
      ∧ v.get i = .error .assertion
      ∧ (v.Size = 0 → Vector.PopBack v = .error .assertion)
      ∧ ((v.Size = v.Capacity ∨ v.Size = 0) →
          (if v.Size = v.Capacity then grown v.Capacity else v.Capacity) ≤ pos →
            Vector.Emplace E v pos x = .error .assertion
              ∧ Vector.Insert E v pos x = .error .assertion)
      ∧ Vector.Erase E v pos ≠ .error .assertion
      ∧ (pos < (if v.Size = v.Capacity then grown v.Capacity else v.Capacity) →
          Vector.Emplace E v pos x ≠ .error .assertion
            ∧ Vector.Insert E v pos x ≠ .error .assertion) := by
  have hi1 : ¬ i < v.size_ := Nat.not_lt.mpr hi
  have hat : v.at_ i = .error .assertion := by
    simp only [Vector.at_, if_neg hi1]
  refine ⟨hat, by simp only [Vector.get, hat], ?_, ?_, Erase_no_assert E v pos, ?_⟩
  · intro h0
    have h0' : v.size_ = 0 := h0
    have hcap1 : v.data_.capacity_ < 2 ^ 64 := hcap
    have hu : usub v.size_ 1 = 2 ^ 64 - 1 := by
      rw [h0']
      rfl
    have hnot : ¬ 2 ^ 64 - 1 < v.data_.capacity_ := by omega
    simp only [Vector.PopBack, hu, RawMemory.index, if_neg hnot]
  · intro hfe hpos
    obtain ⟨c, rfl, hc⟩ := Holds_exists_build v s h
    have hfe1 : s.length = c ∨ s = [] := by
      rcases hfe with hf | h0
      · exact Or.inl hf
      · exact Or.inr (List.length_eq_zero.mp h0)
    have hem := Emplace_build_past E s c pos x hfe1 hpos
    exact ⟨hem, hem⟩
  · intro hpos
    have hinv : v.size_ ≤ v.data_.capacity_ := by rw [h.1]; exact h.2.1
    have hne := Emplace_no_assert E v pos x hinv hpos
    exact ⟨hne, hne⟩

/-- Witness of C16 (amended): the empty vector with capacity 4, index 0, `PopBack`, `Emplace`
at position 4, `Erase` and `Emplace` at position 2. -/
theorem C16_asserted_violations_witness :
    Vector.Holds (Vector.build [] 4) ([] : List Int)
      ∧ (Vector.build [] 4 : Vector Int).Size ≤ 0
      ∧ (Vector.build [] 4 : Vector Int).Capacity < 2 ^ 64
      ∧ Vector.Emplace intOps (Vector.build [] 4) 4 9 = .error .assertion
      ∧ (Vector.build [] 4 : Vector Int).at_ 0 = .error .assertion
      ∧ (Vector.build [] 4 : Vector Int).get 0 = .error .assertion
      ∧ ((Vector.build [] 4 : Vector Int).Size = 0
          → Vector.PopBack (Vector.build [] 4 : Vector Int) = .error .assertion)
      ∧ (((Vector.build [] 4 : Vector Int).Size = (Vector.build [] 4 : Vector Int).Capacity
            ∨ (Vector.build [] 4 : Vector Int).Size = 0) →
          (if (Vector.build [] 4 : Vector Int).Size = (Vector.build [] 4 : Vector Int).Capacity
            then grown (Vector.build [] 4 : Vector Int).Capacity
            else (Vector.build [] 4 : Vector Int).Capacity) ≤ 2 →
            Vector.Emplace intOps (Vector.build [] 4) 2 9 = .error .assertion
              ∧ Vector.Insert intOps (Vector.build [] 4) 2 9 = .error .assertion)
      ∧ Vector.Erase intOps (Vector.build [] 4) 2 ≠ .error .assertion
      ∧ (2 < (if (Vector.build [] 4 : Vector Int).Size = (Vector.build [] 4 : Vector Int).Capacity
            then grown (Vector.build [] 4 : Vector Int).Capacity
            else (Vector.build [] 4 : Vector Int).Capacity) →
          Vector.Emplace intOps (Vector.build [] 4) 2 9 ≠ .error .assertion
            ∧ Vector.Insert intOps (Vector.build [] 4) 2 9 ≠ .error .assertion) :=
  ⟨by decide, by decide, by decide, rfl,
    C16_asserted_violations intOps (Vector.build [] 4) [] 0 2 9 (by decide) (by decide)
      (by decide)⟩

/-- C17 (fails for a type that is not copy constructible): with the element type
`moveOnlyOps`, whose move constructor throws on the value `[2]`, `Reserve(4)` on the vector
holding `[[1], [2]]` with capacity 2 propagates the failure and leaves the vector holding
`[[], [2]]`: the element moved before the failure stays moved from. -/
theorem C17_move_failure_changes_elements :
    Vector.Holds (Vector.build [[1], [2]] 2) ([[1], [2]] : List (List Nat))
      ∧ throwsOn moveOnlyOps (Throws.onValue [2]) [2] = true
      ∧ Vector.ReserveThrowing moveOnlyOps (Throws.onValue [2]) (Vector.build [[1], [2]] 2) 4
          = .ok (.threw (Vector.build [[], [2]] 2) [none, none, none, none])
      ∧ Vector.Holds (Vector.build [[], [2]] 2) ([[], [2]] : List (List Nat))
      ∧ ¬ Vector.Holds (Vector.build [[], [2]] 2) ([[1], [2]] : List (List Nat)) := by
  refine ⟨by decide, rfl, rfl, by decide, by decide⟩

/-- C17 (amended): on a valid vector holding `s`, one of whose elements makes the constructor
used by the transfer throw, let `x` be the first such element, `a` the elements before it and
`b` those after it. `Reserve(n)` with `n > capacity`, `EmplaceBack` on a full vector and
`Emplace` on a full vector all propagate the failure and leave the vector in one and the same
state, with the size and capacity it had before the call. When the transfer copies (the type
is copy constructible and its move may throw) that state is exactly the state before the call.
When the transfer moves (the type is not copy constructible and its move throws) the vector
holds the elements of `a` in their moved-from state, followed by `x` and `b` unchanged. -/
theorem C17_growth_failure_state {α : Type} (E : ElemOps α) (T : Throws α) (v : Vector α)
    (s : List α) (xnew : α) (h : Vector.Holds v s) (hex : ∃ y ∈ s, throwsOn E T y = true) :
    ∃ (a : List α) (x : α) (b : List α) (v1 : Vector α),
      s = a ++ x :: b ∧ (∀ y ∈ a, throwsOn E T y = false) ∧ throwsOn E T x = true
      ∧ v1.Size = v.Size ∧ v1.Capacity = v.Capacity
      ∧ (E.nothrow_move = false → v1 = v ∧ Vector.Holds v1 s)
      ∧ (E.nothrow_move = true → Vector.Holds v1 (a.map E.moved_from ++ x :: b))
      ∧ (∀ n, v.Capacity < n → ∃ nb, Vector.ReserveThrowing E T v n = .ok (.threw v1 nb))
      ∧ (v.Size = v.Capacity →
          ∃ nb, Vector.EmplaceBackThrowing E T v xnew = .ok (.threw v1 nb))
      ∧ (v.Size = v.Capacity → ∀ pos, pos ≤ v.Size →
          ∃ nb, Vector.EmplaceThrowing E T v pos xnew = .ok (.threw v1 nb)) := by
  obtain ⟨c, rfl, hc⟩ := Holds_exists_build v s h
  obtain ⟨a, x, b, rfl, ha, hx⟩ := split_at_first (throwsOn E T) s hex
  have hlen : (a ++ x :: b).length = a.length + (b.length + 1) := by simp
  have hlen1 : (a.map (transferred E) ++ x :: b).length = a.length + (b.length + 1) := by simp
  rw [hlen] at hc
  refine ⟨a, x, b, Vector.build (a.map (transferred E) ++ x :: b) c, rfl, ha, hx, ?_, rfl, ?_, ?_,
    ?_, ?_, ?_⟩
  · show (a.map (transferred E) ++ x :: b).length = (a ++ x :: b).length
    simp
  · intro hE
    rw [transferred_copy E hE a]
    exact ⟨rfl, h⟩
  · intro hE
    have hf : transferred E = E.moved_from := by funext z; simp [transferred, hE]
    rw [hf]
    refine Holds_build _ c ?_
    rw [← hf, hlen1]
    exact hc
  · intro n hn
    exact ⟨_, ReserveThrowing_build_fail E T a x b c n hx ha hc hn⟩
  · intro hfull
    have hfull1 : (a ++ x :: b).length = c := hfull
    exact ⟨_, EmplaceBackThrowing_build_fail E T a x b c xnew hx ha (by omega)⟩
  · intro hfull pos hpos
    have hfull1 : (a ++ x :: b).length = c := hfull
    have hpos1 : pos ≤ (a ++ x :: b).length := hpos
    by_cases hcase : pos ≤ a.length
    · have hl : (a.take pos).length = pos := by simp; omega
      have hsplit : a.take pos ++ a.drop pos = a := List.take_append_drop pos a
      have := EmplaceThrowing_build_fail_back E T (a.take pos) (a.drop pos) x b c xnew hx
        (fun y hy => ha y (List.mem_of_mem_take hy)) (fun y hy => ha y (List.mem_of_mem_drop hy))
        (by simp only [List.length_take, List.length_drop]; omega)
      rw [← List.append_assoc, hsplit, hl] at this
      exact ⟨_, this⟩
    · have hl : (b.take (pos - a.length - 1)).length = pos - a.length - 1 := by simp; omega
      have hsplit : b.take (pos - a.length - 1) ++ b.drop (pos - a.length - 1) = b :=
        List.take_append_drop _ b
      have := EmplaceThrowing_build_fail_front E T a x (b.take (pos - a.length - 1))
        (b.drop (pos - a.length - 1)) c xnew hx ha
        (by simp only [List.length_take, List.length_drop]; omega)
      rw [hsplit, hl, show a.length + (pos - a.length - 1 + 1) = pos by omega] at this
      exact ⟨_, this⟩

/-- Witness of C17 (amended): the element type `moveOnlyOps`, whose move constructor throws on
the value `[3]`, on the full vector holding `[[1], [2], [3], [4]]`. -/
theorem C17_growth_failure_state_witness :
    Vector.Holds (Vector.build [[1], [2], [3], [4]] 4) ([[1], [2], [3], [4]] : List (List Nat))
      ∧ (∃ y ∈ ([[1], [2], [3], [4]] : List (List Nat)),
          throwsOn moveOnlyOps (Throws.onValue [3]) y = true)
      ∧ ∃ (a : List (List Nat)) (x : List Nat) (b : List (List Nat)) (v1 : Vector (List Nat)),
        ([[1], [2], [3], [4]] : List (List Nat)) = a ++ x :: b
        ∧ (∀ y ∈ a, throwsOn moveOnlyOps (Throws.onValue [3]) y = false)
        ∧ throwsOn moveOnlyOps (Throws.onValue [3]) x = true
        ∧ v1.Size = (Vector.build [[1], [2], [3], [4]] 4 : Vector (List Nat)).Size
        ∧ v1.Capacity = (Vector.build [[1], [2], [3], [4]] 4 : Vector (List Nat)).Capacity
        ∧ (moveOnlyOps.nothrow_move = false →
            v1 = Vector.build [[1], [2], [3], [4]] 4
              ∧ Vector.Holds v1 ([[1], [2], [3], [4]] : List (List Nat)))
        ∧ (moveOnlyOps.nothrow_move = true →
            Vector.Holds v1 (a.map moveOnlyOps.moved_from ++ x :: b))
        ∧ (∀ n, (Vector.build [[1], [2], [3], [4]] 4 : Vector (List Nat)).Capacity < n →
            ∃ nb, Vector.ReserveThrowing moveOnlyOps (Throws.onValue [3])
              (Vector.build [[1], [2], [3], [4]] 4) n = .ok (.threw v1 nb))
        ∧ ((Vector.build [[1], [2], [3], [4]] 4 : Vector (List Nat)).Size
              = (Vector.build [[1], [2], [3], [4]] 4 : Vector (List Nat)).Capacity
            → ∃ nb, Vector.EmplaceBackThrowing moveOnlyOps (Throws.onValue [3])
                (Vector.build [[1], [2], [3], [4]] 4) [9] = .ok (.threw v1 nb))
        ∧ ((Vector.build [[1], [2], [3], [4]] 4 : Vector (List Nat)).Size
              = (Vector.build [[1], [2], [3], [4]] 4 : Vector (List Nat)).Capacity
            → ∀ pos, pos ≤ (Vector.build [[1], [2], [3], [4]] 4 : Vector (List Nat)).Size →
              ∃ nb, Vector.EmplaceThrowing moveOnlyOps (Throws.onValue [3])
                (Vector.build [[1], [2], [3], [4]] 4) pos [9] = .ok (.threw v1 nb)) :=
  ⟨by decide, ⟨[3], by decide, rfl⟩,
    C17_growth_failure_state moveOnlyOps (Throws.onValue [3])
      (Vector.build [[1], [2], [3], [4]] 4) [[1], [2], [3], [4]] [9] (by decide)
      ⟨[3], by decide, rfl⟩⟩

/-- C18 (fails when the transfer of `[pos, size)` throws): for a copyable element type whose
copy constructor throws on the value 2, `Emplace(1, 9)` on the full vector holding `[1, 2]`
propagates the failure with the new block holding the new element 9 in slot 1: the second
handler destroys only the slots `[0, pos)`. When the transfer of `[0, pos)` throws (copy
constructor throwing on the value 1) every slot of the new block is unconstructed. -/
theorem C18_suffix_failure_keeps_new_element :
    Vector.EmplaceThrowing copyableOps (Throws.onValue 2) (Vector.build [1, 2] 2) 1 9
        = .ok (.threw (Vector.build [1, 2] 2) [none, some 9, none, none])
      ∧ Vector.EmplaceThrowing copyableOps (Throws.onValue 1) (Vector.build [1, 2] 2) 1 9
        = .ok (.threw (Vector.build [1, 2] 2) [none, none, none, none]) := by
  refine ⟨rfl, rfl⟩

/-- C19 (fails: the last element is moved from and slot `size` is constructed twice): for the
element type `ownerOps` and the vector holding `[[1], [2]]` with capacity 3, the in-place
branch of `Emplace(end(), [3])` first runs `new (end()) T(std::move(data_[size_ - 1]))`, which
constructs slot 2 with `[2]` and leaves slot 1 moved from, and then constructs slot 2 again
with `[3]`; the vector ends holding `[[1], [], [3]]`. -/
theorem C19_emplace_at_end_touches_last :
    Vector.Holds (Vector.build [[1], [2]] 3) ([[1], [2]] : List (List Nat))
      ∧ Vector.move_construct ownerOps (Vector.build [[1], [2]] 3).data_.buffer_ 2 1
          = .ok [some [1], some [], some [2]]
      ∧ construct_at [some [1], some [], some [2]] 2 [3] = .ok [some [1], some [], some [3]]
      ∧ Vector.Emplace ownerOps (Vector.build [[1], [2]] 3) 2 [3]
          = .ok (Vector.build [[1], [], [3]] 3, 2)
      ∧ Vector.get (Vector.build [[1], [], [3]] 3) 1 = .ok ([] : List Nat)
      ∧ ¬ Vector.Holds (Vector.build [[1], [], [3]] 3) ([[1], [2], [3]] : List (List Nat)) := by
  refine ⟨by decide, rfl, rfl, rfl, rfl, by decide⟩

/-- C20 (fails when `new_size == size == capacity`): for every element type and every sequence
`s`, on the valid full vector holding `s` the call `Resize(size())` evaluates
`data_[new_size]` with an index equal to the capacity, so the assertion `index < capacity_`
of `RawMemory::operator[]` fails and the call stops there; `Resize(0)` on the
default-constructed vector is one such call. -/
theorem C20_resize_indexes_at_capacity {α : Type} (E : ElemOps α) (s : List α) :
    Vector.Holds (Vector.build s s.length) s
      ∧ (Vector.build s s.length).Size = (Vector.build s s.length).Capacity
      ∧ (Vector.build s s.length).data_.index s.length = .error .assertion
      ∧ Vector.Resize E (Vector.build s s.length) s.length = .error .assertion
      ∧ Vector.Resize E Vector.empty 0 = .error .assertion := by
  refine ⟨Holds_build s s.length (Nat.le_refl _), rfl, ?_, Resize_build_trap E s, rfl⟩
  simp [Vector.build, RawMemory.index]

end VectorLib
